import Mathlib

/-!
# The Royal Chess: rules engine of `script.js`

A shallow embedding of the `ChessGame` class: the board, the per-piece movement
rules, check / checkmate / stalemate detection, move application, the energy
and power layer, and the click handlers that drive the game.

Conventions of the embedding.

* A piece is a colour and a kind; the source encodes it as one letter, upper
  case for white and lower case for black.
* Coordinates are integers; the user interface supplies rows and columns in
  `0..7`.  A board is a total map from coordinates to cells, a cell being an
  optional piece (`null` is `none`).
* Where a class method is defined twice in the source, the later definition is
  the one JavaScript runs; it keeps the source name.  The shadowed first
  definition of `activatePower` is kept under the name `activatePowerFirst`.
* Fields that only feed the renderer (`legalMoves`, `mood`, the clocks, the
  sound switch, `activePowers`) are left out of the state.
* The functions whose name ends in `T` evaluate the same source lines on the
  8x8 array itself: they record every read `this.board[row][col]`, throw on a
  row outside `0..7`, and give the loop of `isPathClear` a step budget.
-/

namespace Chess

/-! ## Data model -/

inductive Color where
  | white
  | black
deriving DecidableEq, Repr

inductive Kind where
  | p
  | r
  | n
  | b
  | q
  | k
deriving DecidableEq, Repr

structure Piece where
  color : Color
  kind : Kind
deriving DecidableEq, Repr

abbrev Cell := Option Piece

abbrev Square := Int × Int

abbrev Board := Int → Int → Cell

/-- The expression `color === "white" ? "black" : "white"` of the source. -/
def opponentOf (c : Color) : Color :=
  if c = Color.white then Color.black else Color.white

/-- A record with one entry per colour, as in `{ white: ..., black: ... }`. -/
structure PerColor (α : Type) where
  white : α
  black : α
deriving DecidableEq, Repr

def PerColor.get {α : Type} (m : PerColor α) : Color → α
  | Color.white => m.white
  | Color.black => m.black

def PerColor.set {α : Type} (m : PerColor α) (c : Color) (v : α) : PerColor α :=
  match c with
  | Color.white => { m with white := v }
  | Color.black => { m with black := v }

structure DoubleMove where
  active : Bool
  movesMade : Nat
deriving DecidableEq, Repr

structure Stats where
  moves : Nat
  captures : Nat
  powersUsed : Nat
deriving DecidableEq, Repr

inductive GamePhase where
  | setup
  | playing
  | ended
deriving DecidableEq, Repr

/-- The argument handed to `endGame`. -/
inductive Winner where
  | color (c : Color)
  | draw
  | opponent
deriving DecidableEq, Repr

/-- The keys of `powersCost`; `other` stands for any string that is not a key. -/
inductive Power where
  | queenRush
  | doubleTurn
  | teleport
  | shield
  | other
deriving DecidableEq, Repr

/-- The fields of a `ChessGame` object that the rules engine reads or writes.
`winner` records the argument of the last `endGame` call (the source only
renders it); `promotionData` is `undefined` until the first promotion. -/
structure State where
  board : Board
  currentPlayer : Color
  gameState : GamePhase
  selectedSquare : Option Square
  moveHistory : List (Square × Square)
  capturedPieces : PerColor (List Piece)
  lastMove : Option (Square × Square)
  energy : PerColor Int
  shieldedPieces : PerColor (List Square)
  doubleMove : DoubleMove
  queenRushActive : Bool
  teleportActive : Bool
  shieldMode : Bool
  stats : PerColor Stats
  promotionData : Option Square
  winner : Option Winner

def maxEnergy : Int := 5

def powersCost : Power → Option Int
  | Power.queenRush => some 3
  | Power.doubleTurn => some 4
  | Power.teleport => some 5
  | Power.shield => some 2
  | Power.other => none

/-! ## Board -/

def getCell (rows : List (List Cell)) (r c : Int) : Cell :=
  if 0 ≤ r ∧ 0 ≤ c then (rows.getD r.toNat []).getD c.toNat none else none

/-- A board given by its rows, as the array literal of `initBoard`. -/
def boardOfRows (rows : List (List Cell)) : Board := fun r c => getCell rows r c

/-- The assignment `this.board[row][col] = v`. -/
def setCell (b : Board) (row col : Int) (v : Cell) : Board :=
  fun r c => if r = row ∧ c = col then v else b r c

def wP (kind : Kind) : Cell := some ⟨Color.white, kind⟩

def bP (kind : Kind) : Cell := some ⟨Color.black, kind⟩

def initRows : List (List Cell) :=
  [ [bP Kind.r, bP Kind.n, bP Kind.b, bP Kind.q, bP Kind.k, bP Kind.b, bP Kind.n, bP Kind.r],
    [bP Kind.p, bP Kind.p, bP Kind.p, bP Kind.p, bP Kind.p, bP Kind.p, bP Kind.p, bP Kind.p],
    [none, none, none, none, none, none, none, none],
    [none, none, none, none, none, none, none, none],
    [none, none, none, none, none, none, none, none],
    [none, none, none, none, none, none, none, none],
    [wP Kind.p, wP Kind.p, wP Kind.p, wP Kind.p, wP Kind.p, wP Kind.p, wP Kind.p, wP Kind.p],
    [wP Kind.r, wP Kind.n, wP Kind.b, wP Kind.q, wP Kind.k, wP Kind.b, wP Kind.n, wP Kind.r] ]

def initBoard : Board := boardOfRows initRows

def getPieceColor : Cell → Option Color
  | none => none
  | some x => some x.color

def getPieceType : Cell → Option Kind
  | none => none
  | some x => some x.kind

def idx8 : List Int := [0, 1, 2, 3, 4, 5, 6, 7]

/-- The squares in the order of the nested loops `for r in 0..7, for c in 0..7`. -/
def allSquares : List Square :=
  idx8.flatMap fun r => idx8.map fun c => (r, c)

/-! ## Movement rules -/

/-- The `while` loop of `isPathClear`, with a step budget; `none` when the
budget runs out before the loop ends. -/
def isPathClearLoop (b : Board) (rowStep colStep toRow toCol : Int) :
    Nat → Int → Int → Option Bool
  | 0, _, _ => none
  | fuel + 1, row, col =>
    if row ≠ toRow ∨ col ≠ toCol then
      if (b row col).isSome then some false
      else isPathClearLoop b rowStep colStep toRow toCol fuel (row + rowStep) (col + colStep)
    else some true

/-- The budget of `isPathClear`: on an 8x8 board the loop of an aligned pair
tests its condition at most 7 times.  `isRookMove` and `isBishopMove` call
`isPathClear` on aligned pairs only. -/
def pathFuel : Nat := 8

def isPathClear (s : State) (fromRow fromCol toRow toCol : Int) : Bool :=
  let rowStep := Int.sign (toRow - fromRow)
  let colStep := Int.sign (toCol - fromCol)
  (isPathClearLoop s.board rowStep colStep toRow toCol pathFuel
    (fromRow + rowStep) (fromCol + colStep)).getD false

def isPawnMove (s : State) (fromRow fromCol toRow toCol : Int) (color : Color) : Bool :=
  let direction : Int := if color = Color.white then -1 else 1
  let startRow : Int := if color = Color.white then 6 else 1
  let rowDiff := toRow - fromRow
  let colDiff := (toCol - fromCol).natAbs
  if colDiff = 0 ∧ rowDiff = direction ∧ (s.board toRow toCol).isNone then true
  else if colDiff = 0 ∧ fromRow = startRow ∧ rowDiff = 2 * direction ∧
      (s.board toRow toCol).isNone ∧ (s.board (fromRow + direction) fromCol).isNone then true
  else if colDiff = 1 ∧ rowDiff = direction ∧ (s.board toRow toCol).isSome then true
  else
    match s.lastMove with
    | none => false
    | some (lastFrom, lastTo) =>
      if colDiff = 1 ∧ rowDiff = direction then
        decide (lastTo.1 = fromRow ∧ lastTo.2 = toCol ∧
          getPieceType (s.board fromRow toCol) = some Kind.p ∧
          getPieceColor (s.board fromRow toCol) ≠ some color ∧
          (lastFrom.1 - lastTo.1).natAbs = 2)
      else false

def isRookMove (s : State) (fromRow fromCol toRow toCol : Int) : Bool :=
  if fromRow ≠ toRow ∧ fromCol ≠ toCol then false
  else isPathClear s fromRow fromCol toRow toCol

def isBishopMove (s : State) (fromRow fromCol toRow toCol : Int) : Bool :=
  if (fromRow - toRow).natAbs ≠ (fromCol - toCol).natAbs then false
  else isPathClear s fromRow fromCol toRow toCol

def isKnightMove (fromRow fromCol toRow toCol : Int) : Bool :=
  let rowDiff := (fromRow - toRow).natAbs
  let colDiff := (fromCol - toCol).natAbs
  decide ((rowDiff = 2 ∧ colDiff = 1) ∨ (rowDiff = 1 ∧ colDiff = 2))

def isQueenMove (s : State) (fromRow fromCol toRow toCol : Int) : Bool :=
  isRookMove s fromRow fromCol toRow toCol || isBishopMove s fromRow fromCol toRow toCol

def isKingMove (s : State) (fromRow fromCol toRow toCol : Int) : Bool :=
  if getPieceType (s.board toRow toCol) = some Kind.k then false
  else decide ((fromRow - toRow).natAbs ≤ 1 ∧ (fromCol - toCol).natAbs ≤ 1)

/-- Lines 93-132 of `isLegalMove`: everything before the `if (!testMode)` block.
This is the value of `isLegalMove(..., true)`, which changes no state. -/
def isLegalMoveRule (s : State) (fromRow fromCol toRow toCol : Int) : Bool :=
  match s.board fromRow fromCol with
  | none => false
  | some piece =>
    if getPieceColor (s.board toRow toCol) = some piece.color then false
    else if s.queenRushActive ∧ piece.color = s.currentPlayer then
      isQueenMove s fromRow fromCol toRow toCol
    else
      match piece.kind with
      | Kind.p => isPawnMove s fromRow fromCol toRow toCol piece.color
      | Kind.r => isRookMove s fromRow fromCol toRow toCol
      | Kind.n => isKnightMove fromRow fromCol toRow toCol
      | Kind.b => isBishopMove s fromRow fromCol toRow toCol
      | Kind.q => isQueenMove s fromRow fromCol toRow toCol
      | Kind.k => isKingMove s fromRow fromCol toRow toCol

/-! ## Check detection -/

/-- The second, effective definition of `findKing`. -/
def findKing (s : State) (color : Color) : Option Square :=
  allSquares.find? fun sq => decide (s.board sq.1 sq.2 = some ⟨color, Kind.k⟩)

def isInCheck (s : State) (color : Color) : Bool :=
  match findKing s color with
  | none => false
  | some (kingRow, kingCol) =>
    allSquares.any fun sq =>
      decide (getPieceColor (s.board sq.1 sq.2) = some (opponentOf color)) &&
        isLegalMoveRule s sq.1 sq.2 kingRow kingCol

/-- The method `isLegalMove` as a state transformer: the answer and the state
the call leaves behind.  With `testMode` off the board is copied, the move is
played on `this.board`, the mover's king is tested, and the copy is put back. -/
def isLegalMoveSt (s : State) (fromRow fromCol toRow toCol : Int) (testMode : Bool) :
    Bool × State :=
  match s.board fromRow fromCol with
  | none => (false, s)
  | some piece =>
    if isLegalMoveRule s fromRow fromCol toRow toCol = false then (false, s)
    else if testMode = false then
      let tempBoard := s.board
      let s1 := { s with board := setCell s.board toRow toCol (some piece) }
      let s2 := { s1 with board := setCell s1.board fromRow fromCol none }
      if isInCheck s2 piece.color then (false, { s2 with board := tempBoard })
      else (true, { s2 with board := tempBoard })
    else (true, s)

/-- The value returned by `isLegalMove`. -/
def isLegalMove (s : State) (fromRow fromCol toRow toCol : Int) (testMode : Bool) : Bool :=
  (isLegalMoveSt s fromRow fromCol toRow toCol testMode).1

def getLegalMoves (s : State) (row col : Int) : List Square :=
  allSquares.filter fun sq => isLegalMove s row col sq.1 sq.2 false

/-- The double loop shared by `isCheckmate` and `isStalemate`: some piece of
`color` has a legal destination. -/
def hasLegalMove (s : State) (color : Color) : Bool :=
  allSquares.any fun sq =>
    decide (getPieceColor (s.board sq.1 sq.2) = some color) &&
      decide (0 < (getLegalMoves s sq.1 sq.2).length)

def isCheckmate (s : State) (color : Color) : Bool :=
  if isInCheck s color = false then false
  else !hasLegalMove s color

def isStalemate (s : State) (color : Color) : Bool :=
  if isInCheck s color then false
  else !hasLegalMove s color

/-! ## Move application -/

/-- What `movePiece` returns: `false`, `"promotion"` or `"success"`. -/
inductive MoveResult where
  | rejected
  | promotion
  | success
deriving DecidableEq, Repr

def addEnergy (s : State) (color : Color) (amount : Int) : State :=
  { s with energy := s.energy.set color (min (s.energy.get color + amount) maxEnergy) }

/-- The statement `this.capturedPieces[color].push(x)`. -/
def pushCaptured (s : State) (x : Piece) : State :=
  { s with capturedPieces :=
      s.capturedPieces.set x.color (s.capturedPieces.get x.color ++ [x]) }

/-- The statement `this.stats[color].captures++`. -/
def incCaptures (s : State) (color : Color) : State :=
  let st := s.stats.get color
  { s with stats := s.stats.set color { st with captures := st.captures + 1 } }

/-- The statement `this.stats[color].moves++`. -/
def incMoves (s : State) (color : Color) : State :=
  let st := s.stats.get color
  { s with stats := s.stats.set color { st with moves := st.moves + 1 } }

/-- The statement `this.stats[color].powersUsed += n`. -/
def addPowersUsed (s : State) (color : Color) (n : Nat) : State :=
  let st := s.stats.get color
  { s with stats := s.stats.set color { st with powersUsed := st.powersUsed + n } }

/-- The statement `this.energy[color] -= cost`. -/
def spendEnergy (s : State) (color : Color) (cost : Int) : State :=
  { s with energy := s.energy.set color (s.energy.get color - cost) }

/-- The statement `this.shieldedPieces[color].push({ row, col })`. -/
def pushShielded (s : State) (color : Color) (row col : Int) : State :=
  { s with shieldedPieces :=
      s.shieldedPieces.set color (s.shieldedPieces.get color ++ [(row, col)]) }

/-- The shield test of `movePiece`: the destination holds a piece and its
square is listed in the shielded set of that piece's colour. -/
def isShielded (s : State) (toRow toCol : Int) : Bool :=
  match s.board toRow toCol with
  | none => false
  | some x => (s.shieldedPieces.get x.color).any fun sq => decide (sq.1 = toRow ∧ sq.2 = toCol)

/-- The en-passant block of `movePiece` (lines 342-354) for a mover of colour
`pieceColor`. -/
def enPassantStep (s : State) (piece : Piece) (fromRow fromCol toRow toCol : Int) : State :=
  if piece.kind = Kind.p ∧ (s.board toRow toCol).isNone ∧ fromCol ≠ toCol then
    match s.board fromRow toCol with
    | none => s
    | some capturedPiece =>
      let s1 := { s with board := setCell s.board fromRow toCol none }
      let s2 := pushCaptured s1 capturedPiece
      let s3 := addEnergy s2 piece.color 1
      incCaptures s3 piece.color
  else s

/-- The normal-capture block of `movePiece` (lines 356-363); `captured` was
read before the en-passant block ran. -/
def captureStep (s : State) (piece : Piece) (captured : Cell) : State :=
  match captured with
  | none => s
  | some x =>
    let s1 := pushCaptured s x
    let s2 := incCaptures s1 piece.color
    addEnergy s2 piece.color 1

/-- The method `movePiece`.  `none` is the `TypeError` the source raises when
the source square is empty and the move is not rejected (`this.stats[null]`);
its callers only call it after `isLegalMove` has accepted the move. -/
def movePiece (s : State) (fromRow fromCol toRow toCol : Int) : Option (MoveResult × State) :=
  let captured := s.board toRow toCol
  if getPieceType captured = some Kind.k then some (MoveResult.rejected, s)
  else if isShielded s toRow toCol then some (MoveResult.rejected, s)
  else
    match s.board fromRow fromCol with
    | none => none
    | some piece =>
      let s1 := enPassantStep s piece fromRow fromCol toRow toCol
      let s2 := captureStep s1 piece captured
      let s3 := { s2 with board := setCell s2.board toRow toCol (some piece) }
      let s4 := { s3 with board := setCell s3.board fromRow fromCol none }
      if piece.kind = Kind.p ∧
          ((piece.color = Color.white ∧ toRow = 0) ∨ (piece.color = Color.black ∧ toRow = 7)) then
        some (MoveResult.promotion, s4)
      else
        let s5 := { s4 with lastMove := some ((fromRow, fromCol), (toRow, toCol)) }
        let s6 := { s5 with moveHistory := s5.moveHistory ++ [((fromRow, fromCol), (toRow, toCol))] }
        some (MoveResult.success, incMoves s6 piece.color)

/-- The state after the two capture blocks of `movePiece`. -/
def afterCaptures (s : State) (piece : Piece) (fromRow fromCol toRow toCol : Int) : State :=
  captureStep (enPassantStep s piece fromRow fromCol toRow toCol) piece (s.board toRow toCol)

/-- The bookkeeping of one capture of `x` by a mover of colour `mover`, from
state `s` to state `s1`. -/
def CaptureBooked (s s1 : State) (mover : Color) (x : Piece) : Prop :=
  s1.energy.get mover = min (s.energy.get mover + 1) 5 ∧
  s1.energy.get (opponentOf mover) = s.energy.get (opponentOf mover) ∧
  (s1.stats.get mover).captures = (s.stats.get mover).captures + 1 ∧
  s1.capturedPieces.get x.color = s.capturedPieces.get x.color ++ [x] ∧
  s1.capturedPieces.get (opponentOf x.color) = s.capturedPieces.get (opponentOf x.color)

/-! ## Energy and powers -/

/-- Both definitions of `canActivatePower` compute this. -/
def canActivatePower (s : State) (color : Color) (power : Power) : Bool :=
  match powersCost power with
  | none => false
  | some cost => decide (s.energy.get color ≥ cost)

/-- The effect switch shared by both definitions of `activatePower`. -/
def powerEffect (s : State) (power : Power) : State :=
  match power with
  | Power.queenRush => { s with queenRushActive := true }
  | Power.doubleTurn => { s with doubleMove := { active := true, movesMade := 0 } }
  | Power.teleport => { s with teleportActive := true }
  | Power.shield => s
  | Power.other => s

/-- The second, effective definition of `activatePower` (lines 1135-1155): it
has no energy test of its own.  For a string that is no key of `powersCost`
the source subtracts `undefined`: the call returns with the energy `NaN` and
`powersUsed` raised.  Integer energies cannot show that state, so such a call
is `none` here; `handlePowerClick`, the only caller, never makes it, because
`canActivatePower` is false for such a string. -/
def activatePower (s : State) (color : Color) (power : Power) : Option State :=
  match powersCost power with
  | none => none
  | some cost =>
    let s1 := spendEnergy s color cost
    let s2 := addPowersUsed s1 color 1
    some (powerEffect s2 power)

/-- The first definition of `activatePower` (lines 407-429), shadowed by the
second; called without a square.  The pair is the returned boolean and the
state.  With no square `activateShield` returns `false` and changes nothing. -/
def activatePowerFirst (s : State) (color : Color) (power : Power) : Bool × State :=
  if canActivatePower s color power = false then (false, s)
  else
    match powersCost power with
    | none => (false, s)
    | some cost =>
      let s1 := spendEnergy s color cost
      let s2 := addPowersUsed s1 color 1
      match power with
      | Power.shield => (false, s2)
      | Power.other => (false, s2)
      | _ => (true, powerEffect s2 power)

def switchPlayer (s : State) : State :=
  { s with currentPlayer := opponentOf s.currentPlayer }

def endGame (s : State) (w : Winner) : State :=
  { s with gameState := GamePhase.ended, winner := some w }

/-- The turn hand-over after a completed move (lines 792-799 and 1206-1213). -/
def advanceTurn (s : State) : State :=
  let s1 :=
    if s.doubleMove.active = false then switchPlayer s
    else { s with doubleMove := { s.doubleMove with movesMade := s.doubleMove.movesMade + 1 } }
  if s1.doubleMove.active ∧ s1.doubleMove.movesMade ≥ 2 then
    switchPlayer { s1 with doubleMove := { active := false, movesMade := 0 } }
  else s1

/-- The end-of-game test run on the colour now to move (lines 804-821, 738-751
and 1216-1231). -/
def checkGameEnd (s : State) : State :=
  let playerToMove := s.currentPlayer
  let opponent := opponentOf playerToMove
  if isCheckmate s playerToMove then endGame s (Winner.color opponent)
  else if isStalemate s playerToMove then endGame s Winner.draw
  else s

/-! ## Click handlers -/

/-- The shield branch of `handleSquareClick` (lines 668-690). -/
def shieldClick (s : State) (row col : Int) : State :=
  match s.board row col with
  | none => s
  | some piece =>
    if piece.color = s.currentPlayer then
      let s1 := pushShielded s s.currentPlayer row col
      let s2 := { s1 with shieldMode := false }
      let s3 := { s2 with selectedSquare := none }
      let s4 := { s3 with board := setCell s3.board row col (some piece) }
      switchPlayer s4
    else s

/-- The queen-rush branch of `handleSquareClick` (lines 693-704).  The value
returned by `movePiece` is not looked at.  The `none` branch is never taken. -/
def queenRushClick (s : State) (fromRow fromCol row col : Int) : State :=
  let s1 :=
    if isLegalMove s fromRow fromCol row col false then
      match movePiece s fromRow fromCol row col with
      | none => s
      | some res => res.2
    else s
  let s2 := { s1 with queenRushActive := false }
  let s3 := { s2 with selectedSquare := none }
  switchPlayer s3

/-- The teleport branch of `handleSquareClick` (lines 707-759). -/
def teleportClick (s : State) (fromRow fromCol row col : Int) : State :=
  let piece := s.board row col
  if piece.isNone ∨ getPieceColor piece ≠ some s.currentPlayer then
    let teleportPiece := s.board fromRow fromCol
    let targetPiece := s.board row col
    let s1 :=
      match targetPiece with
      | none => s
      | some x =>
        let a := pushCaptured s x
        let b := incCaptures a s.currentPlayer
        addEnergy b s.currentPlayer 1
    let s2 := { s1 with board := setCell s1.board row col teleportPiece }
    let s3 := { s2 with board := setCell s2.board fromRow fromCol none }
    let s4 := { s3 with lastMove := some ((fromRow, fromCol), (row, col)) }
    let s5 := { s4 with moveHistory := s4.moveHistory ++ [((fromRow, fromCol), (row, col))] }
    let s6 := incMoves s5 s5.currentPlayer
    let s7 := { s6 with teleportActive := false }
    let s8 := { s7 with selectedSquare := none }
    checkGameEnd (switchPlayer s8)
  else s

/-- The last branch of `handleSquareClick` (lines 761-823): select a piece of
the colour to move, or try the move from the selected square.  `isLegalMove`
leaves the state as it found it, so its state is not threaded; the `none`
branch is never taken. -/
def moveClick (s : State) (row col : Int) : State :=
  if getPieceColor (s.board row col) = some s.currentPlayer then
    { s with selectedSquare := some (row, col) }
  else
    match s.selectedSquare with
    | none => s
    | some (fromRow, fromCol) =>
      if isLegalMove s fromRow fromCol row col false then
        match movePiece s fromRow fromCol row col with
        | none => s
        | some (MoveResult.rejected, s1) => { s1 with selectedSquare := some (fromRow, fromCol) }
        | some (MoveResult.promotion, s1) =>
          let s2 := { s1 with selectedSquare := none }
          { s2 with promotionData := some (row, col) }
        | some (MoveResult.success, s1) =>
          let s2 := { s1 with selectedSquare := none }
          checkGameEnd (advanceTurn s2)
      else s

def handleSquareClick (s : State) (row col : Int) : State :=
  if s.shieldMode then shieldClick s row col
  else
    match s.selectedSquare with
    | some (fromRow, fromCol) =>
      if s.queenRushActive then queenRushClick s fromRow fromCol row col
      else if s.teleportActive then teleportClick s fromRow fromCol row col
      else moveClick s row col
    | none => moveClick s row col

/-- The method `handlePowerClick`, `power` being `item.dataset.power`. -/
def handlePowerClick (s : State) (power : Power) : State :=
  if canActivatePower s s.currentPlayer power then
    match power with
    | Power.shield =>
      let s1 := { s with shieldMode := true }
      let s2 := spendEnergy s1 s1.currentPlayer ((powersCost power).getD 0)
      addPowersUsed s2 s2.currentPlayer 1
    | Power.queenRush =>
      let s1 := { s with queenRushActive := true }
      (activatePower s1 s1.currentPlayer power).getD s1
    | _ => (activatePower s s.currentPlayer power).getD s
  else s

def comboEnergyCost : Int := 6

def activateCombo (s : State) : State :=
  if s.energy.get s.currentPlayer ≥ comboEnergyCost then
    let s1 := spendEnergy s s.currentPlayer comboEnergyCost
    let s2 := addPowersUsed s1 s1.currentPlayer 2
    let s3 := { s2 with doubleMove := { active := true, movesMade := 0 } }
    { s3 with queenRushActive := true }
  else s

/-- The method `promotePawn`; `kind` is the letter handed over by the
promotion button. -/
def promotePawn (s : State) (kind : Kind) : State :=
  match s.promotionData with
  | none => s
  | some (row, col) =>
    let color := getPieceColor (s.board row col)
    let newPiece : Piece :=
      if color = some Color.white then ⟨Color.white, kind⟩ else ⟨Color.black, kind⟩
    let s1 := { s with board := setCell s.board row col (some newPiece) }
    let s2 := { s1 with promotionData := none }
    checkGameEnd (advanceTurn s2)

/-! ## Game flow -/

def startGame (s : State) : State :=
  { s with gameState := GamePhase.playing }

def emptyStats : PerColor Stats :=
  { white := { moves := 0, captures := 0, powersUsed := 0 },
    black := { moves := 0, captures := 0, powersUsed := 0 } }

def rematch (s : State) : State :=
  { s with
    board := initBoard,
    currentPlayer := Color.white,
    selectedSquare := none,
    moveHistory := [],
    capturedPieces := { white := [], black := [] },
    energy := { white := 0, black := 0 },
    stats := emptyStats,
    gameState := GamePhase.playing }

def returnToSetup (s : State) : State :=
  { s with gameState := GamePhase.setup }

/-- The debug helper `runCheckDetection`. -/
def runCheckDetection (s : State) : State :=
  if isCheckmate s Color.white then endGame s (Winner.color Color.black)
  else if isCheckmate s Color.black then endGame s (Winner.color Color.white)
  else if isStalemate s Color.white || isStalemate s Color.black then endGame s Winner.draw
  else s

/-- The state built by the constructor. -/
def initialState : State :=
  { board := initBoard,
    currentPlayer := Color.white,
    gameState := GamePhase.setup,
    selectedSquare := none,
    moveHistory := [],
    capturedPieces := { white := [], black := [] },
    lastMove := none,
    energy := { white := 0, black := 0 },
    shieldedPieces := { white := [], black := [] },
    doubleMove := { active := false, movesMade := 0 },
    queenRushActive := false,
    teleportActive := false,
    shieldMode := false,
    stats := emptyStats,
    promotionData := none,
    winner := none }

/-- The events the page wires to the engine in `initializeEventListeners`,
`renderBoard` and `startTimer`; `timeout` is the clock tick at which the time
of the colour to move runs out. -/
inductive Cmd where
  | click (row col : Int)
  | power (p : Power)
  | combo
  | promote (kind : Kind)
  | start
  | rematch
  | toSetup
  | forfeit
  | debugCheck
  | debugForceEnd
  | timeout

def step (s : State) : Cmd → State
  | Cmd.click row col => handleSquareClick s row col
  | Cmd.power p => handlePowerClick s p
  | Cmd.combo => activateCombo s
  | Cmd.promote kind => promotePawn s kind
  | Cmd.start => startGame s
  | Cmd.rematch => rematch s
  | Cmd.toSetup => returnToSetup s
  | Cmd.forfeit => endGame s Winner.opponent
  | Cmd.debugCheck => runCheckDetection s
  | Cmd.debugForceEnd => endGame s (Winner.color Color.white)
  | Cmd.timeout => endGame s (Winner.color (opponentOf s.currentPlayer))

def run (s : State) (cmds : List Cmd) : State :=
  cmds.foldl step s

/-- A click comes from one of the 64 squares drawn by `renderBoard`. -/
def Cmd.onBoard : Cmd → Bool
  | Cmd.click row col => decide (0 ≤ row ∧ row < 8 ∧ 0 ≤ col ∧ col < 8)
  | _ => true

/-- The states the engine reaches from the constructor's state through its
event handlers. -/
inductive Reachable : State → Prop where
  | init : Reachable initialState
  | step (s : State) (c : Cmd) : Reachable s → c.onBoard = true → Reachable (step s c)

/-- Both energies lie in `[0, maxEnergy]`. -/
def EnergyOk (s : State) : Prop :=
  ∀ c : Color, 0 ≤ s.energy.get c ∧ s.energy.get c ≤ maxEnergy

/-- The number of squares of the 8x8 board that hold the piece `x`. -/
def countPieces (b : Board) (x : Piece) : Nat :=
  (allSquares.filter fun sq => decide (b sq.1 sq.2 = some x)).length

/-! ## Board reads

A second reading of the movement rules, in which the board is the 8x8 array of
the source: every evaluation of `this.board[row][col]` is recorded, a read of a
row outside `0..7` throws, and the `while` loop of `isPathClear` has a step
budget. -/

/-- The outcome of evaluating an expression of the engine: its value and the
squares `(row, col)` of the reads `this.board[row][col]` it made, in order;
`none` when the evaluation throws or the step budget runs out. -/
abbrev Traced (α : Type) := Option (α × List Square)

/-- An expression that reads nothing. -/
def retE {α : Type} (a : α) : Traced α := some (a, [])

/-- Evaluation of `x`, then of `f` on its value; the reads are concatenated. -/
def bindE {α β : Type} (x : Traced α) (f : α → Traced β) : Traced β :=
  match x with
  | none => none
  | some (a, reads) =>
    match f a with
    | none => none
    | some (b, more) => some (b, reads ++ more)

/-- The short-circuit `x || y`: `y` is evaluated only if `x` is false. -/
def orElseE (x y : Traced Bool) : Traced Bool :=
  bindE x fun a => if a then retE true else y

/-- The short-circuit `x && y`: `y` is evaluated only if `x` is true. -/
def andThenE (x y : Traced Bool) : Traced Bool :=
  bindE x fun a => if a then y else retE false

/-- A loop over `l` that returns true at the first element for which `f` does. -/
def anyE {α : Type} (f : α → Traced Bool) : List α → Traced Bool
  | [] => retE false
  | a :: l => orElseE (f a) (anyE f l)

/-- The read `this.board[row][col]` of an 8x8 array.  For `row` outside `0..7`
`this.board[row]` is `undefined` and indexing it throws a TypeError; for `col`
outside `0..7` the value is `undefined`, which every test of the engine treats
like `null`. -/
def readBoard (b : Board) (row col : Int) : Traced Cell :=
  if 0 ≤ row ∧ row < 8 then
    some (if 0 ≤ col ∧ col < 8 then b row col else none, [(row, col)])
  else none

/-- The `while` loop of `isPathClear` with its reads; one unit of `fuel` for
each test of the loop condition. -/
def isPathClearLoopT (b : Board) (rowStep colStep toRow toCol : Int) :
    Nat → Int → Int → Traced Bool
  | 0, _, _ => none
  | fuel + 1, row, col =>
    if row ≠ toRow ∨ col ≠ toCol then
      bindE (readBoard b row col) fun x =>
        if x.isSome then retE false
        else isPathClearLoopT b rowStep colStep toRow toCol fuel (row + rowStep) (col + colStep)
    else retE true

def isPathClearT (fuel : Nat) (s : State) (fromRow fromCol toRow toCol : Int) : Traced Bool :=
  let rowStep := Int.sign (toRow - fromRow)
  let colStep := Int.sign (toCol - fromCol)
  isPathClearLoopT s.board rowStep colStep toRow toCol fuel (fromRow + rowStep) (fromCol + colStep)

/-- The method `isPawnMove` with its reads; the conditions of each `if` are
evaluated left to right and stop at the first false one. -/
def isPawnMoveT (s : State) (fromRow fromCol toRow toCol : Int) (color : Color) : Traced Bool :=
  let direction : Int := if color = Color.white then -1 else 1
  let startRow : Int := if color = Color.white then 6 else 1
  let rowDiff := toRow - fromRow
  let colDiff := (toCol - fromCol).natAbs
  let oneStep : Traced Bool :=
    if colDiff = 0 ∧ rowDiff = direction then
      bindE (readBoard s.board toRow toCol) fun x => retE x.isNone
    else retE false
  let twoSteps : Traced Bool :=
    if colDiff = 0 ∧ fromRow = startRow ∧ rowDiff = 2 * direction then
      andThenE (bindE (readBoard s.board toRow toCol) fun x => retE x.isNone)
        (bindE (readBoard s.board (fromRow + direction) fromCol) fun x => retE x.isNone)
    else retE false
  let capture : Traced Bool :=
    if colDiff = 1 ∧ rowDiff = direction then
      bindE (readBoard s.board toRow toCol) fun x => retE x.isSome
    else retE false
  let enPassant : Traced Bool :=
    match s.lastMove with
    | none => retE false
    | some (lastFrom, lastTo) =>
      if colDiff = 1 ∧ rowDiff = direction ∧ lastTo.1 = fromRow ∧ lastTo.2 = toCol then
        andThenE
          (bindE (readBoard s.board fromRow toCol) fun x =>
            retE (decide (getPieceType x = some Kind.p)))
          (bindE (readBoard s.board fromRow toCol) fun x =>
            retE (decide (getPieceColor x ≠ some color ∧ (lastFrom.1 - lastTo.1).natAbs = 2)))
      else retE false
  orElseE oneStep (orElseE twoSteps (orElseE capture enPassant))

def isRookMoveT (fuel : Nat) (s : State) (fromRow fromCol toRow toCol : Int) : Traced Bool :=
  if fromRow ≠ toRow ∧ fromCol ≠ toCol then retE false
  else isPathClearT fuel s fromRow fromCol toRow toCol

def isBishopMoveT (fuel : Nat) (s : State) (fromRow fromCol toRow toCol : Int) : Traced Bool :=
  if (fromRow - toRow).natAbs ≠ (fromCol - toCol).natAbs then retE false
  else isPathClearT fuel s fromRow fromCol toRow toCol

def isQueenMoveT (fuel : Nat) (s : State) (fromRow fromCol toRow toCol : Int) : Traced Bool :=
  orElseE (isRookMoveT fuel s fromRow fromCol toRow toCol)
    (isBishopMoveT fuel s fromRow fromCol toRow toCol)

def isKingMoveT (s : State) (fromRow fromCol toRow toCol : Int) : Traced Bool :=
  bindE (readBoard s.board toRow toCol) fun targetPiece =>
    if getPieceType targetPiece = some Kind.k then retE false
    else retE (decide ((fromRow - toRow).natAbs ≤ 1 ∧ (fromCol - toCol).natAbs ≤ 1))

/-- Lines 96-132 of `isLegalMove`, after `piece` has been read from the source
square: the own-piece test and the movement rule. -/
def movementRuleT (fuel : Nat) (s : State) (piece : Piece)
    (fromRow fromCol toRow toCol : Int) : Traced Bool :=
  bindE (readBoard s.board toRow toCol) fun targetPiece =>
    if getPieceColor targetPiece = some piece.color then retE false
    else if s.queenRushActive ∧ piece.color = s.currentPlayer then
      isQueenMoveT fuel s fromRow fromCol toRow toCol
    else
      match piece.kind with
      | Kind.p => isPawnMoveT s fromRow fromCol toRow toCol piece.color
      | Kind.r => isRookMoveT fuel s fromRow fromCol toRow toCol
      | Kind.n => retE (isKnightMove fromRow fromCol toRow toCol)
      | Kind.b => isBishopMoveT fuel s fromRow fromCol toRow toCol
      | Kind.q => isQueenMoveT fuel s fromRow fromCol toRow toCol
      | Kind.k => isKingMoveT s fromRow fromCol toRow toCol

/-- The call `isLegalMove(..., true)` with its reads. -/
def isLegalMoveRuleT (fuel : Nat) (s : State) (fromRow fromCol toRow toCol : Int) : Traced Bool :=
  bindE (readBoard s.board fromRow fromCol) fun x =>
    match x with
    | none => retE false
    | some piece => movementRuleT fuel s piece fromRow fromCol toRow toCol

/-- The loops of `findKing` with their reads. -/
def findKingT (s : State) (color : Color) : List Square → Traced (Option Square)
  | [] => retE none
  | sq :: rest =>
    bindE (readBoard s.board sq.1 sq.2) fun piece =>
      if piece = some ⟨color, Kind.k⟩ then retE (some sq) else findKingT s color rest

def isInCheckT (fuel : Nat) (s : State) (color : Color) : Traced Bool :=
  bindE (findKingT s color allSquares) fun kingPos =>
    match kingPos with
    | none => retE false
    | some (kingRow, kingCol) =>
      anyE (fun sq : Square =>
        bindE (readBoard s.board sq.1 sq.2) fun piece =>
          if getPieceColor piece = some (opponentOf color) then
            isLegalMoveRuleT fuel s sq.1 sq.2 kingRow kingCol
          else retE false) allSquares

/-- The method `isLegalMove` with its reads.  The copy `this.board.map(...)`
and the two assignments of the simulation are not reads of a cell by index and
are not recorded. -/
def isLegalMoveT (fuel : Nat) (s : State) (fromRow fromCol toRow toCol : Int)
    (testMode : Bool) : Traced Bool :=
  bindE (readBoard s.board fromRow fromCol) fun x =>
    match x with
    | none => retE false
    | some piece =>
      bindE (movementRuleT fuel s piece fromRow fromCol toRow toCol) fun isLegal =>
        if isLegal = false then retE false
        else if testMode = false then
          let s1 := { s with board := setCell s.board toRow toCol (some piece) }
          let s2 := { s1 with board := setCell s1.board fromRow fromCol none }
          bindE (isInCheckT fuel s2 piece.color) fun inCheck => retE (!inCheck)
        else retE true

/-! ## Vocabulary of the movement claims -/

/-- The coordinate `x` is one of `0..7`. -/
abbrev InRange (x : Int) : Prop := 0 ≤ x ∧ x < 8

/-- The forward direction of a pawn: `-1` for white, `+1` for black. -/
def pawnDirection (c : Color) : Int := if c = Color.white then -1 else 1

/-- The start rank of a pawn: row 6 for white, row 1 for black. -/
def pawnStartRow (c : Color) : Int := if c = Color.white then 6 else 1

/-- The movement rule `isLegalMove` picks by the piece's kind when queen-rush
does not apply (the `switch` of lines 110-129). -/
def ruleOfKind (s : State) (piece : Piece) (fromRow fromCol toRow toCol : Int) : Bool :=
  match piece.kind with
  | Kind.p => isPawnMove s fromRow fromCol toRow toCol piece.color
  | Kind.r => isRookMove s fromRow fromCol toRow toCol
  | Kind.n => isKnightMove fromRow fromCol toRow toCol
  | Kind.b => isBishopMove s fromRow fromCol toRow toCol
  | Kind.q => isQueenMove s fromRow fromCol toRow toCol
  | Kind.k => isKingMove s fromRow fromCol toRow toCol

/-- Every square strictly between `(fromRow, fromCol)` and `(toRow, toCol)` is
empty: the squares `from + k * step` for `0 < k < d`, where `step` is the unit
step towards `to` on each axis and `d` the larger of the two distances. -/
def SquaresBetweenEmpty (b : Board) (fromRow fromCol toRow toCol : Int) : Prop :=
  ∀ k : Int, 0 < k → k < max (toRow - fromRow).natAbs (toCol - fromCol).natAbs →
    b (fromRow + k * Int.sign (toRow - fromRow)) (fromCol + k * Int.sign (toCol - fromCol)) = none

/-- No piece of `color` on the board has a destination on the board that
`isLegalMove` accepts with check-safety on. -/
def NoLegalMove (s : State) (color : Color) : Prop :=
  ∀ r c tr tc, InRange r → InRange c → InRange tr → InRange tc →
    getPieceColor (s.board r c) = some color → isLegalMove s r c tr tc false = false

/-- The pawn of `piece` arrives on its farthest rank: the promotion test of
`movePiece` (lines 370-374). -/
def reachesLastRank (piece : Piece) (toRow : Int) : Prop :=
  piece.kind = Kind.p ∧
    ((piece.color = Color.white ∧ toRow = 0) ∨ (piece.color = Color.black ∧ toRow = 7))

/-- The square lies on the 8x8 board. -/
def OnBoard (sq : Square) : Prop := InRange sq.1 ∧ InRange sq.2

/-- The evaluation `x` ends with the value `v`, and every square it reads
satisfies `P`. -/
def Returns {α : Type} (x : Traced α) (v : α) (P : Square → Prop) : Prop :=
  ∃ reads, x = some (v, reads) ∧ ∀ sq ∈ reads, P sq

/-- The square `sq` lies strictly between `(fromRow, fromCol)` and
`(toRow, toCol)`: it is `from + k * step` for some `0 < k < d`, with `step` and
`d` as in `SquaresBetweenEmpty`. -/
def StrictlyBetween (fromRow fromCol toRow toCol : Int) (sq : Square) : Prop :=
  ∃ k : Int, 0 < k ∧ k < max (toRow - fromRow).natAbs (toCol - fromCol).natAbs ∧
    sq = (fromRow + k * Int.sign (toRow - fromRow), fromCol + k * Int.sign (toCol - fromCol))

/-! ## Sample games -/

/-- A state in shield mode: the initial position with white about to pick the
piece to protect. -/
def shieldPickState : State := { initialState with shieldMode := true }

/-- Two clicks: select the piece on `(a, b)`, then click `(c, d)`. -/
def moveClicks (a b c d : Int) : List Cmd := [Cmd.click a b, Cmd.click c d]

/-- A game from the initial position: 1. e4 a5 2. e5 Ra6 3. Ke2 Rb6 4. Ke3 Rb5
5. Kf4 a4 6. Kg5 d5.  Black's last move is a two-square pawn advance that lands
beside the white pawn on (3, 4); the white king and the black rook share row 3
with only the two pawns between them. -/
def pinGame : List Cmd :=
  [Cmd.start] ++ moveClicks 6 4 4 4 ++ moveClicks 1 0 3 0 ++ moveClicks 4 4 3 4 ++
    moveClicks 0 0 2 0 ++ moveClicks 7 4 6 4 ++ moveClicks 2 0 2 1 ++ moveClicks 6 4 5 4 ++
    moveClicks 2 1 3 1 ++ moveClicks 5 4 4 5 ++ moveClicks 3 0 4 0 ++ moveClicks 4 5 3 6 ++
    moveClicks 1 3 3 3

def pinState : State := run initialState pinGame

/-- The state `movePiece` leaves behind (the state itself if it raises). -/
def stateAfterMove (s : State) (fromRow fromCol toRow toCol : Int) : State :=
  match movePiece s fromRow fromCol toRow toCol with
  | some res => res.2
  | none => s

/-- The state `movePiece` leaves after the en-passant capture (3, 4) -> (2, 3)
in `pinState`. -/
def pinAfter : State := stateAfterMove pinState 3 4 2 3

/-- A game from the initial position in which white captures five times and
black twice: 1. e4 a6 2. Bxa6 Nxa6 3. Qh5 Nb4 4. Qxh7 Nxa2 5. Qxh8 b6 6. Qxg8 b5
7. Qxg7. -/
def raidGame : List Cmd :=
  [Cmd.start] ++ moveClicks 6 4 4 4 ++ moveClicks 1 0 2 0 ++ moveClicks 7 5 2 0 ++
    moveClicks 0 1 2 0 ++ moveClicks 7 3 3 7 ++ moveClicks 2 0 4 1 ++ moveClicks 3 7 1 7 ++
    moveClicks 4 1 6 0 ++ moveClicks 1 7 0 7 ++ moveClicks 1 1 2 1 ++ moveClicks 0 7 0 6 ++
    moveClicks 2 1 3 1 ++ moveClicks 0 6 1 6

/-- After `raidGame`: black buys the shield and puts it on its queen (0, 3);
white buys the teleport and selects its queen on (1, 6). -/
def teleportGame : List Cmd :=
  raidGame ++ [Cmd.power Power.shield, Cmd.click 0 3, Cmd.power Power.teleport, Cmd.click 1 6]

def teleportReady : State := run initialState teleportGame

/-- A state with white to move, white energy 5 and black energy 3. -/
def richState : State := { initialState with energy := { white := 5, black := 3 } }

/-- The initial position with queen-rush active for white. -/
def queenRushState : State := { initialState with queenRushActive := true }

/-- Two kings face to face: the white king on (4, 4), the black king on (3, 4). -/
def kingsFaceState : State :=
  { initialState with
    board := setCell (setCell (fun _ _ => none) 4 4 (wP Kind.k)) 3 4 (bP Kind.k) }

/-- Scenario A after 1. e4. -/
def scenarioA1 : State := run initialState ([Cmd.start] ++ moveClicks 6 4 4 4)

/-- Scenario A after 1. e4 d5. -/
def scenarioA2 : State := run scenarioA1 (moveClicks 1 3 3 3)

/-- Scenario A after 1. e4 d5, with queen-rush active for white. -/
def scenarioA2Rush : State := { scenarioA2 with queenRushActive := true }

/-- The game 1. f3 e5 2. g4 Qh4, which ends in checkmate. -/
def foolsMateGame : List Cmd :=
  [Cmd.start] ++ moveClicks 6 5 5 5 ++ moveClicks 1 4 3 4 ++ moveClicks 6 6 4 6 ++
    moveClicks 0 3 4 7

def foolsMate : State := run initialState foolsMateGame

/-- A game from the initial position: 1. e4 d5 2. exd5 Nc6 3. dxc6 a6 4. cxb7 f6
5. Bxa6 f5 6. h4 f4 7. h5 g5, after which white, with energy 4, buys the
double turn.  Black's last move is the two-square advance (1, 6) -> (3, 6)
beside the white pawn on (3, 7); a white pawn stands on (1, 1) with (0, 1)
empty. -/
def promoGame : List Cmd :=
  [Cmd.start] ++ moveClicks 6 4 4 4 ++ moveClicks 1 3 3 3 ++ moveClicks 4 4 3 3 ++
    moveClicks 0 1 2 2 ++ moveClicks 3 3 2 2 ++ moveClicks 1 0 2 0 ++ moveClicks 2 2 1 1 ++
    moveClicks 1 5 2 5 ++ moveClicks 7 5 2 0 ++ moveClicks 2 5 3 5 ++ moveClicks 6 7 4 7 ++
    moveClicks 3 5 4 5 ++ moveClicks 4 7 3 7 ++ moveClicks 1 6 3 6 ++
    [Cmd.power Power.doubleTurn]

def promoBefore : State := run initialState promoGame

/-- After `promoGame`, white plays (1, 1) -> (0, 1) as the first move of its
double turn and promotes to a queen; white is still to move. -/
def promoState : State := run promoBefore (moveClicks 1 1 0 1 ++ [Cmd.promote Kind.q])

/-- A promotion pending on (0, 4): a white pawn has just arrived there; the
white king stands on (7, 4), the black king on (0, 7), white is to move. -/
def promotionPending : State :=
  { initialState with
    board := setCell (setCell (setCell (fun _ _ => none) 7 4 (wP Kind.k)) 0 7 (bP Kind.k))
      0 4 (wP Kind.p),
    promotionData := some (0, 4) }

/-- Two kings two rows apart on an otherwise empty board: the white king on
(4, 4), the black king on (2, 4), white to move. -/
def kingsApartState : State :=
  { initialState with
    board := setCell (setCell (fun _ _ => none) 4 4 (wP Kind.k)) 2 4 (bP Kind.k) }

/-- In `promoBefore` (double turn just bought) white selects its pawn on
(3, 7). -/
def doubleTurnFirstReady : State := handleSquareClick promoBefore 3 7

/-- White's first move of the double turn, (3, 7) -> (2, 7). -/
def doubleTurnFirstDone : State := handleSquareClick doubleTurnFirstReady 2 7

/-- White selects its pawn on (6, 3). -/
def doubleTurnSecondReady : State := handleSquareClick doubleTurnFirstDone 6 3

/-- White's second move of the double turn, (6, 3) -> (5, 3). -/
def doubleTurnSecondDone : State := handleSquareClick doubleTurnSecondReady 5 3

/-- A game from the initial position in which black captures three times:
1. a3 e5 2. f3 Bxa3 3. g4 Bxb2 4. c3 Bxc1 5. c4, after which black buys the
queen-rush. -/
def rushGame : List Cmd :=
  [Cmd.start] ++ moveClicks 6 0 5 0 ++ moveClicks 1 4 3 4 ++ moveClicks 6 5 5 5 ++
    moveClicks 0 5 5 0 ++ moveClicks 6 6 4 6 ++ moveClicks 5 0 6 1 ++ moveClicks 6 2 5 2 ++
    moveClicks 6 1 7 2 ++ moveClicks 5 2 4 2 ++ [Cmd.power Power.queenRush]

/-- After `rushGame`, black selects its queen on (0, 3). -/
def rushQueenReady : State := run initialState (rushGame ++ [Cmd.click 0 3])

/-- The queen goes (0, 3) -> (4, 7) in the queen-rush branch. -/
def rushMated : State := handleSquareClick rushQueenReady 4 7

/-- After `rushGame`, black selects its pawn on (1, 3). -/
def rushPawnReady : State := run initialState (rushGame ++ [Cmd.click 1 3])

/-- The pawn goes (1, 3) -> (2, 2) in the queen-rush branch. -/
def rushPawnMoved : State := handleSquareClick rushPawnReady 2 2

/-- A game from the initial position in which white captures three times:
1. e4 d5 2. exd5 Nc6 3. dxc6 a6 4. cxb7 f6, after which white buys the
queen-rush and selects its pawn on (1, 1); the square (0, 1) is empty. -/
def rushPromoGame : List Cmd :=
  [Cmd.start] ++ moveClicks 6 4 4 4 ++ moveClicks 1 3 3 3 ++ moveClicks 4 4 3 3 ++
    moveClicks 0 1 2 2 ++ moveClicks 3 3 2 2 ++ moveClicks 1 0 2 0 ++ moveClicks 2 2 1 1 ++
    moveClicks 1 5 2 5 ++ [Cmd.power Power.queenRush, Cmd.click 1 1]

def rushPromoReady : State := run initialState rushPromoGame

/-- The pawn goes (1, 1) -> (0, 1) in the queen-rush branch. -/
def rushPromoDone : State := handleSquareClick rushPromoReady 0 1

/-- A game from the initial position in which white captures six times and
black five: 1. Nf3 Nf6 2. Ne5 Ne4 3. Nxf7 Nxf2 4. Nxd8 Nxd1 5. Nxb7 Nxb2
6. Bxb2 Bxb7 7. Bxg7 Bxg2 8. Bxf8.  Both energies are 5 and black is to move. -/
def tradeGame : List Cmd :=
  [Cmd.start] ++ moveClicks 7 6 5 5 ++ moveClicks 0 6 2 5 ++ moveClicks 5 5 3 4 ++
    moveClicks 2 5 4 4 ++ moveClicks 3 4 1 5 ++ moveClicks 4 4 6 5 ++ moveClicks 1 5 0 3 ++
    moveClicks 6 5 7 3 ++ moveClicks 0 3 1 1 ++ moveClicks 7 3 6 1 ++ moveClicks 7 2 6 1 ++
    moveClicks 0 2 1 1 ++ moveClicks 6 1 1 6 ++ moveClicks 1 1 6 6 ++ moveClicks 1 6 0 5

/-- After `tradeGame` black buys the queen-rush and the shield and puts the
shield on its king: the shield selection passes the turn to white with
`queenRushActive` still set. -/
def leftoverRushGame : List Cmd :=
  tradeGame ++ [Cmd.power Power.queenRush, Cmd.power Power.shield, Cmd.click 0 4]

def leftoverRush : State := run initialState leftoverRushGame

/-- White, with energy 5, buys the double turn. -/
def rushDoubleBought : State := handlePowerClick leftoverRush Power.doubleTurn

/-- White selects its pawn on (6, 0). -/
def rushDoubleReady : State := handleSquareClick rushDoubleBought 6 0

/-- White's first move after buying the double turn, (6, 0) -> (5, 0). -/
def rushDoubleDone : State := handleSquareClick rushDoubleReady 5 0

/-! # Theorems -/

/-! ## Basic facts about the data model -/

@[simp] theorem PerColor.get_set_same {α : Type} (m : PerColor α) (c : Color) (v : α) :
    (m.set c v).get c = v := by
  cases c <;> rfl

theorem PerColor.get_set_ne {α : Type} (m : PerColor α) (c d : Color) (v : α) (h : d ≠ c) :
    (m.set c v).get d = m.get d := by
  cases c <;> cases d <;> first | rfl | exact absurd rfl h

theorem PerColor.get_set {α : Type} (m : PerColor α) (c d : Color) (v : α) :
    (m.set c v).get d = if d = c then v else m.get d := by
  cases c <;> cases d <;> rfl

@[simp] theorem opponentOf_ne (c : Color) : opponentOf c ≠ c := by
  cases c <;> decide

@[simp] theorem ne_opponentOf (c : Color) : c ≠ opponentOf c := by
  cases c <;> decide

theorem setCell_apply (b : Board) (row col : Int) (v : Cell) (r c : Int) :
    setCell b row col v r c = if r = row ∧ c = col then v else b r c := rfl

@[simp] theorem setCell_same (b : Board) (row col : Int) (v : Cell) :
    setCell b row col v row col = v := by
  simp [setCell]

theorem setCell_self (b : Board) (row col : Int) : setCell b row col (b row col) = b := by
  funext r c
  by_cases h : r = row ∧ c = col
  · obtain ⟨h1, h2⟩ := h
    subst h1 h2
    simp [setCell]
  · simp [setCell, h]

/-! ## `movePiece` does not raise after `isLegalMove` -/

theorem isLegalMove_source_occupied (s : State) (fromRow fromCol toRow toCol : Int)
    (testMode : Bool) (h : isLegalMove s fromRow fromCol toRow toCol testMode = true) :
    ∃ piece, s.board fromRow fromCol = some piece := by
  unfold isLegalMove isLegalMoveSt at h
  cases hp : s.board fromRow fromCol with
  | none =>
    rw [hp] at h
    exact Bool.noConfusion h
  | some piece => exact ⟨piece, rfl⟩

theorem movePiece_isSome_of_source (s : State) (fromRow fromCol toRow toCol : Int)
    (piece : Piece) (hp : s.board fromRow fromCol = some piece) :
    (movePiece s fromRow fromCol toRow toCol).isSome = true := by
  unfold movePiece
  simp only [hp]
  split
  · rfl
  · split
    · rfl
    · split <;> rfl

/-- The `none` branches of `queenRushClick` and `moveClick` are never taken:
a move accepted by `isLegalMove` starts on an occupied square, and from an
occupied square `movePiece` returns a result. -/
theorem movePiece_isSome_of_isLegalMove (s : State) (fromRow fromCol toRow toCol : Int)
    (h : isLegalMove s fromRow fromCol toRow toCol false = true) :
    (movePiece s fromRow fromCol toRow toCol).isSome = true := by
  obtain ⟨piece, hp⟩ := isLegalMove_source_occupied s fromRow fromCol toRow toCol false h
  exact movePiece_isSome_of_source s fromRow fromCol toRow toCol piece hp

/-! ## C2: check simulation restores the board -/

/-- C2.  A call `isLegalMove(from, to)` with check-safety on leaves the whole
state as it found it, whatever it returns and for all coordinates (those of the
64 squares included): the board is cell for cell the board before the call, so
no piece is lost or duplicated, and `lastMove`, `energy` and the colour to move
are unchanged. -/
theorem isLegalMove_restores_state (s : State) (fromRow fromCol toRow toCol : Int) :
    (isLegalMoveSt s fromRow fromCol toRow toCol false).2 = s ∧
    (∀ r c, (isLegalMoveSt s fromRow fromCol toRow toCol false).2.board r c = s.board r c) ∧
    (isLegalMoveSt s fromRow fromCol toRow toCol false).2.lastMove = s.lastMove ∧
    (isLegalMoveSt s fromRow fromCol toRow toCol false).2.energy = s.energy ∧
    (isLegalMoveSt s fromRow fromCol toRow toCol false).2.currentPlayer = s.currentPlayer := by
  have key : (isLegalMoveSt s fromRow fromCol toRow toCol false).2 = s := by
    unfold isLegalMoveSt
    cases hp : s.board fromRow fromCol with
    | none => rfl
    | some piece =>
      by_cases hrule : isLegalMoveRule s fromRow fromCol toRow toCol = false
      · simp [hrule]
      · by_cases hchk : isInCheck
            { s with board := setCell (setCell s.board toRow toCol (some piece)) fromRow fromCol none }
            piece.color = true
        · simp [hrule, hchk]
        · simp [hrule, hchk]
  refine ⟨key, ?_, ?_, ?_, ?_⟩
  · intro r c
    rw [key]
  · rw [key]
  · rw [key]
  · rw [key]

/-! ## C3: a king is never captured by `movePiece` -/

/-- C3.  If the destination square holds a king, of either colour, then
`movePiece` returns `false` and the state it leaves is the state it found:
board, captured lists, energy, stats, `lastMove` and `moveHistory` unchanged. -/
theorem movePiece_king_rejected (s : State) (fromRow fromCol toRow toCol : Int)
    (hk : getPieceType (s.board toRow toCol) = some Kind.k) :
    movePiece s fromRow fromCol toRow toCol = some (MoveResult.rejected, s) := by
  simp [movePiece, hk]

/-- Witness for C3: a white pawn sent onto the black king's square. -/
theorem movePiece_king_rejected_witness :
    getPieceType (initialState.board 0 4) = some Kind.k ∧
    movePiece initialState 6 4 0 4 = some (MoveResult.rejected, initialState) :=
  ⟨by decide, movePiece_king_rejected initialState 6 4 0 4 (by decide)⟩

/-! ## C4: the shield test of `movePiece` -/

theorem isShielded_iff (s : State) (toRow toCol : Int) (x : Piece)
    (hx : s.board toRow toCol = some x) :
    isShielded s toRow toCol = true ↔ (toRow, toCol) ∈ s.shieldedPieces.get x.color := by
  simp only [isShielded, hx, List.any_eq_true, decide_eq_true_eq]
  constructor
  · rintro ⟨sq, hmem, h1, h2⟩
    obtain ⟨a, b⟩ := sq
    simp only at h1 h2
    subst h1 h2
    exact hmem
  · intro h
    exact ⟨(toRow, toCol), h, rfl, rfl⟩

theorem movePiece_shielded_rejected (s : State) (fromRow fromCol toRow toCol : Int) (x : Piece)
    (hx : s.board toRow toCol = some x)
    (hsh : (toRow, toCol) ∈ s.shieldedPieces.get x.color) :
    movePiece s fromRow fromCol toRow toCol = some (MoveResult.rejected, s) := by
  have h := (isShielded_iff s toRow toCol x hx).mpr hsh
  unfold movePiece
  by_cases hk : getPieceType (s.board toRow toCol) = some Kind.k
  · simp [hk]
  · simp [hk, h]

theorem movePiece_applied (s : State) (fromRow fromCol toRow toCol : Int) (piece : Piece)
    (hp : s.board fromRow fromCol = some piece)
    (hk : getPieceType (s.board toRow toCol) ≠ some Kind.k)
    (hsh : isShielded s toRow toCol = false) :
    ∃ res s1, movePiece s fromRow fromCol toRow toCol = some (res, s1) ∧
      res ≠ MoveResult.rejected := by
  unfold movePiece
  simp only [hk, hsh, hp, if_false, Bool.false_eq_true]
  split
  · exact ⟨_, _, rfl, by decide⟩
  · exact ⟨_, _, rfl, by decide⟩

theorem shieldClick_board (s : State) (row col : Int) :
    (shieldClick s row col).board = s.board := by
  unfold shieldClick
  cases hp : s.board row col with
  | none => rfl
  | some piece =>
    by_cases hc : piece.color = s.currentPlayer
    · simp only [hc, if_true, switchPlayer, pushShielded]
      rw [← hp]
      exact setCell_self s.board row col
    · simp [hc]

theorem shieldClick_shielded (s : State) (row col : Int) (x : Piece)
    (hx : s.board row col = some x) (hc : x.color = s.currentPlayer) :
    (row, col) ∈ (shieldClick s row col).shieldedPieces.get x.color := by
  unfold shieldClick
  simp [hx, hc, switchPlayer, pushShielded]

/-- C4.  For a destination square holding a piece `x`: (1) if the square is in
the shielded set of `x`'s colour, `movePiece` returns `false` and leaves the
state unchanged, whatever `queenRushActive` is; (2) the shield selection of
`handleSquareClick` (shield mode on, `x` of the colour to move) puts the
square into that set, after which `movePiece` onto it is rejected with the
state unchanged; (3) the test does not misfire: if `x` is not a king and its
square is not in the shielded set of its colour, a move from an occupied
square onto it is not rejected. -/
theorem movePiece_shield_check (s : State) (fromRow fromCol toRow toCol : Int) (x : Piece)
    (hx : s.board toRow toCol = some x) :
    ((toRow, toCol) ∈ s.shieldedPieces.get x.color →
      movePiece s fromRow fromCol toRow toCol = some (MoveResult.rejected, s)) ∧
    (s.shieldMode = true → x.color = s.currentPlayer →
      (toRow, toCol) ∈ (handleSquareClick s toRow toCol).shieldedPieces.get x.color ∧
      movePiece (handleSquareClick s toRow toCol) fromRow fromCol toRow toCol =
        some (MoveResult.rejected, handleSquareClick s toRow toCol)) ∧
    (x.kind ≠ Kind.k → (toRow, toCol) ∉ s.shieldedPieces.get x.color →
      s.board fromRow fromCol ≠ none →
      ∃ res s1, movePiece s fromRow fromCol toRow toCol = some (res, s1) ∧
        res ≠ MoveResult.rejected) := by
  refine ⟨movePiece_shielded_rejected s fromRow fromCol toRow toCol x hx, ?_, ?_⟩
  · intro hmode hc
    have hclick : handleSquareClick s toRow toCol = shieldClick s toRow toCol := by
      simp [handleSquareClick, hmode]
    rw [hclick]
    have hmem := shieldClick_shielded s toRow toCol x hx hc
    refine ⟨hmem, ?_⟩
    apply movePiece_shielded_rejected _ fromRow fromCol toRow toCol x _ hmem
    rw [shieldClick_board]
    exact hx
  · intro hk hsh hp
    cases hpiece : s.board fromRow fromCol with
    | none => exact absurd hpiece hp
    | some piece =>
      apply movePiece_applied s fromRow fromCol toRow toCol piece hpiece
      · simp [hx, getPieceType, hk]
      · cases hs : isShielded s toRow toCol with
        | false => rfl
        | true => exact absurd ((isShielded_iff s toRow toCol x hx).mp hs) hsh

/-- Witness for C4, on the initial position with white picking the piece to
shield: before the selection a move (1, 4) -> (6, 4) onto the white pawn is
applied; the click on (6, 4) puts the square into white's shielded set, and
from then on the same move is rejected with the state unchanged. -/
theorem movePiece_shield_check_witness :
    shieldPickState.board 6 4 = some ⟨Color.white, Kind.p⟩ ∧
    (∃ res s1, movePiece shieldPickState 1 4 6 4 = some (res, s1) ∧
      res ≠ MoveResult.rejected) ∧
    ((6, 4) ∈ (handleSquareClick shieldPickState 6 4).shieldedPieces.get Color.white ∧
      movePiece (handleSquareClick shieldPickState 6 4) 1 4 6 4 =
        some (MoveResult.rejected, handleSquareClick shieldPickState 6 4)) ∧
    movePiece (handleSquareClick shieldPickState 6 4) 7 0 6 4 =
      some (MoveResult.rejected, handleSquareClick shieldPickState 6 4) :=
  ⟨by decide,
    (movePiece_shield_check shieldPickState 1 4 6 4 ⟨Color.white, Kind.p⟩ (by decide)).2.2
      (by decide) (by decide) (by decide),
    (movePiece_shield_check shieldPickState 1 4 6 4 ⟨Color.white, Kind.p⟩ (by decide)).2.1
      rfl rfl,
    (movePiece_shield_check (handleSquareClick shieldPickState 6 4) 7 0 6 4
      ⟨Color.white, Kind.p⟩ (by decide)).1 (by decide)⟩

/-! ## C9: energy and capture bookkeeping of `movePiece` -/

theorem movePiece_not_rejected (s s1 : State) (fromRow fromCol toRow toCol : Int)
    (res : MoveResult) (hm : movePiece s fromRow fromCol toRow toCol = some (res, s1))
    (hres : res ≠ MoveResult.rejected) :
    getPieceType (s.board toRow toCol) ≠ some Kind.k ∧ isShielded s toRow toCol = false := by
  unfold movePiece at hm
  by_cases hk : getPieceType (s.board toRow toCol) = some Kind.k
  · simp [hk] at hm
    exact absurd hm.1.symm hres
  · cases hs : isShielded s toRow toCol with
    | false => exact ⟨hk, rfl⟩
    | true =>
      simp [hk, hs] at hm
      exact absurd hm.1.symm hres

theorem movePiece_fields (s s1 : State) (fromRow fromCol toRow toCol : Int) (piece : Piece)
    (res : MoveResult) (hp : s.board fromRow fromCol = some piece)
    (hm : movePiece s fromRow fromCol toRow toCol = some (res, s1))
    (hres : res ≠ MoveResult.rejected) :
    s1.energy = (afterCaptures s piece fromRow fromCol toRow toCol).energy ∧
    s1.capturedPieces = (afterCaptures s piece fromRow fromCol toRow toCol).capturedPieces ∧
    (s1.stats.get piece.color).captures =
      ((afterCaptures s piece fromRow fromCol toRow toCol).stats.get piece.color).captures ∧
    s1.board = setCell (setCell (afterCaptures s piece fromRow fromCol toRow toCol).board
      toRow toCol (some piece)) fromRow fromCol none := by
  obtain ⟨hk, hs⟩ := movePiece_not_rejected s s1 fromRow fromCol toRow toCol res hm hres
  unfold movePiece at hm
  simp only [hk, hs, hp, if_false, Bool.false_eq_true] at hm
  split at hm
  · simp only [Option.some.injEq, Prod.mk.injEq] at hm
    obtain ⟨-, rfl⟩ := hm
    simp [afterCaptures]
  · simp only [Option.some.injEq, Prod.mk.injEq] at hm
    obtain ⟨-, rfl⟩ := hm
    simp [afterCaptures, incMoves]



theorem afterCaptures_normal (s : State) (piece x : Piece) (fromRow fromCol toRow toCol : Int)
    (hx : s.board toRow toCol = some x) :
    afterCaptures s piece fromRow fromCol toRow toCol =
      addEnergy (incCaptures (pushCaptured s x) piece.color) piece.color 1 := by
  simp [afterCaptures, enPassantStep, captureStep, hx]

theorem afterCaptures_enPassant (s : State) (piece x : Piece) (fromRow fromCol toRow toCol : Int)
    (hkind : piece.kind = Kind.p) (hempty : s.board toRow toCol = none) (hcol : fromCol ≠ toCol)
    (hx : s.board fromRow toCol = some x) :
    afterCaptures s piece fromRow fromCol toRow toCol =
      incCaptures (addEnergy (pushCaptured
        { s with board := setCell s.board fromRow toCol none } x) piece.color 1) piece.color := by
  simp [afterCaptures, enPassantStep, captureStep, hx, hkind, hempty, hcol]

theorem afterCaptures_none (s : State) (piece : Piece) (fromRow fromCol toRow toCol : Int)
    (hempty : s.board toRow toCol = none)
    (hno : ¬ (piece.kind = Kind.p ∧ fromCol ≠ toCol ∧ s.board fromRow toCol ≠ none)) :
    afterCaptures s piece fromRow fromCol toRow toCol = s := by
  simp only [afterCaptures, enPassantStep, captureStep, hempty]
  by_cases h : piece.kind = Kind.p ∧ fromCol ≠ toCol
  · have hn : s.board fromRow toCol = none := by
      by_contra hc
      exact hno ⟨h.1, h.2, hc⟩
    simp [h.1, h.2, hn]
  · simp only [Option.isNone_none, true_and]
    rw [if_neg h]

theorem captureBooked_normal (s : State) (mover : Color) (x : Piece) :
    CaptureBooked s (addEnergy (incCaptures (pushCaptured s x) mover) mover 1) mover x := by
  simp [CaptureBooked, addEnergy, incCaptures, pushCaptured, maxEnergy, PerColor.get_set]

theorem captureBooked_enPassant (s : State) (b : Board) (mover : Color) (x : Piece) :
    CaptureBooked s (incCaptures (addEnergy (pushCaptured { s with board := b } x) mover 1) mover)
      mover x := by
  simp [CaptureBooked, addEnergy, incCaptures, pushCaptured, maxEnergy, PerColor.get_set]



/-- C9.  For a move applied by `movePiece` (source square occupied, result
not `false`) by a piece of colour `c`: (1) a normal capture, the destination
holding `x`, and (2) an en-passant capture, a pawn changing column onto an
empty square with `x` on (source row, destination column), each set the
mover's energy to `min (before + 1) 5`, leave the opponent's energy unchanged,
raise the mover's `captures` by exactly 1 and append exactly `x` to the
captured list of `x`'s colour (the other list unchanged); in case (2) `x` is
taken off its square.  (3) Every other applied move captures nothing: all
squares but source and destination keep their content, and both energies, the
captured lists and the mover's `captures` are unchanged. -/
theorem movePiece_capture_accounting (s s1 : State) (fromRow fromCol toRow toCol : Int)
    (piece : Piece) (res : MoveResult) (hp : s.board fromRow fromCol = some piece)
    (hm : movePiece s fromRow fromCol toRow toCol = some (res, s1))
    (hres : res ≠ MoveResult.rejected) :
    (∀ x, s.board toRow toCol = some x → CaptureBooked s s1 piece.color x) ∧
    (∀ x, piece.kind = Kind.p → s.board toRow toCol = none → fromCol ≠ toCol →
      s.board fromRow toCol = some x →
      CaptureBooked s s1 piece.color x ∧ s1.board fromRow toCol = none) ∧
    (s.board toRow toCol = none →
      ¬ (piece.kind = Kind.p ∧ fromCol ≠ toCol ∧ s.board fromRow toCol ≠ none) →
      s1.energy = s.energy ∧ s1.capturedPieces = s.capturedPieces ∧
      (s1.stats.get piece.color).captures = (s.stats.get piece.color).captures ∧
      ∀ r c, ¬ (r = fromRow ∧ c = fromCol) → ¬ (r = toRow ∧ c = toCol) →
        s1.board r c = s.board r c) := by
  obtain ⟨he, hc, hst, hb⟩ :=
    movePiece_fields s s1 fromRow fromCol toRow toCol piece res hp hm hres
  refine ⟨?_, ?_, ?_⟩
  · intro x hx
    rw [afterCaptures_normal s piece x fromRow fromCol toRow toCol hx] at he hc hst
    have h := captureBooked_normal s piece.color x
    unfold CaptureBooked at h ⊢
    rw [he, hc, hst]
    exact h
  · intro x hkind hempty hcol hx
    rw [afterCaptures_enPassant s piece x fromRow fromCol toRow toCol hkind hempty hcol hx]
      at he hc hst hb
    have h := captureBooked_enPassant s (setCell s.board fromRow toCol none) piece.color x
    refine ⟨?_, ?_⟩
    · unfold CaptureBooked at h ⊢
      rw [he, hc, hst]
      exact h
    · rw [hb]
      have h1 : ¬ (fromRow = fromRow ∧ toCol = fromCol) := fun hh => hcol hh.2.symm
      have h2 : fromRow ≠ toRow := by
        intro hh
        rw [hh, hempty] at hx
        exact Option.noConfusion hx
      simp [setCell_apply, h1, incCaptures, addEnergy, pushCaptured, h2]
  · intro hempty hno
    rw [afterCaptures_none s piece fromRow fromCol toRow toCol hempty hno] at he hc hst hb
    refine ⟨he, hc, hst, ?_⟩
    intro r c h1 h2
    rw [hb]
    simp [setCell_apply, h1, h2]

/-! ## C8: the energy bounds are an invariant -/

@[simp] theorem switchPlayer_energy (s : State) : (switchPlayer s).energy = s.energy := rfl

@[simp] theorem endGame_energy (s : State) (w : Winner) : (endGame s w).energy = s.energy := rfl

@[simp] theorem incMoves_energy (s : State) (c : Color) : (incMoves s c).energy = s.energy := rfl

@[simp] theorem incCaptures_energy (s : State) (c : Color) :
    (incCaptures s c).energy = s.energy := rfl

@[simp] theorem pushCaptured_energy (s : State) (x : Piece) :
    (pushCaptured s x).energy = s.energy := rfl

@[simp] theorem addPowersUsed_energy (s : State) (c : Color) (n : Nat) :
    (addPowersUsed s c n).energy = s.energy := rfl

@[simp] theorem pushShielded_energy (s : State) (c : Color) (row col : Int) :
    (pushShielded s c row col).energy = s.energy := rfl

@[simp] theorem powerEffect_energy (s : State) (p : Power) : (powerEffect s p).energy = s.energy := by
  cases p <;> rfl

@[simp] theorem checkGameEnd_energy (s : State) : (checkGameEnd s).energy = s.energy := by
  unfold checkGameEnd
  simp only
  split
  · rfl
  · split <;> rfl

@[simp] theorem advanceTurn_energy (s : State) : (advanceTurn s).energy = s.energy := by
  unfold advanceTurn
  simp only
  split <;> split <;> rfl

theorem energyOk_of_energy_eq {s t : State} (h : t.energy = s.energy) (hs : EnergyOk s) :
    EnergyOk t := by
  intro c
  rw [h]
  exact hs c

theorem addEnergy_energyOk (s : State) (c : Color) (hs : EnergyOk s) :
    EnergyOk (addEnergy s c 1) := by
  intro d
  have hd := hs d
  have hc := hs c
  simp only [addEnergy, PerColor.get_set, maxEnergy] at *
  split
  · constructor
    · omega
    · omega
  · exact hd

theorem spendEnergy_energyOk (s : State) (c : Color) (cost : Int) (hs : EnergyOk s)
    (h0 : 0 ≤ cost) (hle : cost ≤ s.energy.get c) : EnergyOk (spendEnergy s c cost) := by
  intro d
  have hd := hs d
  have hc := hs c
  simp only [spendEnergy, PerColor.get_set, maxEnergy] at *
  split
  · constructor
    · omega
    · omega
  · exact hd

theorem enPassantStep_energyOk (s : State) (piece : Piece) (fromRow fromCol toRow toCol : Int)
    (hs : EnergyOk s) : EnergyOk (enPassantStep s piece fromRow fromCol toRow toCol) := by
  unfold enPassantStep
  split
  · split
    · exact hs
    · apply energyOk_of_energy_eq (incCaptures_energy _ _)
      apply addEnergy_energyOk
      exact energyOk_of_energy_eq rfl hs
  · exact hs

theorem captureStep_energyOk (s : State) (piece : Piece) (captured : Cell)
    (hs : EnergyOk s) : EnergyOk (captureStep s piece captured) := by
  unfold captureStep
  split
  · exact hs
  · apply addEnergy_energyOk
    exact energyOk_of_energy_eq rfl hs

theorem movePiece_energyOk (s s1 : State) (fromRow fromCol toRow toCol : Int) (res : MoveResult)
    (hm : movePiece s fromRow fromCol toRow toCol = some (res, s1)) (hs : EnergyOk s) :
    EnergyOk s1 := by
  unfold movePiece at hm
  simp only at hm
  split at hm
  · simp only [Option.some.injEq, Prod.mk.injEq] at hm
    rw [← hm.2]
    exact hs
  · split at hm
    · simp only [Option.some.injEq, Prod.mk.injEq] at hm
      rw [← hm.2]
      exact hs
    · split at hm
      · exact Option.noConfusion hm
      · rename_i piece hp
        have h2 := captureStep_energyOk _ piece (s.board toRow toCol)
          (enPassantStep_energyOk s piece fromRow fromCol toRow toCol hs)
        split at hm
        · simp only [Option.some.injEq, Prod.mk.injEq] at hm
          rw [← hm.2]
          exact energyOk_of_energy_eq rfl h2
        · simp only [Option.some.injEq, Prod.mk.injEq] at hm
          rw [← hm.2]
          exact energyOk_of_energy_eq rfl h2



theorem shieldClick_energyOk (s : State) (row col : Int) (hs : EnergyOk s) :
    EnergyOk (shieldClick s row col) := by
  unfold shieldClick
  split
  · exact hs
  · split
    · exact energyOk_of_energy_eq rfl hs
    · exact hs

theorem queenRushClick_energyOk (s : State) (fromRow fromCol row col : Int) (hs : EnergyOk s) :
    EnergyOk (queenRushClick s fromRow fromCol row col) := by
  unfold queenRushClick
  apply energyOk_of_energy_eq (s := if isLegalMove s fromRow fromCol row col false = true then
      match movePiece s fromRow fromCol row col with
      | none => s
      | some res => res.2
    else s) rfl
  split
  · cases hm : movePiece s fromRow fromCol row col with
    | none => exact hs
    | some res =>
      obtain ⟨r, s1⟩ := res
      exact movePiece_energyOk s s1 fromRow fromCol row col r hm hs
  · exact hs

theorem teleportClick_energyOk (s : State) (fromRow fromCol row col : Int) (hs : EnergyOk s) :
    EnergyOk (teleportClick s fromRow fromCol row col) := by
  unfold teleportClick
  simp only
  split
  · apply energyOk_of_energy_eq (checkGameEnd_energy _)
    apply energyOk_of_energy_eq (s := match s.board row col with
      | none => s
      | some x => addEnergy (incCaptures (pushCaptured s x) s.currentPlayer) s.currentPlayer 1)
    · rfl
    · split
      · exact hs
      · apply addEnergy_energyOk
        exact energyOk_of_energy_eq rfl hs
  · exact hs

theorem moveClick_energyOk (s : State) (row col : Int) (hs : EnergyOk s) :
    EnergyOk (moveClick s row col) := by
  unfold moveClick
  split
  · exact energyOk_of_energy_eq rfl hs
  · split
    · exact hs
    · split
      · split
        · exact hs
        · rename_i s1 hm
          exact energyOk_of_energy_eq rfl (movePiece_energyOk s s1 _ _ _ _ _ hm hs)
        · rename_i s1 hm
          exact energyOk_of_energy_eq rfl (movePiece_energyOk s s1 _ _ _ _ _ hm hs)
        · rename_i s1 hm
          apply energyOk_of_energy_eq (checkGameEnd_energy _)
          apply energyOk_of_energy_eq (advanceTurn_energy _)
          exact energyOk_of_energy_eq rfl (movePiece_energyOk s s1 _ _ _ _ _ hm hs)
      · exact hs

theorem handleSquareClick_energyOk (s : State) (row col : Int) (hs : EnergyOk s) :
    EnergyOk (handleSquareClick s row col) := by
  unfold handleSquareClick
  split
  · exact shieldClick_energyOk s row col hs
  · split
    · split
      · exact queenRushClick_energyOk s _ _ row col hs
      · split
        · exact teleportClick_energyOk s _ _ row col hs
        · exact moveClick_energyOk s row col hs
    · exact moveClick_energyOk s row col hs

theorem canActivatePower_cost (s : State) (c : Color) (p : Power)
    (h : canActivatePower s c p = true) :
    ∃ cost, powersCost p = some cost ∧ 0 ≤ cost ∧ cost ≤ s.energy.get c := by
  unfold canActivatePower at h
  cases p <;> simp [powersCost] at h ⊢ <;> exact h

theorem activatePower_energyOk (s s1 : State) (c : Color) (p : Power)
    (hcan : canActivatePower s c p = true) (ha : activatePower s c p = some s1)
    (hs : EnergyOk s) : EnergyOk s1 := by
  obtain ⟨cost, hcost, h0, hle⟩ := canActivatePower_cost s c p hcan
  unfold activatePower at ha
  simp only [hcost, Option.some.injEq] at ha
  rw [← ha]
  apply energyOk_of_energy_eq (powerEffect_energy _ _)
  apply energyOk_of_energy_eq (addPowersUsed_energy _ _ _)
  exact spendEnergy_energyOk s c cost hs h0 hle

theorem handlePowerClick_energyOk (s : State) (p : Power) (hs : EnergyOk s) :
    EnergyOk (handlePowerClick s p) := by
  unfold handlePowerClick
  split
  · rename_i hcan
    obtain ⟨cost, hcost, h0, hle⟩ := canActivatePower_cost s s.currentPlayer p hcan
    cases p with
    | shield =>
      simp only
      apply energyOk_of_energy_eq (addPowersUsed_energy _ _ _)
      simp only [powersCost] at hcost
      have hc : cost = 2 := by injection hcost with h; exact h.symm
      subst hc
      exact spendEnergy_energyOk { s with shieldMode := true } s.currentPlayer 2
        (energyOk_of_energy_eq rfl hs) h0 hle
    | queenRush =>
      simp only
      cases ha : activatePower { s with queenRushActive := true } s.currentPlayer Power.queenRush with
      | none => exact energyOk_of_energy_eq rfl hs
      | some s1 =>
        exact activatePower_energyOk { s with queenRushActive := true } s1 s.currentPlayer
          Power.queenRush hcan ha (energyOk_of_energy_eq rfl hs)
    | doubleTurn =>
      simp only
      cases ha : activatePower s s.currentPlayer Power.doubleTurn with
      | none => exact hs
      | some s1 => exact activatePower_energyOk s s1 s.currentPlayer _ hcan ha hs
    | teleport =>
      simp only
      cases ha : activatePower s s.currentPlayer Power.teleport with
      | none => exact hs
      | some s1 => exact activatePower_energyOk s s1 s.currentPlayer _ hcan ha hs
    | other =>
      simp [powersCost] at hcost
  · exact hs

theorem activateCombo_energyOk (s : State) (hs : EnergyOk s) : EnergyOk (activateCombo s) := by
  unfold activateCombo
  split
  · rename_i h
    apply energyOk_of_energy_eq (s := spendEnergy s s.currentPlayer comboEnergyCost) rfl
    apply spendEnergy_energyOk s s.currentPlayer comboEnergyCost hs
    · decide
    · exact h
  · exact hs

theorem promotePawn_energyOk (s : State) (kind : Kind) (hs : EnergyOk s) :
    EnergyOk (promotePawn s kind) := by
  unfold promotePawn
  split
  · exact hs
  · apply energyOk_of_energy_eq (checkGameEnd_energy _)
    apply energyOk_of_energy_eq (advanceTurn_energy _)
    exact energyOk_of_energy_eq rfl hs

theorem initialState_energyOk : EnergyOk initialState := by
  intro c
  cases c <;> decide

theorem rematch_energyOk (s : State) : EnergyOk (rematch s) := by
  intro c
  cases c <;> simp [rematch, PerColor.get, maxEnergy]

theorem step_energyOk (s : State) (c : Cmd) (hs : EnergyOk s) : EnergyOk (step s c) := by
  cases c with
  | click row col => exact handleSquareClick_energyOk s row col hs
  | power p => exact handlePowerClick_energyOk s p hs
  | combo => exact activateCombo_energyOk s hs
  | promote kind => exact promotePawn_energyOk s kind hs
  | start => exact energyOk_of_energy_eq rfl hs
  | rematch => exact rematch_energyOk s
  | toSetup => exact energyOk_of_energy_eq rfl hs
  | forfeit => exact energyOk_of_energy_eq rfl hs
  | debugCheck =>
    apply energyOk_of_energy_eq (s := s) _ hs
    simp only [step, runCheckDetection]
    split
    · rfl
    · split
      · rfl
      · split <;> rfl
  | debugForceEnd => exact energyOk_of_energy_eq rfl hs
  | timeout => exact energyOk_of_energy_eq rfl hs

/-- C8.  In every state reachable from the constructor's state through the
event handlers (moves and captures by `movePiece`, teleport captures, power
activation through `handlePowerClick` and `activatePower`, `activateCombo`,
promotion, rematch) both energies satisfy `0 ≤ energy[color] ≤ 5`. -/
theorem reachable_energy_bounds (s : State) (h : Reachable s) (c : Color) :
    0 ≤ s.energy.get c ∧ s.energy.get c ≤ 5 := by
  have hok : EnergyOk s := by
    induction h with
    | init => exact initialState_energyOk
    | step s c _ _ ih => exact step_energyOk s c ih
  exact hok c

/-! ## Reachability of the sample games -/

theorem reachable_run (cmds : List Cmd) (s : State) (hs : Reachable s)
    (h : ∀ c ∈ cmds, c.onBoard = true) : Reachable (run s cmds) := by
  induction cmds generalizing s with
  | nil => exact hs
  | cons c cs ih =>
    have hc : c.onBoard = true := h c (List.mem_cons_self c cs)
    have hcs : ∀ d ∈ cs, d.onBoard = true := fun d hd => h d (List.mem_cons_of_mem c hd)
    exact ih (step s c) (Reachable.step s c hs hc) hcs

theorem pinState_reachable : Reachable pinState :=
  reachable_run pinGame initialState Reachable.init (by decide)

theorem teleportReady_reachable : Reachable teleportReady :=
  reachable_run teleportGame initialState Reachable.init (by decide)

/-- Witness for C8: the energies after `teleportGame`, a game with seven
captures and two power activations. -/
theorem reachable_energy_bounds_witness :
    Reachable teleportReady ∧
    (0 ≤ teleportReady.energy.get Color.white ∧ teleportReady.energy.get Color.white ≤ 5) ∧
    (0 ≤ teleportReady.energy.get Color.black ∧ teleportReady.energy.get Color.black ≤ 5) :=
  ⟨teleportReady_reachable,
    reachable_energy_bounds teleportReady teleportReady_reachable Color.white,
    reachable_energy_bounds teleportReady teleportReady_reachable Color.black⟩

/-! ## Evaluation of the sample games

Each of the two games is evaluated once; the theorems below read their facts
off these two lemmas. -/

set_option maxRecDepth 100000 in
theorem pinState_eval :
    (pinState.currentPlayer = Color.white ∧
      isInCheck pinState Color.white = false ∧
      pinState.lastMove = some ((1, 3), (3, 3)) ∧
      isLegalMove pinState 3 4 2 3 false = true ∧
      (movePiece pinState 3 4 2 3).map (fun res => (res.1, isInCheck res.2 Color.white)) =
        some (MoveResult.success, true) ∧
      (run pinState (moveClicks 3 4 2 3)).board 2 3 = some ⟨Color.white, Kind.p⟩ ∧
      (run pinState (moveClicks 3 4 2 3)).board 3 3 = none ∧
      (run pinState (moveClicks 3 4 2 3)).currentPlayer = Color.black ∧
      isInCheck (run pinState (moveClicks 3 4 2 3)) Color.white = true) ∧
    (pinState.board 3 4 = some ⟨Color.white, Kind.p⟩ ∧
      (movePiece pinState 3 4 2 3).map Prod.fst = some MoveResult.success ∧
      pinState.board 2 3 = none ∧
      pinState.board 3 3 = some ⟨Color.black, Kind.p⟩ ∧
      pinState.queenRushActive = false) := by
  decide!

set_option maxRecDepth 100000 in
theorem teleportReady_eval :
    (teleportReady.currentPlayer = Color.white ∧
      teleportReady.board 0 3 = some ⟨Color.black, Kind.q⟩ ∧
      (0, 3) ∈ teleportReady.shieldedPieces.get Color.black ∧
      (movePiece teleportReady 1 6 0 3).map Prod.fst = some MoveResult.rejected ∧
      (handleSquareClick teleportReady 0 3).board 0 3 = some ⟨Color.white, Kind.q⟩ ∧
      countPieces (handleSquareClick teleportReady 0 3).board ⟨Color.black, Kind.q⟩ = 0 ∧
      ((handleSquareClick teleportReady 0 3).capturedPieces.get Color.black).getLast? =
        some ⟨Color.black, Kind.q⟩) ∧
    (countPieces teleportReady.board ⟨Color.black, Kind.k⟩ = 1 ∧
      countPieces (handleSquareClick teleportReady 0 4).board ⟨Color.white, Kind.k⟩ = 1 ∧
      countPieces (handleSquareClick teleportReady 0 4).board ⟨Color.black, Kind.k⟩ = 0 ∧
      findKing (handleSquareClick teleportReady 0 4) Color.black = none ∧
      (handleSquareClick teleportReady 0 4).gameState = GamePhase.playing ∧
      (handleSquareClick teleportReady 0 4).currentPlayer = Color.black) ∧
    (teleportReady.teleportActive = true ∧
      teleportReady.queenRushActive = false ∧
      teleportReady.shieldMode = false ∧
      teleportReady.currentPlayer = Color.white ∧
      teleportReady.selectedSquare = some (1, 6) ∧
      teleportReady.board 1 6 = some ⟨Color.white, Kind.q⟩ ∧
      teleportReady.board 0 4 = some ⟨Color.black, Kind.k⟩ ∧
      (handleSquareClick teleportReady 0 4).board 0 4 = some ⟨Color.white, Kind.q⟩ ∧
      (handleSquareClick teleportReady 0 4).board 1 6 = none ∧
      (handleSquareClick teleportReady 0 4).teleportActive = false ∧
      (handleSquareClick teleportReady 0 4).lastMove = some ((1, 6), (0, 4)) ∧
      isShielded teleportReady 0 3 = true ∧
      (handleSquareClick teleportReady 0 3).board 0 3 = some ⟨Color.white, Kind.q⟩ ∧
      (handleSquareClick teleportReady 0 3).board 1 6 = none ∧
      (handleSquareClick teleportReady 0 3).currentPlayer = Color.black) ∧
    (teleportReady.lastMove = some ((0, 6), (1, 6)) ∧
      teleportReady.moveHistory.length = 13 ∧
      teleportReady.gameState = GamePhase.playing) := by
  decide!

/-! ## C1: check safety and en passant -/

/-- C1, evaluated at a position of a real game.  In `pinState` (reachable
from the initial position) white is not in check, and `isLegalMove` with
check-safety on accepts the en-passant capture (3, 4) -> (2, 3); the position
`movePiece` produces, in which the captured pawn has left (3, 3), has the
white king in check from the rook on (3, 1).  Played through
`handleSquareClick`, the move is made and black is to move with white in
check. -/
theorem enPassant_leaves_king_in_check :
    Reachable pinState ∧
    pinState.currentPlayer = Color.white ∧
    isInCheck pinState Color.white = false ∧
    pinState.lastMove = some ((1, 3), (3, 3)) ∧
    isLegalMove pinState 3 4 2 3 false = true ∧
    (movePiece pinState 3 4 2 3).map (fun res => (res.1, isInCheck res.2 Color.white)) =
      some (MoveResult.success, true) ∧
    (run pinState (moveClicks 3 4 2 3)).board 2 3 = some ⟨Color.white, Kind.p⟩ ∧
    (run pinState (moveClicks 3 4 2 3)).board 3 3 = none ∧
    (run pinState (moveClicks 3 4 2 3)).currentPlayer = Color.black ∧
    isInCheck (run pinState (moveClicks 3 4 2 3)) Color.white = true :=
  ⟨pinState_reachable, pinState_eval.1⟩

/-! ## Witness for C9 -/

theorem movePiece_eq_stateAfterMove (s : State) (fromRow fromCol toRow toCol : Int)
    (res : MoveResult)
    (h : (movePiece s fromRow fromCol toRow toCol).map Prod.fst = some res) :
    movePiece s fromRow fromCol toRow toCol =
      some (res, stateAfterMove s fromRow fromCol toRow toCol) := by
  unfold stateAfterMove
  cases hm : movePiece s fromRow fromCol toRow toCol with
  | none =>
    rw [hm] at h
    exact Option.noConfusion h
  | some r =>
    rw [hm] at h
    simp only [Option.map_some', Option.some.injEq] at h
    rw [← h]

/-- Witness for C9: the en-passant capture (3, 4) -> (2, 3) in `pinState`
books the black pawn of (3, 3) for white and takes it off the board. -/
theorem movePiece_capture_accounting_witness :
    pinState.board 3 4 = some ⟨Color.white, Kind.p⟩ ∧
    movePiece pinState 3 4 2 3 = some (MoveResult.success, pinAfter) ∧
    CaptureBooked pinState pinAfter Color.white ⟨Color.black, Kind.p⟩ ∧
    pinAfter.board 3 3 = none :=
  have hp : pinState.board 3 4 = some ⟨Color.white, Kind.p⟩ := pinState_eval.2.1
  have hm : movePiece pinState 3 4 2 3 = some (MoveResult.success, pinAfter) :=
    movePiece_eq_stateAfterMove pinState 3 4 2 3 MoveResult.success pinState_eval.2.2.1
  ⟨hp, hm,
    (movePiece_capture_accounting pinState pinAfter 3 4 2 3 ⟨Color.white, Kind.p⟩
      MoveResult.success hp hm (by decide)).2.1 ⟨Color.black, Kind.p⟩ rfl
      pinState_eval.2.2.2.1 (by decide) pinState_eval.2.2.2.2.1⟩

/-! ## C5, C6, C7: the teleport branch skips the king and shield tests -/

/-- C5, evaluated on a real game.  In `teleportReady` (reachable from the
initial position) the black queen stands on (0, 3), a square of black's
shielded set, and white is to move with the teleport armed and its queen on
(1, 6) selected.  `movePiece` would reject the capture, but the click on
(0, 3) removes the shielded queen: it goes to the captured list and the white
queen stands on its square. -/
theorem teleport_captures_shielded_piece :
    Reachable teleportReady ∧
    teleportReady.currentPlayer = Color.white ∧
    teleportReady.board 0 3 = some ⟨Color.black, Kind.q⟩ ∧
    (0, 3) ∈ teleportReady.shieldedPieces.get Color.black ∧
    (movePiece teleportReady 1 6 0 3).map Prod.fst = some MoveResult.rejected ∧
    (handleSquareClick teleportReady 0 3).board 0 3 = some ⟨Color.white, Kind.q⟩ ∧
    countPieces (handleSquareClick teleportReady 0 3).board ⟨Color.black, Kind.q⟩ = 0 ∧
    ((handleSquareClick teleportReady 0 3).capturedPieces.get Color.black).getLast? =
      some ⟨Color.black, Kind.q⟩ :=
  ⟨teleportReady_reachable, teleportReady_eval.1⟩

/-- C6, evaluated on a real game.  The state reached from the initial
position by `teleportGame` followed by a click on the black king's square
(0, 4) holds one white king and no black king, and the game goes on: the
phase is still `playing`, with black to move. -/
theorem teleport_captures_king :
    Reachable (handleSquareClick teleportReady 0 4) ∧
    countPieces teleportReady.board ⟨Color.black, Kind.k⟩ = 1 ∧
    countPieces (handleSquareClick teleportReady 0 4).board ⟨Color.white, Kind.k⟩ = 1 ∧
    countPieces (handleSquareClick teleportReady 0 4).board ⟨Color.black, Kind.k⟩ = 0 ∧
    findKing (handleSquareClick teleportReady 0 4) Color.black = none ∧
    (handleSquareClick teleportReady 0 4).gameState = GamePhase.playing ∧
    (handleSquareClick teleportReady 0 4).currentPlayer = Color.black :=
  ⟨Reachable.step teleportReady (Cmd.click 0 4) teleportReady_reachable (by decide),
    teleportReady_eval.2.1⟩

/-- C7, evaluated on a real game.  In `teleportReady` the teleport is armed,
white is to move and its queen on (1, 6) is selected.  A click on the black
king (0, 4) and a click on the shielded black queen (0, 3) are both accepted
as teleport moves: the white queen leaves (1, 6) and lands on the clicked
square, the flag is consumed and the turn passes. -/
theorem teleport_accepts_king_and_shielded :
    teleportReady.teleportActive = true ∧
    teleportReady.queenRushActive = false ∧
    teleportReady.shieldMode = false ∧
    teleportReady.currentPlayer = Color.white ∧
    teleportReady.selectedSquare = some (1, 6) ∧
    teleportReady.board 1 6 = some ⟨Color.white, Kind.q⟩ ∧
    teleportReady.board 0 4 = some ⟨Color.black, Kind.k⟩ ∧
    (handleSquareClick teleportReady 0 4).board 0 4 = some ⟨Color.white, Kind.q⟩ ∧
    (handleSquareClick teleportReady 0 4).board 1 6 = none ∧
    (handleSquareClick teleportReady 0 4).teleportActive = false ∧
    (handleSquareClick teleportReady 0 4).lastMove = some ((1, 6), (0, 4)) ∧
    isShielded teleportReady 0 3 = true ∧
    (handleSquareClick teleportReady 0 3).board 0 3 = some ⟨Color.white, Kind.q⟩ ∧
    (handleSquareClick teleportReady 0 3).board 1 6 = none ∧
    (handleSquareClick teleportReady 0 3).currentPlayer = Color.black :=
  teleportReady_eval.2.2.1

/-! ## C10: the energy test is made by `handlePowerClick` -/

/-- C10 as stated fails for `activatePower` itself.  At the initial state white
has energy 0 and queen-rush costs 3, so `canActivatePower` is false; the
shadowed first definition of `activatePower` rejects the call, but the
effective one, called directly, carries it out: the energy drops to -3,
`powersUsed` rises to 1 and `queenRushActive` is set.  The same happens for
teleport (energy -5, `teleportActive` set) and for double-turn (energy -4,
`doubleMove.active` set). -/
theorem activatePower_ignores_energy :
    canActivatePower initialState Color.white Power.queenRush = false ∧
    (activatePowerFirst initialState Color.white Power.queenRush).1 = false ∧
    (activatePowerFirst initialState Color.white Power.queenRush).2.energy = initialState.energy ∧
    (activatePower initialState Color.white Power.queenRush).map
        (fun s => (s.energy.get Color.white, (s.stats.get Color.white).powersUsed,
          s.queenRushActive)) = some (-3, 1, true) ∧
    (activatePower initialState Color.white Power.teleport).map
        (fun s => (s.energy.get Color.white, (s.stats.get Color.white).powersUsed,
          s.teleportActive)) = some (-5, 1, true) ∧
    (activatePower initialState Color.black Power.doubleTurn).map
        (fun s => (s.energy.get Color.black, (s.stats.get Color.black).powersUsed,
          s.doubleMove)) = some (-4, 1, { active := true, movesMade := 0 }) := by
  decide

/-- C10, amended.  The energy test belongs to `handlePowerClick`, the only
caller of `activatePower`: for every state and every catalog power, a click on
the power while `energy[currentPlayer] < powersCost[power]` fails the test of
`canActivatePower` and changes no state, so the energy, the powers-used
counters, `queenRushActive`, `teleportActive`, `doubleMove` and `shieldMode`
are as before.  The effective `activatePower` has no energy test: called
directly, for either colour and whatever the energy, it deducts the cost and
counts the power as used. -/
theorem handlePowerClick_underfunded (s : State) (power : Power) (cost : Int)
    (hc : powersCost power = some cost) (hlt : s.energy.get s.currentPlayer < cost) :
    canActivatePower s s.currentPlayer power = false ∧
    handlePowerClick s power = s ∧
    (handlePowerClick s power).energy = s.energy ∧
    (handlePowerClick s power).stats = s.stats ∧
    (handlePowerClick s power).queenRushActive = s.queenRushActive ∧
    (handlePowerClick s power).teleportActive = s.teleportActive ∧
    (handlePowerClick s power).doubleMove = s.doubleMove ∧
    (handlePowerClick s power).shieldMode = s.shieldMode ∧
    (∀ color : Color, ∃ t, activatePower s color power = some t ∧
      t.energy.get color = s.energy.get color - cost ∧
      (t.stats.get color).powersUsed = (s.stats.get color).powersUsed + 1) := by
  have hcan : canActivatePower s s.currentPlayer power = false := by
    simp [canActivatePower, hc, hlt]
  have heq : handlePowerClick s power = s := by
    simp [handlePowerClick, hcan]
  refine ⟨hcan, heq, by rw [heq], by rw [heq], by rw [heq], by rw [heq], by rw [heq],
    by rw [heq], ?_⟩
  intro color
  refine ⟨powerEffect (addPowersUsed (spendEnergy s color cost) color 1) power, ?_, ?_, ?_⟩
  · simp [activatePower, hc]
  · cases power <;> cases color <;>
      simp [powerEffect, addPowersUsed, spendEnergy, PerColor.get, PerColor.set]
  · cases power <;> cases color <;>
      simp [powerEffect, addPowersUsed, spendEnergy, PerColor.get, PerColor.set]

/-- Witness for the amended C10: at the initial state white has energy 0 and
the click on queen-rush (cost 3) leaves the state as it is. -/
theorem handlePowerClick_underfunded_witness :
    powersCost Power.queenRush = some 3 ∧
    initialState.energy.get initialState.currentPlayer < 3 ∧
    handlePowerClick initialState Power.queenRush = initialState :=
  ⟨rfl, by decide,
    (handlePowerClick_underfunded initialState Power.queenRush 3 rfl (by decide)).2.1⟩

/-! ## C11: power activation through `handlePowerClick` -/

theorem canActivatePower_of_cost (s : State) (c : Color) (power : Power) (cost : Int)
    (hc : powersCost power = some cost) (he : cost ≤ s.energy.get c) :
    canActivatePower s c power = true := by
  simp [canActivatePower, hc, he]

/-- C11.  For a catalog power with cost `cost` (queen-rush 3, double-turn 4,
teleport 5, shield 2) and `energy[currentPlayer] ≥ cost`, `handlePowerClick`
lowers the energy of the colour to move by exactly `cost`, raises its
`powersUsed` by exactly 1, leaves the other colour's energy and the colour to
move unchanged, and sets `queenRushActive`, `doubleMove = {true, 0}`,
`teleportActive` or `shieldMode` according to the power. -/
theorem handlePowerClick_accepted (s : State) (power : Power) (cost : Int)
    (hc : powersCost power = some cost) (he : cost ≤ s.energy.get s.currentPlayer) :
    (handlePowerClick s power).energy.get s.currentPlayer =
      s.energy.get s.currentPlayer - cost ∧
    ((handlePowerClick s power).stats.get s.currentPlayer).powersUsed =
      (s.stats.get s.currentPlayer).powersUsed + 1 ∧
    (handlePowerClick s power).energy.get (opponentOf s.currentPlayer) =
      s.energy.get (opponentOf s.currentPlayer) ∧
    (handlePowerClick s power).currentPlayer = s.currentPlayer ∧
    (power = Power.queenRush → cost = 3 ∧ (handlePowerClick s power).queenRushActive = true) ∧
    (power = Power.doubleTurn → cost = 4 ∧
      (handlePowerClick s power).doubleMove = { active := true, movesMade := 0 }) ∧
    (power = Power.teleport → cost = 5 ∧ (handlePowerClick s power).teleportActive = true) ∧
    (power = Power.shield → cost = 2 ∧ (handlePowerClick s power).shieldMode = true) := by
  have hcan := canActivatePower_of_cost s s.currentPlayer power cost hc he
  cases power with
  | other => simp [powersCost] at hc
  | queenRush =>
    simp only [powersCost, Option.some.injEq] at hc
    subst hc
    simp [handlePowerClick, hcan, activatePower, powersCost, powerEffect, spendEnergy,
      addPowersUsed, PerColor.get_set]
  | doubleTurn =>
    simp only [powersCost, Option.some.injEq] at hc
    subst hc
    simp [handlePowerClick, hcan, activatePower, powersCost, powerEffect, spendEnergy,
      addPowersUsed, PerColor.get_set]
  | teleport =>
    simp only [powersCost, Option.some.injEq] at hc
    subst hc
    simp [handlePowerClick, hcan, activatePower, powersCost, powerEffect, spendEnergy,
      addPowersUsed, PerColor.get_set]
  | shield =>
    simp only [powersCost, Option.some.injEq] at hc
    subst hc
    simp [handlePowerClick, hcan, powersCost, spendEnergy, addPowersUsed, PerColor.get_set]

/-- Witness for C11: white, with energy 5, activates double-turn (cost 4). -/
theorem handlePowerClick_accepted_witness :
    powersCost Power.doubleTurn = some 4 ∧
    (4 : Int) ≤ richState.energy.get richState.currentPlayer ∧
    (handlePowerClick richState Power.doubleTurn).energy.get Color.white = 1 ∧
    ((handlePowerClick richState Power.doubleTurn).stats.get Color.white).powersUsed = 1 ∧
    (handlePowerClick richState Power.doubleTurn).energy.get Color.black = 3 ∧
    (handlePowerClick richState Power.doubleTurn).doubleMove =
      { active := true, movesMade := 0 } :=
  have h := handlePowerClick_accepted richState Power.doubleTurn 4 rfl (by decide)
  ⟨rfl, by decide, h.1, h.2.1, h.2.2.1, (h.2.2.2.2.2.1 rfl).2⟩

/-! ## C12: queen-rush replaces the rule of every piece -/

theorem isLegalMove_testMode (s : State) (fromRow fromCol toRow toCol : Int) :
    isLegalMove s fromRow fromCol toRow toCol true =
      isLegalMoveRule s fromRow fromCol toRow toCol := by
  unfold isLegalMove isLegalMoveSt
  cases hp : s.board fromRow fromCol with
  | none => simp [isLegalMoveRule, hp]
  | some piece =>
    cases hr : isLegalMoveRule s fromRow fromCol toRow toCol <;> simp

theorem isQueenMove_false_of_knight (s : State) (fromRow fromCol toRow toCol : Int)
    (h : isKnightMove fromRow fromCol toRow toCol = true) :
    isQueenMove s fromRow fromCol toRow toCol = false := by
  simp only [isKnightMove, decide_eq_true_eq] at h
  have h1 : fromRow ≠ toRow ∧ fromCol ≠ toCol := by omega
  have h2 : (fromRow - toRow).natAbs ≠ (fromCol - toCol).natAbs := by omega
  simp [isQueenMove, isRookMove, isBishopMove, h1, h2]

/-- C12.  For a piece on the source square, `isLegalMove` with check-safety
off: (1) with `queenRushActive` set and the piece of the colour to move,
whatever its kind, it is true exactly when the destination holds no piece of
the same colour and `isQueenMove` holds; (2) in that case a knight's (2,1) or
(1,2) jump is not legal; (3) with `queenRushActive` unset it is true exactly
when the destination holds no piece of the same colour and the rule of the
piece's kind holds. -/
theorem isLegalMove_queenRush (s : State) (fromRow fromCol toRow toCol : Int) (piece : Piece)
    (hp : s.board fromRow fromCol = some piece) :
    (s.queenRushActive = true → piece.color = s.currentPlayer →
      (isLegalMove s fromRow fromCol toRow toCol true = true ↔
        getPieceColor (s.board toRow toCol) ≠ some piece.color ∧
        isQueenMove s fromRow fromCol toRow toCol = true)) ∧
    (s.queenRushActive = true → piece.color = s.currentPlayer →
      isKnightMove fromRow fromCol toRow toCol = true →
      isLegalMove s fromRow fromCol toRow toCol true = false) ∧
    (s.queenRushActive = false →
      (isLegalMove s fromRow fromCol toRow toCol true = true ↔
        getPieceColor (s.board toRow toCol) ≠ some piece.color ∧
        ruleOfKind s piece fromRow fromCol toRow toCol = true)) := by
  rw [isLegalMove_testMode]
  refine ⟨?_, ?_, ?_⟩
  · intro hq hc
    unfold isLegalMoveRule
    simp only [hp]
    by_cases ht : getPieceColor (s.board toRow toCol) = some piece.color
    · simp [ht]
    · simp [ht, hq, hc]
  · intro hq hc hk
    have hqm := isQueenMove_false_of_knight s fromRow fromCol toRow toCol hk
    unfold isLegalMoveRule
    simp only [hp]
    by_cases ht : getPieceColor (s.board toRow toCol) = some piece.color
    · simp [ht]
    · simp [ht, hq, hc, hqm]
  · intro hq
    unfold isLegalMoveRule ruleOfKind
    simp only [hp]
    by_cases ht : getPieceColor (s.board toRow toCol) = some piece.color
    · simp [ht]
    · simp only [ht, hq, if_false, Bool.false_eq_true, false_and]
      exact ⟨fun h => ⟨ht, h⟩, fun h => h.2⟩

/-- Witness for C12: with queen-rush active for white the knight jump
(7, 1) -> (5, 2) is not legal and the move is judged by `isQueenMove`; in the
initial state, without queen-rush, the same jump is judged by the knight
rule. -/
theorem isLegalMove_queenRush_witness :
    queenRushState.board 7 1 = some ⟨Color.white, Kind.n⟩ ∧
    isLegalMove queenRushState 7 1 5 2 true = false ∧
    (isLegalMove queenRushState 7 1 5 2 true = true ↔
      getPieceColor (queenRushState.board 5 2) ≠ some Color.white ∧
      isQueenMove queenRushState 7 1 5 2 = true) ∧
    (isLegalMove initialState 7 1 5 2 true = true ↔
      getPieceColor (initialState.board 5 2) ≠ some Color.white ∧
      ruleOfKind initialState ⟨Color.white, Kind.n⟩ 7 1 5 2 = true) :=
  ⟨by decide,
    (isLegalMove_queenRush queenRushState 7 1 5 2 ⟨Color.white, Kind.n⟩ (by decide)).2.1
      rfl rfl (by decide),
    (isLegalMove_queenRush queenRushState 7 1 5 2 ⟨Color.white, Kind.n⟩ (by decide)).1 rfl rfl,
    (isLegalMove_queenRush initialState 7 1 5 2 ⟨Color.white, Kind.n⟩ (by decide)).2.2 rfl⟩

/-! ## C13: the pawn rule -/

theorem isPawnMove_no_lastMove (s : State) (fromRow fromCol toRow toCol : Int) (c : Color)
    (hl : s.lastMove = none) :
    isPawnMove s fromRow fromCol toRow toCol c = true ↔
      (toCol = fromCol ∧ toRow = fromRow + pawnDirection c ∧ s.board toRow toCol = none) ∨
      (toCol = fromCol ∧ fromRow = pawnStartRow c ∧ toRow = fromRow + 2 * pawnDirection c ∧
        s.board (fromRow + pawnDirection c) fromCol = none ∧ s.board toRow toCol = none) ∨
      ((toCol = fromCol + 1 ∨ toCol = fromCol - 1) ∧ toRow = fromRow + pawnDirection c ∧
        s.board toRow toCol ≠ none) := by
  unfold isPawnMove pawnDirection pawnStartRow
  simp only [hl]
  cases hd : s.board toRow toCol <;> cases hm : s.board (fromRow + if c = Color.white then -1 else 1) fromCol <;>
    cases c <;> simp <;> omega

/-- C13.  For a pawn of colour `c` on the source square, with no last move
recorded and queen-rush off, `isLegalMove` with check-safety off is true
exactly when the move is (a) one step forward onto an empty square, or (b) two
steps forward from the start rank with the intervening and the destination
square empty, or (c) one step diagonally forward onto a square holding a piece
of the other colour.  Hence every legal pawn move goes one or two rows forward
and at most one column aside: backward, sideways and longer moves are never
legal. -/
theorem isLegalMove_pawn (s : State) (fromRow fromCol toRow toCol : Int) (c : Color)
    (hp : s.board fromRow fromCol = some ⟨c, Kind.p⟩) (hl : s.lastMove = none)
    (hq : s.queenRushActive = false) :
    (isLegalMove s fromRow fromCol toRow toCol true = true ↔
      (toCol = fromCol ∧ toRow = fromRow + pawnDirection c ∧ s.board toRow toCol = none) ∨
      (toCol = fromCol ∧ fromRow = pawnStartRow c ∧ toRow = fromRow + 2 * pawnDirection c ∧
        s.board (fromRow + pawnDirection c) fromCol = none ∧ s.board toRow toCol = none) ∨
      ((toCol = fromCol + 1 ∨ toCol = fromCol - 1) ∧ toRow = fromRow + pawnDirection c ∧
        ∃ x, s.board toRow toCol = some x ∧ x.color = opponentOf c)) ∧
    (isLegalMove s fromRow fromCol toRow toCol true = true →
      (toRow = fromRow + pawnDirection c ∨
        (toRow = fromRow + 2 * pawnDirection c ∧ fromRow = pawnStartRow c)) ∧
      (toCol - fromCol).natAbs ≤ 1) := by
  have hrule : isLegalMove s fromRow fromCol toRow toCol true = true ↔
      getPieceColor (s.board toRow toCol) ≠ some c ∧
        isPawnMove s fromRow fromCol toRow toCol c = true := by
    rw [isLegalMove_testMode]
    unfold isLegalMoveRule
    simp only [hp]
    by_cases ht : getPieceColor (s.board toRow toCol) = some c
    · simp [ht]
    · simp only [ht, hq, if_false, Bool.false_eq_true, false_and]
      exact ⟨fun h => ⟨ht, h⟩, fun h => h.2⟩
  have hiff : isLegalMove s fromRow fromCol toRow toCol true = true ↔
      (toCol = fromCol ∧ toRow = fromRow + pawnDirection c ∧ s.board toRow toCol = none) ∨
      (toCol = fromCol ∧ fromRow = pawnStartRow c ∧ toRow = fromRow + 2 * pawnDirection c ∧
        s.board (fromRow + pawnDirection c) fromCol = none ∧ s.board toRow toCol = none) ∨
      ((toCol = fromCol + 1 ∨ toCol = fromCol - 1) ∧ toRow = fromRow + pawnDirection c ∧
        ∃ x, s.board toRow toCol = some x ∧ x.color = opponentOf c) := by
    rw [hrule, isPawnMove_no_lastMove s fromRow fromCol toRow toCol c hl]
    cases hd : s.board toRow toCol with
    | none => simp [getPieceColor]
    | some x =>
      obtain ⟨xc, xk⟩ := x
      cases xc <;> cases c <;> simp [getPieceColor, opponentOf]
  refine ⟨hiff, ?_⟩
  intro h
  rcases hiff.mp h with ⟨h1, h2, -⟩ | ⟨h1, h2, h3, -⟩ | ⟨h1, h2, -⟩
  · exact ⟨Or.inl h2, by omega⟩
  · exact ⟨Or.inr ⟨h3, h2⟩, by omega⟩
  · exact ⟨Or.inl h2, by omega⟩

/-- Witness for C13: in the initial position the white pawn on (6, 4) may go
to (5, 4) and (4, 4) and nowhere else among its neighbours. -/
theorem isLegalMove_pawn_witness :
    initialState.board 6 4 = some ⟨Color.white, Kind.p⟩ ∧
    initialState.lastMove = none ∧
    initialState.queenRushActive = false ∧
    isLegalMove initialState 6 4 4 4 true = true ∧
    isLegalMove initialState 6 4 5 4 true = true ∧
    ¬ (isLegalMove initialState 6 4 5 5 true = true) :=
  ⟨by decide, rfl, rfl,
    (isLegalMove_pawn initialState 6 4 4 4 Color.white (by decide) rfl rfl).1.mpr
      (Or.inr (Or.inl ⟨rfl, by decide, by decide, by decide, by decide⟩)),
    (isLegalMove_pawn initialState 6 4 5 4 Color.white (by decide) rfl rfl).1.mpr
      (Or.inl ⟨rfl, by decide, by decide⟩),
    fun h =>
      absurd ((isLegalMove_pawn initialState 6 4 5 5 Color.white (by decide) rfl rfl).1.mp h)
        (by decide)⟩

/-! ## C15: sliding pieces and knights -/

theorem isPathClearLoop_spec (b : Board) (rowStep colStep toRow toCol : Int)
    (hstep : rowStep ≠ 0 ∨ colStep ≠ 0) (n : Nat) :
    ∀ (fuel : Nat) (row col : Int), n < fuel →
      toRow = row + n * rowStep → toCol = col + n * colStep →
      ∃ v, isPathClearLoop b rowStep colStep toRow toCol fuel row col = some v ∧
        (v = true ↔ ∀ k : Nat, k < n → b (row + k * rowStep) (col + k * colStep) = none) := by
  induction n with
  | zero =>
    intro fuel row col hf hr hc
    cases fuel with
    | zero => omega
    | succ f =>
      refine ⟨true, ?_, ?_⟩
      · simp only [isPathClearLoop]
        have h1 : row = toRow := by simp [hr]
        have h2 : col = toCol := by simp [hc]
        simp [h1, h2]
      · simp
  | succ n ih =>
    intro fuel row col hf hr hc
    cases fuel with
    | zero => omega
    | succ f =>
      have hne : row ≠ toRow ∨ col ≠ toCol := by
        rcases hstep with h | h
        · left
          intro he
          rw [hr] at he
          have : ((n + 1 : Nat) : Int) * rowStep = 0 := by omega
          rcases Int.mul_eq_zero.mp this with h0 | h0
          · omega
          · exact h h0
        · right
          intro he
          rw [hc] at he
          have : ((n + 1 : Nat) : Int) * colStep = 0 := by omega
          rcases Int.mul_eq_zero.mp this with h0 | h0
          · omega
          · exact h h0
      cases hcell : b row col with
      | some x =>
        refine ⟨false, ?_, ?_⟩
        · simp [isPathClearLoop, hne, hcell]
        · constructor
          · intro h
            exact Bool.noConfusion h
          · intro h
            have h0 := h 0 (Nat.succ_pos n)
            simp [hcell] at h0
      | none =>
        have hr2 : toRow = (row + rowStep) + n * rowStep := by
          rw [hr]; push_cast; ring
        have hc2 : toCol = (col + colStep) + n * colStep := by
          rw [hc]; push_cast; ring
        obtain ⟨v, hv, hiff⟩ := ih f (row + rowStep) (col + colStep) (by omega) hr2 hc2
        refine ⟨v, ?_, ?_⟩
        · simp only [isPathClearLoop]
          simp [hne, hcell, hv]
        · rw [hiff]
          constructor
          · intro h k hk
            cases k with
            | zero => simpa using hcell
            | succ j =>
              have := h j (by omega)
              have e1 : row + ((j + 1 : Nat) : Int) * rowStep = row + rowStep + j * rowStep := by
                push_cast; ring
              have e2 : col + ((j + 1 : Nat) : Int) * colStep = col + colStep + j * colStep := by
                push_cast; ring
              rw [e1, e2]
              exact this
          · intro h j hj
            have := h (j + 1) (by omega)
            have e1 : row + ((j + 1 : Nat) : Int) * rowStep = row + rowStep + j * rowStep := by
              push_cast; ring
            have e2 : col + ((j + 1 : Nat) : Int) * colStep = col + colStep + j * colStep := by
              push_cast; ring
            rw [e1, e2] at this
            exact this

theorem sign_cases (a : Int) :
    (a < 0 ∧ Int.sign a = -1) ∨ (a = 0 ∧ Int.sign a = 0) ∨ (0 < a ∧ Int.sign a = 1) := by
  rcases lt_trichotomy a 0 with h | h | h
  · exact Or.inl ⟨h, Int.sign_eq_neg_one_of_neg h⟩
  · exact Or.inr (Or.inl ⟨h, by rw [h]; rfl⟩)
  · exact Or.inr (Or.inr ⟨h, Int.sign_eq_one_of_pos h⟩)

theorem isPathClear_aligned (s : State) (fromRow fromCol toRow toCol : Int)
    (hne : fromRow ≠ toRow ∨ fromCol ≠ toCol)
    (hal : fromRow = toRow ∨ fromCol = toCol ∨
      (fromRow - toRow).natAbs = (fromCol - toCol).natAbs)
    (hd : max (toRow - fromRow).natAbs (toCol - fromCol).natAbs ≤ 8) :
    isPathClear s fromRow fromCol toRow toCol = true ↔
      SquaresBetweenEmpty s.board fromRow fromCol toRow toCol := by
  unfold isPathClear SquaresBetweenEmpty
  simp only
  generalize hsr : Int.sign (toRow - fromRow) = sr
  generalize hsc : Int.sign (toCol - fromCol) = sc
  generalize hdd : max (toRow - fromRow).natAbs (toCol - fromCol).natAbs = d at hd
  have hsr3 := sign_cases (toRow - fromRow)
  have hsc3 := sign_cases (toCol - fromCol)
  rw [hsr] at hsr3
  rw [hsc] at hsc3
  have hdpos : 1 ≤ d := by omega
  have hstep : sr ≠ 0 ∨ sc ≠ 0 := by omega
  have hr : toRow = (fromRow + sr) + ((d - 1 : Nat) : Int) * sr := by
    rcases hsr3 with ⟨h1, h2⟩ | ⟨h1, h2⟩ | ⟨h1, h2⟩ <;> subst h2 <;> omega
  have hc : toCol = (fromCol + sc) + ((d - 1 : Nat) : Int) * sc := by
    rcases hsc3 with ⟨h1, h2⟩ | ⟨h1, h2⟩ | ⟨h1, h2⟩ <;> subst h2 <;> omega
  obtain ⟨v, hv, hiff⟩ := isPathClearLoop_spec s.board sr sc toRow toCol hstep (d - 1)
    pathFuel (fromRow + sr) (fromCol + sc) (by unfold pathFuel; omega) hr hc
  rw [hv]
  simp only [Option.getD_some]
  rw [hiff]
  constructor
  · intro h k hk0 hkd
    have hk : k = ((k.toNat - 1 : Nat) : Int) + 1 := by omega
    have := h (k.toNat - 1) (by omega)
    have e1 : fromRow + sr + ((k.toNat - 1 : Nat) : Int) * sr = fromRow + k * sr := by
      conv_rhs => rw [hk]
      ring
    have e2 : fromCol + sc + ((k.toNat - 1 : Nat) : Int) * sc = fromCol + k * sc := by
      conv_rhs => rw [hk]
      ring
    rw [e1, e2] at this
    exact this
  · intro h j hj
    have := h ((j : Int) + 1) (by omega) (by omega)
    have e1 : fromRow + ((j : Int) + 1) * sr = fromRow + sr + j * sr := by ring
    have e2 : fromCol + ((j : Int) + 1) * sc = fromCol + sc + j * sc := by ring
    rw [e1, e2] at this
    exact this

/-- C15.  On the 8x8 board and for `from ≠ to`: `isRookMove` is true iff the
two squares share a row or a column and every square strictly between them is
empty; `isBishopMove` is true iff the row and column distances are equal and
every square strictly between them is empty; `isQueenMove` is the disjunction
of the two; `isKnightMove` is true exactly on the (2,1) and (1,2) offsets and
does not read the board at all. -/
theorem sliding_and_knight_moves (s : State) (fromRow fromCol toRow toCol : Int)
    (hfr : InRange fromRow) (hfc : InRange fromCol) (htr : InRange toRow) (htc : InRange toCol)
    (hne : fromRow ≠ toRow ∨ fromCol ≠ toCol) :
    (isRookMove s fromRow fromCol toRow toCol = true ↔
      (fromRow = toRow ∨ fromCol = toCol) ∧
        SquaresBetweenEmpty s.board fromRow fromCol toRow toCol) ∧
    (isBishopMove s fromRow fromCol toRow toCol = true ↔
      (fromRow - toRow).natAbs = (fromCol - toCol).natAbs ∧
        SquaresBetweenEmpty s.board fromRow fromCol toRow toCol) ∧
    (isQueenMove s fromRow fromCol toRow toCol = true ↔
      isRookMove s fromRow fromCol toRow toCol = true ∨
        isBishopMove s fromRow fromCol toRow toCol = true) ∧
    (isKnightMove fromRow fromCol toRow toCol = true ↔
      ((fromRow - toRow).natAbs = 2 ∧ (fromCol - toCol).natAbs = 1) ∨
        ((fromRow - toRow).natAbs = 1 ∧ (fromCol - toCol).natAbs = 2)) := by
  simp only [InRange] at hfr hfc htr htc
  have hd : max (toRow - fromRow).natAbs (toCol - fromCol).natAbs ≤ 8 := by omega
  refine ⟨?_, ?_, ?_, ?_⟩
  · unfold isRookMove
    by_cases h : fromRow ≠ toRow ∧ fromCol ≠ toCol
    · have h2 : ¬ (fromRow = toRow ∨ fromCol = toCol) := by omega
      simp [h, h2]
    · have h2 : fromRow = toRow ∨ fromCol = toCol := by omega
      rw [if_neg h, isPathClear_aligned s fromRow fromCol toRow toCol hne (by omega) hd]
      simp [h2]
  · unfold isBishopMove
    by_cases h : (fromRow - toRow).natAbs ≠ (fromCol - toCol).natAbs
    · simp [h]
    · have h2 : (fromRow - toRow).natAbs = (fromCol - toCol).natAbs := not_not.mp h
      rw [if_neg h, isPathClear_aligned s fromRow fromCol toRow toCol hne
        (Or.inr (Or.inr h2)) hd]
      simp [h2]
  · simp [isQueenMove]
  · simp [isKnightMove]

/-- Witness for C15, in the initial position: the rook step (7, 0) -> (5, 0) is
judged by the pawn standing between the two squares, and the knight jump
(7, 1) -> (5, 2) by its offsets alone. -/
theorem sliding_and_knight_moves_witness :
    (InRange 7 ∧ InRange 0 ∧ InRange 5 ∧ ((7 : Int) ≠ 5 ∨ (0 : Int) ≠ 0)) ∧
    (isRookMove initialState 7 0 5 0 = true ↔
      ((7 : Int) = 5 ∨ (0 : Int) = 0) ∧ SquaresBetweenEmpty initialState.board 7 0 5 0) ∧
    (isBishopMove initialState 7 0 5 0 = true ↔
      ((7 : Int) - 5).natAbs = ((0 : Int) - 0).natAbs ∧
        SquaresBetweenEmpty initialState.board 7 0 5 0) ∧
    (isQueenMove initialState 7 0 5 0 = true ↔
      isRookMove initialState 7 0 5 0 = true ∨ isBishopMove initialState 7 0 5 0 = true) ∧
    (isKnightMove 7 0 5 0 = true ↔
      (((7 : Int) - 5).natAbs = 2 ∧ ((0 : Int) - 0).natAbs = 1) ∨
        (((7 : Int) - 5).natAbs = 1 ∧ ((0 : Int) - 0).natAbs = 2)) :=
  ⟨⟨by decide, by decide, by decide, by decide⟩,
    sliding_and_knight_moves initialState 7 0 5 0 (by decide) (by decide) (by decide)
      (by decide) (by decide)⟩

/-! ## C16: the king rule -/

theorem isLegalMove_le_rule (s : State) (fromRow fromCol toRow toCol : Int) (testMode : Bool)
    (h : isLegalMove s fromRow fromCol toRow toCol testMode = true) :
    isLegalMoveRule s fromRow fromCol toRow toCol = true := by
  unfold isLegalMove isLegalMoveSt at h
  cases hp : s.board fromRow fromCol with
  | none => simp [hp] at h
  | some piece =>
    cases hr : isLegalMoveRule s fromRow fromCol toRow toCol with
    | true => rfl
    | false => simp [hp, hr] at h

/-- C16.  `isKingMove` is true exactly when the displacement is at most 1 in
both axes and the destination does not hold a king.  So a destination holding
a king makes `isKingMove` false, and a king moving by its own rule (queen-rush
off) is never accepted by `isLegalMove` on the square of the other king, with
check-safety on or off. -/
theorem isKingMove_iff (s : State) (fromRow fromCol toRow toCol : Int) :
    (isKingMove s fromRow fromCol toRow toCol = true ↔
      (fromRow - toRow).natAbs ≤ 1 ∧ (fromCol - toCol).natAbs ≤ 1 ∧
        getPieceType (s.board toRow toCol) ≠ some Kind.k) ∧
    (getPieceType (s.board toRow toCol) = some Kind.k →
      isKingMove s fromRow fromCol toRow toCol = false) ∧
    (∀ c testMode, s.board fromRow fromCol = some ⟨c, Kind.k⟩ → s.queenRushActive = false →
      getPieceType (s.board toRow toCol) = some Kind.k →
      isLegalMove s fromRow fromCol toRow toCol testMode = false) := by
  refine ⟨?_, ?_, ?_⟩
  · unfold isKingMove
    by_cases hk : getPieceType (s.board toRow toCol) = some Kind.k
    · simp [hk]
    · simp [hk]
  · intro hk
    simp [isKingMove, hk]
  · intro c testMode hp hq hk
    cases h : isLegalMove s fromRow fromCol toRow toCol testMode with
    | false => rfl
    | true =>
      have hr := isLegalMove_le_rule s fromRow fromCol toRow toCol testMode h
      unfold isLegalMoveRule at hr
      simp only [hp, hq] at hr
      by_cases ht : getPieceColor (s.board toRow toCol) = some c
      · simp [ht] at hr
      · simp [ht, isKingMove, hk] at hr

/-- Witness for C16: with the two kings face to face, the white king's step
onto the black king's square is refused by `isKingMove` and by
`isLegalMove`. -/
theorem isKingMove_iff_witness :
    kingsFaceState.board 4 4 = some ⟨Color.white, Kind.k⟩ ∧
    getPieceType (kingsFaceState.board 3 4) = some Kind.k ∧
    isKingMove kingsFaceState 4 4 3 4 = false ∧
    isLegalMove kingsFaceState 4 4 3 4 false = false :=
  ⟨by decide, by decide,
    (isKingMove_iff kingsFaceState 4 4 3 4).2.1 (by decide),
    (isKingMove_iff kingsFaceState 4 4 3 4).2.2 Color.white false (by decide) rfl (by decide)⟩

/-! ## C17, C18: check, checkmate and stalemate -/

theorem mem_idx8 (x : Int) : x ∈ idx8 ↔ InRange x := by
  unfold idx8 InRange
  simp only [List.mem_cons, List.mem_singleton, List.not_mem_nil, or_false]
  omega

theorem mem_allSquares (r c : Int) : (r, c) ∈ allSquares ↔ InRange r ∧ InRange c := by
  unfold allSquares
  simp only [List.mem_flatMap, List.mem_map, Prod.mk.injEq]
  constructor
  · rintro ⟨a, ha, b, hb, rfl, rfl⟩
    exact ⟨(mem_idx8 a).mp ha, (mem_idx8 b).mp hb⟩
  · rintro ⟨hr, hc⟩
    exact ⟨r, (mem_idx8 r).mpr hr, c, (mem_idx8 c).mpr hc, rfl, rfl⟩

theorem findKing_some (s : State) (color : Color) (kr kc : Int)
    (h : findKing s color = some (kr, kc)) :
    InRange kr ∧ InRange kc ∧ s.board kr kc = some ⟨color, Kind.k⟩ := by
  unfold findKing at h
  have hm := List.mem_of_find?_eq_some h
  have hp := List.find?_some h
  simp only [decide_eq_true_eq] at hp
  exact ⟨((mem_allSquares kr kc).mp hm).1, ((mem_allSquares kr kc).mp hm).2, hp⟩

theorem findKing_none (s : State) (color : Color) :
    findKing s color = none ↔
      ∀ r c, InRange r → InRange c → s.board r c ≠ some ⟨color, Kind.k⟩ := by
  unfold findKing
  rw [List.find?_eq_none]
  constructor
  · intro h r c hr hc
    have := h (r, c) ((mem_allSquares r c).mpr ⟨hr, hc⟩)
    simpa using this
  · intro h sq hsq
    obtain ⟨r, c⟩ := sq
    have hm := (mem_allSquares r c).mp hsq
    simpa using h r c hm.1 hm.2

/-- C17.  `isInCheck(c)` is true iff `findKing(c)` finds a king of `c` and
some square of the board holds a piece of the opposite colour for which
`isLegalMove` from that square to the king's square, with check-safety off, is
true.  The square found holds a king of `c` and lies on the board; no square
is found exactly when no square of the board holds a king of `c`, and then
`isInCheck(c)` is false; when exactly one square of the board holds a king of
`c`, that square is the one found. -/
theorem isInCheck_iff (s : State) (color : Color) :
    (isInCheck s color = true ↔
      ∃ kr kc, findKing s color = some (kr, kc) ∧
        ∃ r c, InRange r ∧ InRange c ∧
          getPieceColor (s.board r c) = some (opponentOf color) ∧
          isLegalMove s r c kr kc true = true) ∧
    (∀ kr kc, findKing s color = some (kr, kc) →
      InRange kr ∧ InRange kc ∧ s.board kr kc = some ⟨color, Kind.k⟩) ∧
    (findKing s color = none ↔
      ∀ r c, InRange r → InRange c → s.board r c ≠ some ⟨color, Kind.k⟩) ∧
    (findKing s color = none → isInCheck s color = false) ∧
    (∀ kr kc, InRange kr → InRange kc → s.board kr kc = some ⟨color, Kind.k⟩ →
      (∀ r c, InRange r → InRange c → s.board r c = some ⟨color, Kind.k⟩ → r = kr ∧ c = kc) →
      findKing s color = some (kr, kc)) := by
  refine ⟨?_, fun kr kc h => findKing_some s color kr kc h, findKing_none s color, ?_, ?_⟩
  · unfold isInCheck
    cases hk : findKing s color with
    | none => simp
    | some sq =>
      obtain ⟨kr, kc⟩ := sq
      simp only [List.any_eq_true, Bool.and_eq_true, decide_eq_true_eq, Option.some.injEq,
        Prod.mk.injEq]
      constructor
      · rintro ⟨⟨r, c⟩, hm, hc, hl⟩
        have hmem := (mem_allSquares r c).mp hm
        refine ⟨kr, kc, ⟨rfl, rfl⟩, r, c, hmem.1, hmem.2, hc, ?_⟩
        rw [isLegalMove_testMode]
        exact hl
      · rintro ⟨kr', kc', ⟨rfl, rfl⟩, r, c, hr, hc, hcol, hl⟩
        rw [isLegalMove_testMode] at hl
        exact ⟨(r, c), (mem_allSquares r c).mpr ⟨hr, hc⟩, hcol, hl⟩
  · intro h
    simp [isInCheck, h]
  · intro kr kc hr hc hk huniq
    cases hf : findKing s color with
    | none => exact absurd hk ((findKing_none s color).mp hf kr kc hr hc)
    | some sq =>
      obtain ⟨a, b⟩ := sq
      obtain ⟨ha, hb, hab⟩ := findKing_some s color a b hf
      obtain ⟨e1, e2⟩ := huniq a b ha hb hab
      rw [e1, e2]

theorem hasLegalMove_false_iff (s : State) (color : Color) :
    hasLegalMove s color = false ↔ NoLegalMove s color := by
  unfold hasLegalMove NoLegalMove getLegalMoves
  rw [List.any_eq_false]
  constructor
  · intro h r c tr tc hr hc htr htc hcol
    have h1 := h (r, c) ((mem_allSquares r c).mpr ⟨hr, hc⟩)
    simp only [hcol, decide_True, Bool.true_and, decide_eq_true_eq, not_lt,
      Nat.le_zero_eq, List.length_eq_zero, List.filter_eq_nil_iff] at h1
    have h2 := h1 (tr, tc) ((mem_allSquares tr tc).mpr ⟨htr, htc⟩)
    simpa using h2
  · intro h sq hsq
    obtain ⟨r, c⟩ := sq
    have hm := (mem_allSquares r c).mp hsq
    by_cases hcol : getPieceColor (s.board r c) = some color
    · simp only [hcol, decide_True, Bool.true_and, decide_eq_true_eq, not_lt,
        Nat.le_zero_eq, List.length_eq_zero, List.filter_eq_nil_iff]
      intro d hd
      obtain ⟨tr, tc⟩ := d
      have hdm := (mem_allSquares tr tc).mp hd
      simp [h r c tr tc hm.1 hm.2 hdm.1 hdm.2 hcol]
    · simp [hcol]

/-- C18.  `isCheckmate(c)` is true iff `isInCheck(c)` and no piece of `c` has a
destination accepted by `isLegalMove` with check-safety on; `isStalemate(c)`
is true iff not `isInCheck(c)` and no piece of `c` has such a destination.
Checkmate requires check, stalemate requires its absence, and the two are
never both true. -/
theorem isCheckmate_isStalemate_iff (s : State) (color : Color) :
    (isCheckmate s color = true ↔ isInCheck s color = true ∧ NoLegalMove s color) ∧
    (isStalemate s color = true ↔ isInCheck s color = false ∧ NoLegalMove s color) ∧
    (isCheckmate s color = true → isInCheck s color = true) ∧
    (isStalemate s color = true → isInCheck s color = false) ∧
    ¬ (isCheckmate s color = true ∧ isStalemate s color = true) := by
  have hc : isCheckmate s color = true ↔ isInCheck s color = true ∧ NoLegalMove s color := by
    rw [← hasLegalMove_false_iff]
    unfold isCheckmate
    cases isInCheck s color <;> cases hasLegalMove s color <;> simp
  have hs : isStalemate s color = true ↔ isInCheck s color = false ∧ NoLegalMove s color := by
    rw [← hasLegalMove_false_iff]
    unfold isStalemate
    cases isInCheck s color <;> cases hasLegalMove s color <;> simp
  refine ⟨hc, hs, fun h => (hc.mp h).1, fun h => (hs.mp h).1, ?_⟩
  rintro ⟨h1, h2⟩
  have a := (hc.mp h1).1
  have b := (hs.mp h2).1
  rw [a] at b
  exact Bool.noConfusion b

set_option maxRecDepth 100000 in
theorem foolsMate_eval :
    isInCheck foolsMate Color.white = true ∧
    isCheckmate foolsMate Color.white = true ∧
    isStalemate foolsMate Color.white = false ∧
    findKing foolsMate Color.white = some (7, 4) ∧
    foolsMate.board 4 7 = some ⟨Color.black, Kind.q⟩ ∧
    foolsMate.currentPlayer = Color.white ∧
    foolsMate.gameState = GamePhase.ended := by
  decide!

/-- Witness for C17: after 1. f3 e5 2. g4 Qh4 white is in check, so its king
is found and some black piece attacks the king's square. -/
theorem isInCheck_iff_witness :
    isInCheck foolsMate Color.white = true ∧
    ∃ kr kc, findKing foolsMate Color.white = some (kr, kc) ∧
      ∃ r c, InRange r ∧ InRange c ∧
        getPieceColor (foolsMate.board r c) = some (opponentOf Color.white) ∧
        isLegalMove foolsMate r c kr kc true = true :=
  ⟨foolsMate_eval.1, (isInCheck_iff foolsMate Color.white).1.mp foolsMate_eval.1⟩

/-- Witness for C18: after 1. f3 e5 2. g4 Qh4 white is checkmated: it is in
check, none of its pieces has a legal destination, and it is not stalemated. -/
theorem isCheckmate_isStalemate_iff_witness :
    isCheckmate foolsMate Color.white = true ∧
    isInCheck foolsMate Color.white = true ∧
    NoLegalMove foolsMate Color.white ∧
    ¬ (isStalemate foolsMate Color.white = true) :=
  ⟨foolsMate_eval.2.1,
    ((isCheckmate_isStalemate_iff foolsMate Color.white).1.mp foolsMate_eval.2.1).1,
    ((isCheckmate_isStalemate_iff foolsMate Color.white).1.mp foolsMate_eval.2.1).2,
    fun h => (isCheckmate_isStalemate_iff foolsMate Color.white).2.2.2.2
      ⟨foolsMate_eval.2.1, h⟩⟩

/-! ## C14, C20: en passant -/

/-- What `isPawnMove` demands of a move that changes column onto an empty
square: it is the en-passant branch that accepts it. -/
theorem isPawnMove_onto_empty (s : State) (fromRow fromCol toRow toCol : Int) (c : Color)
    (hempty : s.board toRow toCol = none) (hcol : fromCol ≠ toCol)
    (h : isPawnMove s fromRow fromCol toRow toCol c = true) :
    (toCol - fromCol).natAbs = 1 ∧ toRow = fromRow + pawnDirection c ∧
    ∃ lastFrom lastTo, s.lastMove = some (lastFrom, lastTo) ∧
      lastTo = (fromRow, toCol) ∧ (lastFrom.1 - lastTo.1).natAbs = 2 ∧
      ∃ x, s.board fromRow toCol = some x ∧ x.kind = Kind.p ∧ x.color ≠ c := by
  unfold isPawnMove at h
  simp only [hempty] at h
  have h0 : (toCol - fromCol).natAbs ≠ 0 := by omega
  cases hl : s.lastMove with
  | none => simp [hl, h0] at h
  | some mv =>
    obtain ⟨lastFrom, lastTo⟩ := mv
    obtain ⟨l1, l2⟩ := lastTo
    cases hx : s.board fromRow toCol with
    | none => simp [hl, h0, hx, getPieceType] at h
    | some x =>
      simp only [hl, h0, hx, getPieceType, getPieceColor] at h
      simp only [false_and, if_false, Option.isSome_none, Bool.false_eq_true, and_false,
        Option.some.injEq, ne_eq, ite_eq_left_iff, Bool.not_eq_true,
        decide_eq_true_eq] at h
      by_cases hc : (toCol - fromCol).natAbs = 1 ∧
          toRow - fromRow = if c = Color.white then -1 else 1
      · rw [if_pos hc] at h
        simp only [decide_eq_true_eq] at h
        obtain ⟨h1, h2, h3, h4, h5⟩ := h
        refine ⟨hc.1, ?_, lastFrom, (l1, l2), rfl, ?_, h5, x, rfl, h3, h4⟩
        · unfold pawnDirection
          omega
        · rw [h1, h2]
      · rw [if_neg hc] at h
        exact Bool.noConfusion h

set_option maxRecDepth 100000 in
set_option synthInstance.maxSize 4096 in
set_option synthInstance.maxHeartbeats 400000 in
theorem promoState_eval :
    (promoBefore.currentPlayer = Color.white ∧
      promoBefore.lastMove = some ((1, 6), (3, 6)) ∧
      promoBefore.board 1 1 = some ⟨Color.white, Kind.p⟩ ∧
      promoBefore.board 0 1 = none ∧
      promoState.board 1 1 = none ∧
      promoState.board 0 1 = some ⟨Color.white, Kind.q⟩ ∧
      promoState.currentPlayer = Color.white ∧
      promoState.lastMove = some ((1, 6), (3, 6)) ∧
      promoState.moveHistory.getLast? = some ((1, 6), (3, 6)) ∧
      promoState.queenRushActive = false ∧
      promoState.board 3 7 = some ⟨Color.white, Kind.p⟩ ∧
      promoState.board 2 6 = none ∧
      isPawnMove promoState 3 7 2 6 Color.white = true ∧
      isLegalMove promoState 3 7 2 6 false = true ∧
      (run promoState (moveClicks 3 7 2 6)).board 2 6 = some ⟨Color.white, Kind.p⟩ ∧
      (run promoState (moveClicks 3 7 2 6)).board 3 6 = none ∧
      (run promoState (moveClicks 3 7 2 6)).currentPlayer = Color.black) ∧
    ((movePiece promoBefore 1 1 0 1).map Prod.fst = some MoveResult.promotion ∧
      promoBefore.doubleMove = { active := true, movesMade := 0 } ∧
      doubleTurnFirstReady.shieldMode = false ∧
      doubleTurnFirstReady.queenRushActive = false ∧
      doubleTurnFirstReady.teleportActive = false ∧
      doubleTurnFirstReady.selectedSquare = some (3, 7) ∧
      getPieceColor (doubleTurnFirstReady.board 2 7) ≠ some doubleTurnFirstReady.currentPlayer ∧
      isLegalMove doubleTurnFirstReady 3 7 2 7 false = true ∧
      (movePiece doubleTurnFirstReady 3 7 2 7).map Prod.fst = some MoveResult.success ∧
      doubleTurnFirstReady.doubleMove.active = true ∧
      doubleTurnFirstReady.doubleMove.movesMade = 0 ∧
      doubleTurnFirstReady.currentPlayer = Color.white ∧
      doubleTurnSecondReady.shieldMode = false ∧
      doubleTurnSecondReady.queenRushActive = false ∧
      doubleTurnSecondReady.teleportActive = false ∧
      doubleTurnSecondReady.selectedSquare = some (6, 3) ∧
      getPieceColor (doubleTurnSecondReady.board 5 3) ≠
        some doubleTurnSecondReady.currentPlayer ∧
      isLegalMove doubleTurnSecondReady 6 3 5 3 false = true ∧
      (movePiece doubleTurnSecondReady 6 3 5 3).map Prod.fst = some MoveResult.success ∧
      doubleTurnSecondReady.doubleMove.active = true ∧
      doubleTurnSecondReady.doubleMove.movesMade = 1 ∧
      doubleTurnSecondReady.currentPlayer = Color.white) := by
  decide!

theorem promoState_reachable : Reachable promoState :=
  reachable_run _ promoBefore (reachable_run promoGame initialState Reachable.init (by decide))
    (by decide)

/-- C14, evaluated on a real game.  In `promoBefore` black has just played the
two-square advance (1, 6) -> (3, 6) and white starts a double turn.  White's
first move is (1, 1) -> (0, 1) with promotion: `movePiece` returns
`"promotion"` before it records the move, so in `promoState` (reachable, white
still to move) `lastMove` and the end of `moveHistory` are still black's
advance although the move before was white's.  `isPawnMove` and `isLegalMove`
then accept the diagonal step (3, 7) -> (2, 6) onto the empty square, and the
click captures the pawn on (3, 6). -/
theorem enPassant_after_unrecorded_move :
    Reachable promoState ∧
    promoBefore.currentPlayer = Color.white ∧
    promoBefore.lastMove = some ((1, 6), (3, 6)) ∧
    promoBefore.board 1 1 = some ⟨Color.white, Kind.p⟩ ∧
    promoBefore.board 0 1 = none ∧
    promoState.board 1 1 = none ∧
    promoState.board 0 1 = some ⟨Color.white, Kind.q⟩ ∧
    promoState.currentPlayer = Color.white ∧
    promoState.lastMove = some ((1, 6), (3, 6)) ∧
    promoState.moveHistory.getLast? = some ((1, 6), (3, 6)) ∧
    promoState.queenRushActive = false ∧
    promoState.board 3 7 = some ⟨Color.white, Kind.p⟩ ∧
    promoState.board 2 6 = none ∧
    isPawnMove promoState 3 7 2 6 Color.white = true ∧
    isLegalMove promoState 3 7 2 6 false = true ∧
    (run promoState (moveClicks 3 7 2 6)).board 2 6 = some ⟨Color.white, Kind.p⟩ ∧
    (run promoState (moveClicks 3 7 2 6)).board 3 6 = none ∧
    (run promoState (moveClicks 3 7 2 6)).currentPlayer = Color.black :=
  ⟨promoState_reachable, promoState_eval.1⟩

/-- C20.  An en-passant move (a pawn changing column onto an empty square)
accepted by `isLegalMove` with queen-rush off and applied by `movePiece`: the
captured piece `x` is an opposing pawn standing on (source row, destination
column), a square that is not the destination; afterwards that square and the
source are empty, the destination holds the moving pawn, every other cell is
unchanged, and `x` is appended to the captured list of its colour. -/
theorem movePiece_enPassant (s s1 : State) (fromRow fromCol toRow toCol : Int) (c : Color)
    (res : MoveResult) (hq : s.queenRushActive = false)
    (hp : s.board fromRow fromCol = some ⟨c, Kind.p⟩)
    (hempty : s.board toRow toCol = none) (hcol : fromCol ≠ toCol)
    (hl : isLegalMove s fromRow fromCol toRow toCol false = true)
    (hm : movePiece s fromRow fromCol toRow toCol = some (res, s1)) :
    ∃ x, s.board fromRow toCol = some x ∧ x.kind = Kind.p ∧ x.color = opponentOf c ∧
      toRow ≠ fromRow ∧
      s1.board fromRow toCol = none ∧
      s1.board fromRow fromCol = none ∧
      s1.board toRow toCol = some ⟨c, Kind.p⟩ ∧
      (∀ r k, ¬ (r = fromRow ∧ k = toCol) → ¬ (r = fromRow ∧ k = fromCol) →
        ¬ (r = toRow ∧ k = toCol) → s1.board r k = s.board r k) ∧
      s1.capturedPieces.get x.color = s.capturedPieces.get x.color ++ [x] ∧
      s1.capturedPieces.get c = s.capturedPieces.get c := by
  have hrule := isLegalMove_le_rule s fromRow fromCol toRow toCol false hl
  have hpawn : isPawnMove s fromRow fromCol toRow toCol c = true := by
    unfold isLegalMoveRule at hrule
    simp only [hp, hempty, getPieceColor, hq] at hrule
    simpa using hrule
  obtain ⟨-, hrow, -, -, -, -, -, x, hx, hxk, hxc⟩ :=
    isPawnMove_onto_empty s fromRow fromCol toRow toCol c hempty hcol hpawn
  have hrow2 : toRow ≠ fromRow := by
    unfold pawnDirection at hrow
    split at hrow <;> omega
  have hres : res ≠ MoveResult.rejected := by
    intro hr
    rw [hr] at hm
    unfold movePiece at hm
    simp [hempty, getPieceType, isShielded, hp] at hm
    split at hm <;> simp at hm
  obtain ⟨-, hcap, -, hb⟩ :=
    movePiece_fields s s1 fromRow fromCol toRow toCol ⟨c, Kind.p⟩ res hp hm hres
  rw [afterCaptures_enPassant s ⟨c, Kind.p⟩ x fromRow fromCol toRow toCol rfl hempty hcol hx]
    at hcap hb
  have hxc2 : x.color = opponentOf c := by
    cases hxx : x.color <;> cases c <;> simp_all [opponentOf]
  refine ⟨x, hx, hxk, hxc2, hrow2, ?_, ?_, ?_, ?_, ?_, ?_⟩
  · rw [hb]
    have h1 : ¬ (fromRow = fromRow ∧ toCol = fromCol) := fun hh => hcol hh.2.symm
    have h2 : fromRow ≠ toRow := fun hh => hrow2 hh.symm
    simp [setCell_apply, h1, h2, incCaptures, addEnergy, pushCaptured]
  · rw [hb]
    simp [setCell_apply]
  · rw [hb]
    have h1 : ¬ (toRow = fromRow ∧ toCol = fromCol) := fun hh => hrow2 hh.1
    simp [setCell_apply, h1]
  · intro r k h1 h2 h3
    rw [hb]
    simp [setCell_apply, h1, h2, h3, incCaptures, addEnergy, pushCaptured]
  · rw [hcap]
    simp [incCaptures, addEnergy, pushCaptured]
  · rw [hcap]
    have hne : c ≠ x.color := by
      rw [hxc2]
      exact ne_opponentOf c
    simp [incCaptures, addEnergy, pushCaptured, PerColor.get_set_ne _ _ _ _ hne]

/-- Witness for C20: in `pinState` black has just played (1, 3) -> (3, 3); the
white pawn's move (3, 4) -> (2, 3) removes the black pawn from (3, 3), not
from (2, 3). -/
theorem movePiece_enPassant_witness :
    pinState.queenRushActive = false ∧
    pinState.board 3 4 = some ⟨Color.white, Kind.p⟩ ∧
    pinState.board 2 3 = none ∧
    isLegalMove pinState 3 4 2 3 false = true ∧
    movePiece pinState 3 4 2 3 = some (MoveResult.success, pinAfter) ∧
    ∃ x, pinState.board 3 3 = some x ∧ x.kind = Kind.p ∧ x.color = opponentOf Color.white ∧
      (2 : Int) ≠ 3 ∧
      pinAfter.board 3 3 = none ∧
      pinAfter.board 3 4 = none ∧
      pinAfter.board 2 3 = some ⟨Color.white, Kind.p⟩ ∧
      (∀ r k, ¬ (r = 3 ∧ k = 3) → ¬ (r = 3 ∧ k = 4) → ¬ (r = 2 ∧ k = 3) →
        pinAfter.board r k = pinState.board r k) ∧
      pinAfter.capturedPieces.get x.color = pinState.capturedPieces.get x.color ++ [x] ∧
      pinAfter.capturedPieces.get Color.white = pinState.capturedPieces.get Color.white :=
  have hq : pinState.queenRushActive = false := pinState_eval.2.2.2.2.2
  have hp : pinState.board 3 4 = some ⟨Color.white, Kind.p⟩ := pinState_eval.2.1
  have he : pinState.board 2 3 = none := pinState_eval.2.2.2.1
  have hl : isLegalMove pinState 3 4 2 3 false = true := pinState_eval.1.2.2.2.1
  have hm : movePiece pinState 3 4 2 3 = some (MoveResult.success, pinAfter) :=
    movePiece_eq_stateAfterMove pinState 3 4 2 3 MoveResult.success pinState_eval.2.2.1
  ⟨hq, hp, he, hl, hm,
    movePiece_enPassant pinState pinAfter 3 4 2 3 Color.white MoveResult.success hq hp he
      (by decide) hl hm⟩

/-! ## C19: scenario A -/

set_option maxRecDepth 100000 in
theorem scenarioA_eval :
    isLegalMove initialState 6 4 4 4 false = true ∧
    scenarioA1.board 4 4 = some ⟨Color.white, Kind.p⟩ ∧
    scenarioA1.currentPlayer = Color.black ∧
    isLegalMove scenarioA1 1 3 3 3 false = true ∧
    scenarioA2.board 4 4 = some ⟨Color.white, Kind.p⟩ ∧
    scenarioA2.board 3 3 = some ⟨Color.black, Kind.p⟩ ∧
    scenarioA2.currentPlayer = Color.white ∧
    scenarioA2.queenRushActive = false ∧
    isPawnMove scenarioA2 4 4 3 3 Color.white = true ∧
    isLegalMove scenarioA2 4 4 3 3 false = true ∧
    scenarioA2Rush.queenRushActive = true ∧
    isQueenMove scenarioA2Rush 4 4 3 3 = true ∧
    isLegalMove scenarioA2Rush 4 4 3 3 false = true := by
  decide!

/-- C19 as stated fails: after 1. e4 d5, with queen-rush inactive, the move
(4, 4) -> (3, 3) is not rejected by `isLegalMove`. -/
theorem scenarioA_capture_not_rejected :
    ¬ (isLegalMove initialState 6 4 4 4 false = true ∧
      isLegalMove scenarioA1 1 3 3 3 false = true ∧
      (scenarioA2.queenRushActive = false ∧ isLegalMove scenarioA2 4 4 3 3 false = false) ∧
      isLegalMove scenarioA2Rush 4 4 3 3 false = true) := by
  intro h
  have h1 := h.2.2.1.2
  rw [scenarioA_eval.2.2.2.2.2.2.2.2.2.1] at h1
  exact Bool.noConfusion h1

/-- C19, amended.  From the initial position (6, 4) -> (4, 4) is accepted by
`isLegalMove`; after it, (1, 3) -> (3, 3) is accepted; after that, the white
pawn's move (4, 4) -> (3, 3) is accepted both with queen-rush inactive, as the
ordinary diagonal capture of the pawn on (3, 3) by `isPawnMove`, and with
queen-rush active for white, as a queen move. -/
theorem scenarioA_amended :
    isLegalMove initialState 6 4 4 4 false = true ∧
    isLegalMove scenarioA1 1 3 3 3 false = true ∧
    scenarioA2.board 3 3 = some ⟨Color.black, Kind.p⟩ ∧
    (scenarioA2.queenRushActive = false ∧
      isPawnMove scenarioA2 4 4 3 3 Color.white = true ∧
      isLegalMove scenarioA2 4 4 3 3 false = true) ∧
    (scenarioA2Rush.queenRushActive = true ∧
      scenarioA2Rush.currentPlayer = Color.white ∧
      isQueenMove scenarioA2Rush 4 4 3 3 = true ∧
      isLegalMove scenarioA2Rush 4 4 3 3 false = true) :=
  have h := scenarioA_eval
  ⟨h.1, h.2.2.2.1, h.2.2.2.2.2.1, ⟨h.2.2.2.2.2.2.2.1, h.2.2.2.2.2.2.2.2.1,
    h.2.2.2.2.2.2.2.2.2.1⟩, ⟨h.2.2.2.2.2.2.2.2.2.2.1, h.2.2.2.2.2.2.1,
    h.2.2.2.2.2.2.2.2.2.2.2.1, h.2.2.2.2.2.2.2.2.2.2.2.2⟩⟩

/-! ## C21: `"promotion"` or `"success"` -/

theorem stats_set_captures (m : PerColor Stats) (d c : Color) (n : Nat) :
    ((m.set d (Stats.mk (m.get d).moves n (m.get d).powersUsed)).get c).moves =
      (m.get c).moves ∧
    ((m.set d (Stats.mk (m.get d).moves n (m.get d).powersUsed)).get c).powersUsed =
      (m.get c).powersUsed := by
  cases d <;> cases c <;> simp [PerColor.get, PerColor.set]

/-- The fields the two capture blocks of `movePiece` leave alone. -/
theorem afterCaptures_frame (s : State) (piece : Piece) (fromRow fromCol toRow toCol : Int) :
    (afterCaptures s piece fromRow fromCol toRow toCol).lastMove = s.lastMove ∧
    (afterCaptures s piece fromRow fromCol toRow toCol).moveHistory = s.moveHistory ∧
    (afterCaptures s piece fromRow fromCol toRow toCol).currentPlayer = s.currentPlayer ∧
    (afterCaptures s piece fromRow fromCol toRow toCol).doubleMove = s.doubleMove ∧
    (∀ c, ((afterCaptures s piece fromRow fromCol toRow toCol).stats.get c).moves =
      (s.stats.get c).moves) ∧
    (∀ c, ((afterCaptures s piece fromRow fromCol toRow toCol).stats.get c).powersUsed =
      (s.stats.get c).powersUsed) ∧
    (afterCaptures s piece fromRow fromCol toRow toCol).promotionData = s.promotionData ∧
    (afterCaptures s piece fromRow fromCol toRow toCol).gameState = s.gameState := by
  unfold afterCaptures enPassantStep captureStep
  split <;> split <;> (try split) <;>
    simp [addEnergy, pushCaptured, incCaptures, stats_set_captures]
  all_goals
    refine ⟨fun c => ?_, fun c => ?_⟩ <;> generalize piece.color = d <;>
      cases c <;> cases d <;> simp [PerColor.get, PerColor.set]

/-- The shape of a `movePiece` result that is not a rejection. -/
theorem movePiece_result (s s1 : State) (fromRow fromCol toRow toCol : Int) (piece : Piece)
    (res : MoveResult) (hp : s.board fromRow fromCol = some piece)
    (hm : movePiece s fromRow fromCol toRow toCol = some (res, s1))
    (hres : res ≠ MoveResult.rejected) :
    (reachesLastRank piece toRow ∧ res = MoveResult.promotion ∧
      s1 = { afterCaptures s piece fromRow fromCol toRow toCol with
        board := setCell (setCell (afterCaptures s piece fromRow fromCol toRow toCol).board
          toRow toCol (some piece)) fromRow fromCol none }) ∨
    (¬ reachesLastRank piece toRow ∧ res = MoveResult.success ∧
      s1 = incMoves { afterCaptures s piece fromRow fromCol toRow toCol with
        board := setCell (setCell (afterCaptures s piece fromRow fromCol toRow toCol).board
          toRow toCol (some piece)) fromRow fromCol none,
        lastMove := some ((fromRow, fromCol), (toRow, toCol)),
        moveHistory := (afterCaptures s piece fromRow fromCol toRow toCol).moveHistory ++
          [((fromRow, fromCol), (toRow, toCol))] } piece.color) := by
  obtain ⟨hk, hs⟩ := movePiece_not_rejected s s1 fromRow fromCol toRow toCol res hm hres
  unfold movePiece at hm
  simp only [hk, hs, hp, if_false, Bool.false_eq_true] at hm
  split at hm
  · rename_i h
    simp only [Option.some.injEq, Prod.mk.injEq] at hm
    exact Or.inl ⟨h, hm.1.symm, hm.2.symm⟩
  · rename_i h
    simp only [Option.some.injEq, Prod.mk.injEq] at hm
    exact Or.inr ⟨h, hm.1.symm, hm.2.symm⟩

/-- What `handleSquareClick` does in its last branch once `isLegalMove` has
accepted the move from the selected square. -/
theorem handleSquareClick_move (s : State) (fromRow fromCol row col : Int)
    (hsm : s.shieldMode = false) (hq : s.queenRushActive = false)
    (ht : s.teleportActive = false) (hsel : s.selectedSquare = some (fromRow, fromCol))
    (hown : getPieceColor (s.board row col) ≠ some s.currentPlayer)
    (hl : isLegalMove s fromRow fromCol row col false = true) :
    handleSquareClick s row col =
      match movePiece s fromRow fromCol row col with
      | none => s
      | some (MoveResult.rejected, s1) => { s1 with selectedSquare := some (fromRow, fromCol) }
      | some (MoveResult.promotion, s1) =>
        { s1 with selectedSquare := none, promotionData := some (row, col) }
      | some (MoveResult.success, s1) =>
        checkGameEnd (advanceTurn { s1 with selectedSquare := none }) := by
  unfold handleSquareClick moveClick
  simp only [hsm, hsel, hq, ht, hown, hl, if_false, if_true, Bool.false_eq_true]

/-- What holds of a move applied by `movePiece` in every state (source
occupied, result not `false`): the result is `"promotion"` exactly when the moved piece is a pawn
arriving on row 0 (white) or row 7 (black), and `"success"` otherwise; in both
cases the piece is moved.  On `"promotion"`, `lastMove`, `moveHistory`, the
mover's `moves` counter and the colour to move are unchanged, and the move
branch of `handleSquareClick` only clears the selection and sets
`promotionData`, so they stay unchanged while the promotion is pending.  On
`"success"`, `lastMove` is `[from, to]`, it is appended to `moveHistory` and
the mover's `moves` counter rises by 1. -/
theorem movePiece_promotion_or_success (s s1 : State) (fromRow fromCol toRow toCol : Int)
    (piece : Piece) (res : MoveResult) (hp : s.board fromRow fromCol = some piece)
    (hm : movePiece s fromRow fromCol toRow toCol = some (res, s1))
    (hres : res ≠ MoveResult.rejected) :
    (res = MoveResult.promotion ↔ reachesLastRank piece toRow) ∧
    (res = MoveResult.success ↔ ¬ reachesLastRank piece toRow) ∧
    (s1.board fromRow fromCol = none ∧
      (¬ (toRow = fromRow ∧ toCol = fromCol) → s1.board toRow toCol = some piece)) ∧
    (res = MoveResult.promotion →
      s1.lastMove = s.lastMove ∧ s1.moveHistory = s.moveHistory ∧
      (s1.stats.get piece.color).moves = (s.stats.get piece.color).moves ∧
      s1.currentPlayer = s.currentPlayer ∧
      (s.shieldMode = false → s.queenRushActive = false → s.teleportActive = false →
        s.selectedSquare = some (fromRow, fromCol) →
        getPieceColor (s.board toRow toCol) ≠ some s.currentPlayer →
        isLegalMove s fromRow fromCol toRow toCol false = true →
        handleSquareClick s toRow toCol =
          { s1 with selectedSquare := none, promotionData := some (toRow, toCol) })) ∧
    (res = MoveResult.success →
      s1.lastMove = some ((fromRow, fromCol), (toRow, toCol)) ∧
      s1.moveHistory = s.moveHistory ++ [((fromRow, fromCol), (toRow, toCol))] ∧
      (s1.stats.get piece.color).moves = (s.stats.get piece.color).moves + 1 ∧
      s1.currentPlayer = s.currentPlayer) := by
  obtain ⟨hlm, hmh, hcp, -, hmv, -, -, -⟩ :=
    afterCaptures_frame s piece fromRow fromCol toRow toCol
  rcases movePiece_result s s1 fromRow fromCol toRow toCol piece res hp hm hres with
    ⟨hlast, hr, hs1⟩ | ⟨hlast, hr, hs1⟩
  · subst hr
    refine ⟨by simp [hlast], by simp [hlast], ?_, ?_, ?_⟩
    · rw [hs1]
      refine ⟨by simp [setCell_apply], fun hne => ?_⟩
      simp [setCell_apply, hne]
    · intro _
      refine ⟨by rw [hs1]; exact hlm, by rw [hs1]; exact hmh, by rw [hs1]; exact hmv _,
        by rw [hs1]; exact hcp, ?_⟩
      intro hsm hq ht hsel hown hl
      rw [handleSquareClick_move s fromRow fromCol toRow toCol hsm hq ht hsel hown hl, hm]
    · intro h
      exact MoveResult.noConfusion h
  · subst hr
    refine ⟨by simp [hlast], by simp [hlast], ?_, ?_, ?_⟩
    · rw [hs1]
      refine ⟨by simp [setCell_apply, incMoves], fun hne => ?_⟩
      simp [setCell_apply, hne, incMoves]
    · intro h
      exact MoveResult.noConfusion h
    · intro _
      rw [hs1]
      refine ⟨by simp [incMoves], by simp [incMoves, hmh], ?_, by simp [incMoves, hcp]⟩
      simp [incMoves, hmv]

/-- An instance of `movePiece_promotion_or_success`: in `promoBefore` the white
pawn on (1, 1) steps to (0, 1);
`movePiece` answers `"promotion"` and leaves `lastMove`, `moveHistory` and
the colour to move as they were. -/
theorem movePiece_promotion_or_success_witness :
    promoBefore.board 1 1 = some ⟨Color.white, Kind.p⟩ ∧
    movePiece promoBefore 1 1 0 1 =
      some (MoveResult.promotion, stateAfterMove promoBefore 1 1 0 1) ∧
    MoveResult.promotion ≠ MoveResult.rejected ∧
    reachesLastRank ⟨Color.white, Kind.p⟩ 0 ∧
    (stateAfterMove promoBefore 1 1 0 1).lastMove = promoBefore.lastMove ∧
    (stateAfterMove promoBefore 1 1 0 1).moveHistory = promoBefore.moveHistory ∧
    (stateAfterMove promoBefore 1 1 0 1).currentPlayer = promoBefore.currentPlayer :=
  have hp : promoBefore.board 1 1 = some ⟨Color.white, Kind.p⟩ := promoState_eval.1.2.2.1
  have hm : movePiece promoBefore 1 1 0 1 =
      some (MoveResult.promotion, stateAfterMove promoBefore 1 1 0 1) :=
    movePiece_eq_stateAfterMove promoBefore 1 1 0 1 MoveResult.promotion promoState_eval.2.1
  have hres : MoveResult.promotion ≠ MoveResult.rejected := by decide
  have h := movePiece_promotion_or_success promoBefore (stateAfterMove promoBefore 1 1 0 1)
    1 1 0 1 ⟨Color.white, Kind.p⟩ MoveResult.promotion hp hm hres
  ⟨hp, hm, hres, h.1.1 rfl, (h.2.2.2.1 rfl).1, (h.2.2.2.1 rfl).2.1, (h.2.2.2.1 rfl).2.2.2.1⟩

set_option maxRecDepth 100000 in
/-- The promotion move of `rushPromoGame`, evaluated once. -/
theorem rushPromo_eval :
    rushPromoReady.queenRushActive = true ∧
    rushPromoReady.shieldMode = false ∧
    rushPromoReady.currentPlayer = Color.white ∧
    rushPromoReady.selectedSquare = some (1, 1) ∧
    rushPromoReady.board 1 1 = some ⟨Color.white, Kind.p⟩ ∧
    rushPromoReady.board 0 1 = none ∧
    rushPromoReady.promotionData = none ∧
    rushPromoReady.lastMove = some ((1, 5), (2, 5)) ∧
    rushPromoReady.moveHistory.length = 8 ∧
    isLegalMove rushPromoReady 1 1 0 1 false = true ∧
    (movePiece rushPromoReady 1 1 0 1).map Prod.fst = some MoveResult.promotion ∧
    rushPromoDone.board 1 1 = none ∧
    rushPromoDone.board 0 1 = some ⟨Color.white, Kind.p⟩ ∧
    rushPromoDone.currentPlayer = Color.black ∧
    rushPromoDone.promotionData = none ∧
    rushPromoDone.gameState = GamePhase.playing ∧
    rushPromoDone.lastMove = some ((1, 5), (2, 5)) ∧
    rushPromoDone.moveHistory.length = 8 ∧
    (promotePawn rushPromoDone Kind.q).board 0 1 = some ⟨Color.white, Kind.p⟩ ∧
    (promotePawn rushPromoDone Kind.q).currentPlayer = Color.black := by
  decide!

/-- C21 (fails in the code): the queen-rush branch of `handleSquareClick`
(lines 693-704) does not look at the value `movePiece` returns.  In the
reachable state `rushPromoReady` white has bought queen-rush and selected its
pawn on (1, 1); the click on the empty square (0, 1) is a legal move and
`movePiece` answers `"promotion"`, but the branch passes the turn at once:
the white pawn stands on row 0, black is to move, no promotion is pending,
and the move is in neither `lastMove` nor `moveHistory`.  `promotePawn` has
not been called, and calling it now changes nothing: the pawn stays a pawn.
The move branch (lines 781-790) does wait for `promotePawn`, as
`movePiece_promotion_or_success` shows. -/
theorem queenRush_promotion_dropped :
    Reachable rushPromoReady ∧ Reachable rushPromoDone ∧
    rushPromoReady.queenRushActive = true ∧
    rushPromoReady.shieldMode = false ∧
    rushPromoReady.currentPlayer = Color.white ∧
    rushPromoReady.selectedSquare = some (1, 1) ∧
    rushPromoReady.board 1 1 = some ⟨Color.white, Kind.p⟩ ∧
    rushPromoReady.board 0 1 = none ∧
    rushPromoReady.promotionData = none ∧
    rushPromoReady.lastMove = some ((1, 5), (2, 5)) ∧
    rushPromoReady.moveHistory.length = 8 ∧
    isLegalMove rushPromoReady 1 1 0 1 false = true ∧
    (movePiece rushPromoReady 1 1 0 1).map Prod.fst = some MoveResult.promotion ∧
    rushPromoDone.board 1 1 = none ∧
    rushPromoDone.board 0 1 = some ⟨Color.white, Kind.p⟩ ∧
    rushPromoDone.currentPlayer = Color.black ∧
    rushPromoDone.promotionData = none ∧
    rushPromoDone.gameState = GamePhase.playing ∧
    rushPromoDone.lastMove = some ((1, 5), (2, 5)) ∧
    rushPromoDone.moveHistory.length = 8 ∧
    (promotePawn rushPromoDone Kind.q).board 0 1 = some ⟨Color.white, Kind.p⟩ ∧
    (promotePawn rushPromoDone Kind.q).currentPlayer = Color.black :=
  have hr : Reachable rushPromoReady :=
    reachable_run rushPromoGame initialState Reachable.init (by decide)
  ⟨hr, Reachable.step rushPromoReady (Cmd.click 0 1) hr (by decide), rushPromo_eval⟩

/-! ## C22, C23: `promotePawn` -/

/-- `checkGameEnd` only touches `gameState` and `winner`. -/
theorem checkGameEnd_frame (s : State) :
    (checkGameEnd s).board = s.board ∧
    (checkGameEnd s).currentPlayer = s.currentPlayer ∧
    (checkGameEnd s).doubleMove = s.doubleMove ∧
    (checkGameEnd s).promotionData = s.promotionData ∧
    (checkGameEnd s).lastMove = s.lastMove ∧
    (checkGameEnd s).moveHistory = s.moveHistory ∧
    (checkGameEnd s).queenRushActive = s.queenRushActive ∧
    (checkGameEnd s).teleportActive = s.teleportActive ∧
    (checkGameEnd s).shieldMode = s.shieldMode ∧
    (checkGameEnd s).selectedSquare = s.selectedSquare := by
  unfold checkGameEnd
  simp only
  split
  · simp [endGame]
  · split <;> simp [endGame]

/-- `advanceTurn` only touches `currentPlayer` and `doubleMove`. -/
theorem advanceTurn_frame (s : State) :
    (advanceTurn s).board = s.board ∧
    (advanceTurn s).promotionData = s.promotionData ∧
    (advanceTurn s).lastMove = s.lastMove ∧
    (advanceTurn s).moveHistory = s.moveHistory ∧
    (advanceTurn s).selectedSquare = s.selectedSquare := by
  unfold advanceTurn
  simp only
  split <;> split <;> simp [switchPlayer]

/-- The three cases of the turn hand-over. -/
theorem advanceTurn_cases (s : State) :
    (s.doubleMove.active = false →
      (advanceTurn s).currentPlayer = opponentOf s.currentPlayer ∧
      (advanceTurn s).doubleMove = s.doubleMove) ∧
    (s.doubleMove.active = true → s.doubleMove.movesMade = 0 →
      (advanceTurn s).currentPlayer = s.currentPlayer ∧
      (advanceTurn s).doubleMove = { active := true, movesMade := 1 }) ∧
    (s.doubleMove.active = true → 1 ≤ s.doubleMove.movesMade →
      (advanceTurn s).currentPlayer = opponentOf s.currentPlayer ∧
      (advanceTurn s).doubleMove = { active := false, movesMade := 0 }) := by
  unfold advanceTurn
  refine ⟨?_, ?_, ?_⟩
  · intro h
    simp [h, switchPlayer]
  · intro h h0
    simp [h, h0]
  · intro h h1
    have h2 : s.doubleMove.movesMade + 1 ≥ 2 := by omega
    simp [h, switchPlayer, h2]

/-- What `promotePawn` does with a pending promotion. -/
theorem promotePawn_pending (s : State) (row col : Int) (kind : Kind)
    (hpd : s.promotionData = some (row, col)) :
    promotePawn s kind =
      checkGameEnd (advanceTurn
        { s with
          board := setCell s.board row col
            (some (if getPieceColor (s.board row col) = some Color.white
              then ⟨Color.white, kind⟩ else ⟨Color.black, kind⟩)),
          promotionData := none }) := by
  unfold promotePawn
  simp only [hpd]

/-- C22.  With a promotion pending at `(row, col)` and a pawn of colour `c` on
that square, `promotePawn(k)` puts a piece of kind `k` and colour `c` there
(for `q`, `r`, `b`, `n` as for any other letter), leaves every other cell
unchanged, clears the pending marker and, when no double turn is active,
passes the turn to the other colour. -/
theorem promotePawn_places (s : State) (row col : Int) (c : Color) (kind : Kind)
    (hpd : s.promotionData = some (row, col)) (hp : s.board row col = some ⟨c, Kind.p⟩) :
    (promotePawn s kind).board row col = some ⟨c, kind⟩ ∧
    (∀ r k, ¬ (r = row ∧ k = col) → (promotePawn s kind).board r k = s.board r k) ∧
    (promotePawn s kind).promotionData = none ∧
    (s.doubleMove.active = false →
      (promotePawn s kind).currentPlayer = opponentOf s.currentPlayer) := by
  rw [promotePawn_pending s row col kind hpd]
  obtain ⟨hb, hcp, -, hpr, -⟩ := checkGameEnd_frame (advanceTurn
    { s with
      board := setCell s.board row col
        (some (if getPieceColor (s.board row col) = some Color.white
          then ⟨Color.white, kind⟩ else ⟨Color.black, kind⟩)),
      promotionData := none })
  obtain ⟨hb2, hpr2, -⟩ := advanceTurn_frame
    { s with
      board := setCell s.board row col
        (some (if getPieceColor (s.board row col) = some Color.white
          then ⟨Color.white, kind⟩ else ⟨Color.black, kind⟩)),
      promotionData := none }
  rw [hb, hb2, hpr, hpr2, hcp]
  refine ⟨?_, ?_, rfl, ?_⟩
  · cases c <;> simp [hp, getPieceColor]
  · intro r k hne
    simp [setCell_apply, hne]
  · intro hd
    exact ((advanceTurn_cases
      { s with
        board := setCell s.board row col
          (some (if getPieceColor (s.board row col) = some Color.white
            then ⟨Color.white, kind⟩ else ⟨Color.black, kind⟩)),
        promotionData := none }).1 hd).1

/-- Witness for C22: with a white pawn on (0, 4) and the promotion pending,
`promotePawn("q")` gives a white queen on (0, 4) with black to move. -/
theorem promotePawn_places_witness :
    promotionPending.promotionData = some (0, 4) ∧
    promotionPending.board 0 4 = some ⟨Color.white, Kind.p⟩ ∧
    promotionPending.doubleMove.active = false ∧
    (promotePawn promotionPending Kind.q).board 0 4 = some ⟨Color.white, Kind.q⟩ ∧
    (promotePawn promotionPending Kind.q).board 7 4 = promotionPending.board 7 4 ∧
    (promotePawn promotionPending Kind.q).promotionData = none ∧
    (promotePawn promotionPending Kind.q).currentPlayer = Color.black :=
  have h := promotePawn_places promotionPending 0 4 Color.white Kind.q rfl (by decide)
  ⟨rfl, by decide, rfl, h.1, h.2.1 7 4 (by decide), h.2.2.1, h.2.2.2 rfl⟩

/-- C23 as stated fails: with a promotion pending on (0, 4), `promotePawn("k")`
is not rejected; it changes the state, putting a second white king on the
board. -/
theorem promotePawn_king_not_rejected :
    promotionPending.promotionData = some (0, 4) ∧
    promotionPending.board 0 4 = some ⟨Color.white, Kind.p⟩ ∧
    (promotePawn promotionPending Kind.k).board 0 4 = some ⟨Color.white, Kind.k⟩ ∧
    (promotePawn promotionPending Kind.k).board 7 4 = some ⟨Color.white, Kind.k⟩ ∧
    (promotePawn promotionPending Kind.k).promotionData = none ∧
    ¬ (promotePawn promotionPending Kind.k = promotionPending) := by
  have hb : (promotePawn promotionPending Kind.k).board = setCell promotionPending.board 0 4
      (some ⟨Color.white, Kind.k⟩) := by
    rw [promotePawn_pending promotionPending 0 4 Kind.k rfl]
    rw [(checkGameEnd_frame _).1, (advanceTurn_frame _).1]
    rfl
  have hd : (promotePawn promotionPending Kind.k).promotionData = none := by
    rw [promotePawn_pending promotionPending 0 4 Kind.k rfl]
    rw [(checkGameEnd_frame _).2.2.2.1, (advanceTurn_frame _).2.1]
  refine ⟨rfl, by decide, ?_, ?_, hd, ?_⟩
  · rw [hb]
    decide
  · rw [hb]
    decide
  · intro h
    rw [h] at hd
    exact Option.noConfusion hd

/-- C23, amended.  `promotePawn` called while no promotion is pending leaves
the state unchanged.  With a promotion pending it checks nothing about the
piece kind: whatever kind it is given, `k` and `p` included, is placed on the
pending square in the pawn's colour and the pending marker is cleared. -/
theorem promotePawn_unchecked (s : State) (kind : Kind) :
    (s.promotionData = none → promotePawn s kind = s) ∧
    (∀ row col c, s.promotionData = some (row, col) → s.board row col = some ⟨c, Kind.p⟩ →
      (promotePawn s kind).board row col = some ⟨c, kind⟩ ∧
      (∀ r k, ¬ (r = row ∧ k = col) → (promotePawn s kind).board r k = s.board r k) ∧
      (promotePawn s kind).promotionData = none) := by
  refine ⟨?_, ?_⟩
  · intro h
    simp [promotePawn, h]
  · intro row col c hpd hp
    rw [promotePawn_pending s row col kind hpd]
    rw [(checkGameEnd_frame _).1, (advanceTurn_frame _).1, (checkGameEnd_frame _).2.2.2.1,
      (advanceTurn_frame _).2.1]
    refine ⟨?_, ?_, rfl⟩
    · cases c <;> simp [hp, getPieceColor]
    · intro r k hne
      simp [setCell_apply, hne]

/-! ## C24: the double turn -/

/-- `movePiece` leaves the colour to move and the double-turn record alone. -/
theorem movePiece_turn_frame (s s1 : State) (fromRow fromCol toRow toCol : Int)
    (res : MoveResult) (hm : movePiece s fromRow fromCol toRow toCol = some (res, s1)) :
    s1.currentPlayer = s.currentPlayer ∧ s1.doubleMove = s.doubleMove := by
  by_cases hres : res = MoveResult.rejected
  · subst hres
    unfold movePiece at hm
    simp only at hm
    split at hm
    · simp only [Option.some.injEq, Prod.mk.injEq, true_and] at hm
      rw [← hm]
      exact ⟨rfl, rfl⟩
    · split at hm
      · simp only [Option.some.injEq, Prod.mk.injEq, true_and] at hm
        rw [← hm]
        exact ⟨rfl, rfl⟩
      · split at hm
        · exact Option.noConfusion hm
        · split at hm <;> simp at hm
  · cases hp : s.board fromRow fromCol with
    | none =>
      unfold movePiece at hm
      simp only [hp] at hm
      split at hm
      · simp only [Option.some.injEq, Prod.mk.injEq] at hm
        exact absurd hm.1.symm hres
      · split at hm
        · simp only [Option.some.injEq, Prod.mk.injEq] at hm
          exact absurd hm.1.symm hres
        · exact Option.noConfusion hm
    | some piece =>
      obtain ⟨-, -, hcp, hdm, -⟩ := afterCaptures_frame s piece fromRow fromCol toRow toCol
      rcases movePiece_result s s1 fromRow fromCol toRow toCol piece res hp hm hres with
        ⟨-, -, hs1⟩ | ⟨-, -, hs1⟩
      · rw [hs1]
        exact ⟨hcp, hdm⟩
      · rw [hs1]
        exact ⟨by simp [incMoves, hcp], by simp [incMoves, hdm]⟩

/-- The double turn in the move branch.  Double-turn is accepted by
`handlePowerClick` exactly with energy at least 4 and then sets `doubleMove = {active: true, movesMade: 0}` without
passing the turn.  With the double turn active, a move accepted and applied
through the move branch of `handleSquareClick` leaves, as the first move
(`movesMade = 0`), the same colour to move with `doubleMove = {true, 1}`, and,
as the second move (`movesMade = 1`), passes the turn to the other colour with
`doubleMove = {false, 0}`: the flag is cleared after the second move and not
before. -/
theorem doubleTurn_two_moves (s s1 : State) (fromRow fromCol row col : Int)
    (hsm : s.shieldMode = false) (hq : s.queenRushActive = false)
    (ht : s.teleportActive = false) (hsel : s.selectedSquare = some (fromRow, fromCol))
    (hown : getPieceColor (s.board row col) ≠ some s.currentPlayer)
    (hl : isLegalMove s fromRow fromCol row col false = true)
    (hm : movePiece s fromRow fromCol row col = some (MoveResult.success, s1))
    (hact : s.doubleMove.active = true) :
    (∀ t : State,
      (canActivatePower t t.currentPlayer Power.doubleTurn = true ↔
        4 ≤ t.energy.get t.currentPlayer) ∧
      (4 ≤ t.energy.get t.currentPlayer →
        (handlePowerClick t Power.doubleTurn).doubleMove = { active := true, movesMade := 0 } ∧
        (handlePowerClick t Power.doubleTurn).currentPlayer = t.currentPlayer) ∧
      (¬ 4 ≤ t.energy.get t.currentPlayer → handlePowerClick t Power.doubleTurn = t)) ∧
    (s.doubleMove.movesMade = 0 →
      (handleSquareClick s row col).currentPlayer = s.currentPlayer ∧
      (handleSquareClick s row col).doubleMove = { active := true, movesMade := 1 }) ∧
    (s.doubleMove.movesMade = 1 →
      (handleSquareClick s row col).currentPlayer = opponentOf s.currentPlayer ∧
      (handleSquareClick s row col).doubleMove = { active := false, movesMade := 0 }) := by
  have hclick : handleSquareClick s row col =
      checkGameEnd (advanceTurn { s1 with selectedSquare := none }) := by
    rw [handleSquareClick_move s fromRow fromCol row col hsm hq ht hsel hown hl, hm]
  obtain ⟨hcp, hdm⟩ := movePiece_turn_frame s s1 fromRow fromCol row col _ hm
  have hact1 : ({ s1 with selectedSquare := none } : State).doubleMove.active = true := by
    show s1.doubleMove.active = true
    rw [hdm]
    exact hact
  refine ⟨?_, ?_, ?_⟩
  · intro t
    have hcan : canActivatePower t t.currentPlayer Power.doubleTurn = true ↔
        4 ≤ t.energy.get t.currentPlayer := by
      simp [canActivatePower, powersCost]
    refine ⟨hcan, ?_, ?_⟩
    · intro h
      have h1 := hcan.mpr h
      simp [handlePowerClick, h1, activatePower, powersCost, powerEffect, spendEnergy,
        addPowersUsed]
    · intro h
      have h1 : canActivatePower t t.currentPlayer Power.doubleTurn = false := by
        cases hc : canActivatePower t t.currentPlayer Power.doubleTurn with
        | false => rfl
        | true => exact absurd (hcan.mp hc) h
      simp [handlePowerClick, h1]
  · intro h0
    have h01 : ({ s1 with selectedSquare := none } : State).doubleMove.movesMade = 0 := by
      show s1.doubleMove.movesMade = 0
      rw [hdm]
      exact h0
    obtain ⟨h1, h2⟩ := (advanceTurn_cases { s1 with selectedSquare := none }).2.1 hact1 h01
    rw [hclick, (checkGameEnd_frame _).2.1, (checkGameEnd_frame _).2.2.1, h1, h2]
    exact ⟨hcp, rfl⟩
  · intro h0
    have h01 : 1 ≤ ({ s1 with selectedSquare := none } : State).doubleMove.movesMade := by
      show 1 ≤ s1.doubleMove.movesMade
      rw [hdm, h0]
    obtain ⟨h1, h2⟩ := (advanceTurn_cases { s1 with selectedSquare := none }).2.2 hact1 h01
    rw [hclick, (checkGameEnd_frame _).2.1, (checkGameEnd_frame _).2.2.1, h1, h2]
    refine ⟨?_, rfl⟩
    show opponentOf s1.currentPlayer = opponentOf s.currentPlayer
    rw [hcp]

/-- An instance of `doubleTurn_two_moves`: white buys the double turn in
`promoGame`; its first move
(3, 7) -> (2, 7) leaves white to move with `doubleMove = {true, 1}`, its
second move (6, 3) -> (5, 3) gives the turn to black with
`doubleMove = {false, 0}`. -/
theorem doubleTurn_two_moves_witness :
    (doubleTurnFirstReady.shieldMode = false ∧
      doubleTurnFirstReady.queenRushActive = false ∧
      doubleTurnFirstReady.teleportActive = false ∧
      doubleTurnFirstReady.selectedSquare = some (3, 7) ∧
      getPieceColor (doubleTurnFirstReady.board 2 7) ≠ some doubleTurnFirstReady.currentPlayer ∧
      isLegalMove doubleTurnFirstReady 3 7 2 7 false = true ∧
      movePiece doubleTurnFirstReady 3 7 2 7 =
        some (MoveResult.success, stateAfterMove doubleTurnFirstReady 3 7 2 7) ∧
      doubleTurnFirstReady.doubleMove.active = true) ∧
    (doubleTurnFirstDone.currentPlayer = Color.white ∧
      doubleTurnFirstDone.doubleMove = { active := true, movesMade := 1 }) ∧
    (doubleTurnSecondDone.currentPlayer = Color.black ∧
      doubleTurnSecondDone.doubleMove = { active := false, movesMade := 0 }) := by
  obtain ⟨_, _, f1, f2, f3, f4, f5, f6, f7, f8, f9, f10,
    g1, g2, g3, g4, g5, g6, g7, g8, g9, g10⟩ := promoState_eval.2
  have hf := movePiece_eq_stateAfterMove doubleTurnFirstReady 3 7 2 7 MoveResult.success f7
  have hg := movePiece_eq_stateAfterMove doubleTurnSecondReady 6 3 5 3 MoveResult.success g7
  have h1 := (doubleTurn_two_moves doubleTurnFirstReady _ 3 7 2 7 f1 f2 f3 f4 f5 f6 hf f8).2.1 f9
  have h2 := (doubleTurn_two_moves doubleTurnSecondReady _ 6 3 5 3 g1 g2 g3 g4 g5 g6 hg g8).2.2 g9
  refine ⟨⟨f1, f2, f3, f4, f5, f6, hf, f8⟩, ⟨h1.1.trans f10, h1.2⟩, ⟨?_, h2.2⟩⟩
  have h3 := h2.1
  rw [g10] at h3
  exact h3

set_option maxRecDepth 100000 in
/-- White's first move after `leftoverRushGame`, evaluated once. -/
theorem leftoverRush_eval :
    leftoverRush.currentPlayer = Color.white ∧
    leftoverRush.queenRushActive = true ∧
    leftoverRush.shieldMode = false ∧
    leftoverRush.teleportActive = false ∧
    leftoverRush.doubleMove = { active := false, movesMade := 0 } ∧
    leftoverRush.energy.get Color.white = 5 ∧
    rushDoubleBought.currentPlayer = Color.white ∧
    rushDoubleBought.energy.get Color.white = 1 ∧
    rushDoubleBought.doubleMove = { active := true, movesMade := 0 } ∧
    rushDoubleReady.selectedSquare = some (6, 0) ∧
    rushDoubleReady.currentPlayer = Color.white ∧
    rushDoubleReady.queenRushActive = true ∧
    rushDoubleReady.doubleMove = { active := true, movesMade := 0 } ∧
    rushDoubleReady.board 6 0 = some ⟨Color.white, Kind.p⟩ ∧
    rushDoubleReady.board 5 0 = none ∧
    isLegalMove rushDoubleReady 6 0 5 0 false = true ∧
    (movePiece rushDoubleReady 6 0 5 0).map Prod.fst = some MoveResult.success ∧
    rushDoubleDone.board 6 0 = none ∧
    rushDoubleDone.board 5 0 = some ⟨Color.white, Kind.p⟩ ∧
    rushDoubleDone.currentPlayer = Color.black ∧
    rushDoubleDone.doubleMove = { active := true, movesMade := 0 } ∧
    rushDoubleDone.queenRushActive = false ∧
    rushDoubleDone.gameState = GamePhase.playing := by
  decide!

/-- C24 (fails in the code): the queen-rush branch of `handleSquareClick`
(lines 693-704) passes the turn without looking at `doubleMove`, and
`queenRushActive` is one flag for both colours that the shield selection does
not clear.  In the reachable state `leftoverRush` black has bought queen-rush
and passed the turn with the shield selection; white, with energy 5, buys the
double turn, which is accepted and sets `doubleMove = {true, 0}`.  White's
first accepted move, the pawn step (6, 0) -> (5, 0), is made in the queen-rush
branch: afterwards black is to move and `doubleMove` is still `{true, 0}`,
not `{true, 1}` with white to move.  The move branch (lines 792-799) does
count the move, as `doubleTurn_two_moves` shows. -/
theorem doubleTurn_lost_under_queenRush :
    Reachable leftoverRush ∧ Reachable rushDoubleReady ∧ Reachable rushDoubleDone ∧
    leftoverRush.currentPlayer = Color.white ∧
    leftoverRush.queenRushActive = true ∧
    leftoverRush.shieldMode = false ∧
    leftoverRush.teleportActive = false ∧
    leftoverRush.doubleMove = { active := false, movesMade := 0 } ∧
    leftoverRush.energy.get Color.white = 5 ∧
    rushDoubleBought.currentPlayer = Color.white ∧
    rushDoubleBought.energy.get Color.white = 1 ∧
    rushDoubleBought.doubleMove = { active := true, movesMade := 0 } ∧
    rushDoubleReady.selectedSquare = some (6, 0) ∧
    rushDoubleReady.currentPlayer = Color.white ∧
    rushDoubleReady.queenRushActive = true ∧
    rushDoubleReady.doubleMove = { active := true, movesMade := 0 } ∧
    rushDoubleReady.board 6 0 = some ⟨Color.white, Kind.p⟩ ∧
    rushDoubleReady.board 5 0 = none ∧
    isLegalMove rushDoubleReady 6 0 5 0 false = true ∧
    (movePiece rushDoubleReady 6 0 5 0).map Prod.fst = some MoveResult.success ∧
    rushDoubleDone.board 6 0 = none ∧
    rushDoubleDone.board 5 0 = some ⟨Color.white, Kind.p⟩ ∧
    rushDoubleDone.currentPlayer = Color.black ∧
    rushDoubleDone.doubleMove = { active := true, movesMade := 0 } ∧
    rushDoubleDone.queenRushActive = false ∧
    rushDoubleDone.gameState = GamePhase.playing :=
  have h0 : Reachable leftoverRush :=
    reachable_run leftoverRushGame initialState Reachable.init (by decide)
  have h1 : Reachable rushDoubleBought :=
    Reachable.step leftoverRush (Cmd.power Power.doubleTurn) h0 rfl
  have h2 : Reachable rushDoubleReady :=
    Reachable.step rushDoubleBought (Cmd.click 6 0) h1 (by decide)
  ⟨h0, h2, Reachable.step rushDoubleReady (Cmd.click 5 0) h2 (by decide), leftoverRush_eval⟩

/-! ## C25: `rematch` and `returnToSetup` -/

/-- C25 (fails in the code): `rematch` renews the board, the energies, the
history, the captured lists and the statistics, but from every state it keeps
`lastMove`, the shielded sets, `doubleMove`, `queenRushActive`,
`teleportActive`, `shieldMode` and the promotion marker; `returnToSetup` only
sets the phase to `"setup"` and keeps everything else.  In the reachable state
`teleportReady` (teleport bought by white, black queen shielded, thirteen moves
played) `rematch` leaves `lastMove = [[0, 6], [1, 6]]` over an empty history,
`teleportActive = true` and (0, 3) in black's shielded set, and
`returnToSetup` leaves the white queen on (1, 6), the history of thirteen moves
and the teleport flag; after `promoGame` (double turn bought) `rematch` leaves
`doubleMove.active = true`. -/
theorem reset_keeps_power_state :
    (∀ s : State,
      (rematch s).board = initBoard ∧ (rematch s).moveHistory = [] ∧
      (rematch s).energy = { white := 0, black := 0 } ∧
      (rematch s).lastMove = s.lastMove ∧ (rematch s).shieldedPieces = s.shieldedPieces ∧
      (rematch s).doubleMove = s.doubleMove ∧
      (rematch s).queenRushActive = s.queenRushActive ∧
      (rematch s).teleportActive = s.teleportActive ∧
      (rematch s).shieldMode = s.shieldMode ∧
      returnToSetup s = { s with gameState := GamePhase.setup }) ∧
    (Reachable (rematch teleportReady) ∧
      (rematch teleportReady).moveHistory = [] ∧
      (rematch teleportReady).lastMove = some ((0, 6), (1, 6)) ∧
      (rematch teleportReady).teleportActive = true ∧
      (0, 3) ∈ (rematch teleportReady).shieldedPieces.get Color.black) ∧
    (Reachable (returnToSetup teleportReady) ∧
      (returnToSetup teleportReady).board 1 6 = some ⟨Color.white, Kind.q⟩ ∧
      initBoard 1 6 = some ⟨Color.black, Kind.p⟩ ∧
      (returnToSetup teleportReady).moveHistory.length = 13 ∧
      (returnToSetup teleportReady).lastMove = some ((0, 6), (1, 6)) ∧
      (returnToSetup teleportReady).teleportActive = true ∧
      (0, 3) ∈ (returnToSetup teleportReady).shieldedPieces.get Color.black) ∧
    (Reachable (rematch promoBefore) ∧
      (rematch promoBefore).doubleMove = { active := true, movesMade := 0 }) := by
  have hr : ∀ s : State,
      (rematch s).board = initBoard ∧ (rematch s).moveHistory = [] ∧
      (rematch s).energy = { white := 0, black := 0 } ∧
      (rematch s).lastMove = s.lastMove ∧ (rematch s).shieldedPieces = s.shieldedPieces ∧
      (rematch s).doubleMove = s.doubleMove ∧
      (rematch s).queenRushActive = s.queenRushActive ∧
      (rematch s).teleportActive = s.teleportActive ∧
      (rematch s).shieldMode = s.shieldMode ∧
      returnToSetup s = { s with gameState := GamePhase.setup } :=
    fun _ => ⟨rfl, rfl, rfl, rfl, rfl, rfl, rfl, rfl, rfl, rfl⟩
  have hs : ∀ s : State,
      (returnToSetup s).board = s.board ∧ (returnToSetup s).moveHistory = s.moveHistory ∧
      (returnToSetup s).lastMove = s.lastMove ∧
      (returnToSetup s).teleportActive = s.teleportActive ∧
      (returnToSetup s).shieldedPieces = s.shieldedPieces :=
    fun _ => ⟨rfl, rfl, rfl, rfl, rfl⟩
  obtain ⟨_, r2, _, r4, r5, _, _, r8, _, _⟩ := hr teleportReady
  obtain ⟨s1, s2, s3, s4, s5⟩ := hs teleportReady
  have hd := (hr promoBefore).2.2.2.2.2.1
  refine ⟨hr, ⟨Reachable.step teleportReady Cmd.rematch teleportReady_reachable rfl, r2,
      ?_, ?_, ?_⟩,
    ⟨Reachable.step teleportReady Cmd.toSetup teleportReady_reachable rfl, ?_, by decide,
      ?_, ?_, ?_, ?_⟩,
    ⟨Reachable.step promoBefore Cmd.rematch
      (reachable_run promoGame initialState Reachable.init (by decide)) rfl, ?_⟩⟩
  · rw [r4]; exact teleportReady_eval.2.2.2.1
  · rw [r8]; exact teleportReady_eval.2.2.1.1
  · rw [r5]; exact teleportReady_eval.1.2.2.1
  · rw [s1]; exact teleportReady_eval.2.2.1.2.2.2.2.2.1
  · rw [s2]; exact teleportReady_eval.2.2.2.2.1
  · rw [s3]; exact teleportReady_eval.2.2.2.1
  · rw [s4]; exact teleportReady_eval.2.2.1.1
  · rw [s5]; exact teleportReady_eval.1.2.2.1
  · rw [hd]; exact promoState_eval.2.2.1

/-! ## C27: kings side by side -/

/-- C27, evaluated at a position with the two kings only.  The white king's
step (4, 4) -> (3, 4) ends next to the black king on (2, 4), and `isLegalMove`
accepts it with check-safety on: in the simulated position `isInCheck(white)`
is false, because the black king's `isKingMove` onto the white king's square
is refused for holding a king.  The click makes the move, and the kings stand
on adjacent squares. -/
theorem king_steps_next_to_king :
    kingsApartState.board 4 4 = some ⟨Color.white, Kind.k⟩ ∧
    kingsApartState.board 2 4 = some ⟨Color.black, Kind.k⟩ ∧
    kingsApartState.currentPlayer = Color.white ∧
    ((3 : Int) - 2).natAbs ≤ 1 ∧ ((4 : Int) - 4).natAbs ≤ 1 ∧
    isLegalMove kingsApartState 4 4 3 4 false = true ∧
    isKingMove (run kingsApartState (moveClicks 4 4 3 4)) 2 4 3 4 = false ∧
    isInCheck (run kingsApartState (moveClicks 4 4 3 4)) Color.white = false ∧
    (run kingsApartState (moveClicks 4 4 3 4)).board 3 4 = some ⟨Color.white, Kind.k⟩ ∧
    (run kingsApartState (moveClicks 4 4 3 4)).board 2 4 = some ⟨Color.black, Kind.k⟩ := by
  decide!

/-! ## C28: what `isLegalMove` rejects at once -/

theorem isPathClear_same_square (s : State) (row col : Int) :
    isPathClear s row col row col = true := by
  simp [isPathClear, pathFuel, isPathClearLoop]

/-- C28 as stated fails: `isKingMove` is false for `from = to` when the square
holds a king, as (7, 4) does in the initial position. -/
theorem isKingMove_same_square_false :
    initialState.board 7 4 = some ⟨Color.white, Kind.k⟩ ∧
    ¬ (isKingMove initialState 7 4 7 4 = true) := by
  decide

/-- C28, amended.  `isLegalMove` returns false whenever the source square is
empty or the destination holds a piece of the same colour as the source piece,
whatever the power flags and with check-safety on or off; in particular it
returns false for every `from = to`.  Of the geometric helpers, `isRookMove`,
`isBishopMove` and `isQueenMove` return true for every `from = to`, and
`isKingMove` returns true for `from = to` exactly when the square does not
hold a king. -/
theorem isLegalMove_basic_rejections (s : State) (fromRow fromCol toRow toCol : Int)
    (testMode : Bool) :
    (s.board fromRow fromCol = none →
      isLegalMove s fromRow fromCol toRow toCol testMode = false) ∧
    (∀ piece, s.board fromRow fromCol = some piece →
      getPieceColor (s.board toRow toCol) = some piece.color →
      isLegalMove s fromRow fromCol toRow toCol testMode = false) ∧
    isLegalMove s fromRow fromCol fromRow fromCol testMode = false ∧
    isRookMove s fromRow fromCol fromRow fromCol = true ∧
    isBishopMove s fromRow fromCol fromRow fromCol = true ∧
    isQueenMove s fromRow fromCol fromRow fromCol = true ∧
    (isKingMove s fromRow fromCol fromRow fromCol = true ↔
      getPieceType (s.board fromRow fromCol) ≠ some Kind.k) := by
  have hsame : ∀ (tr tc : Int) (piece : Piece), s.board fromRow fromCol = some piece →
      getPieceColor (s.board tr tc) = some piece.color →
      isLegalMove s fromRow fromCol tr tc testMode = false := by
    intro tr tc piece hp hc
    cases h : isLegalMove s fromRow fromCol tr tc testMode with
    | false => rfl
    | true =>
      have hr := isLegalMove_le_rule s fromRow fromCol tr tc testMode h
      simp [isLegalMoveRule, hp, hc] at hr
  have hempty : ∀ (tr tc : Int), s.board fromRow fromCol = none →
      isLegalMove s fromRow fromCol tr tc testMode = false := by
    intro tr tc hp
    simp [isLegalMove, isLegalMoveSt, hp]
  refine ⟨hempty toRow toCol, hsame toRow toCol, ?_, ?_, ?_, ?_, ?_⟩
  · cases hp : s.board fromRow fromCol with
    | none => exact hempty fromRow fromCol hp
    | some piece =>
      apply hsame fromRow fromCol piece hp
      simp [hp, getPieceColor]
  · simp [isRookMove, isPathClear_same_square]
  · simp [isBishopMove, isPathClear_same_square]
  · simp [isQueenMove, isRookMove, isPathClear_same_square]
  · simp [isKingMove]

/-! ## C26, C29: moves made under queen-rush -/

set_option maxRecDepth 100000 in
/-- The two continuations of `rushGame`, evaluated once. -/
theorem rushGame_eval :
    (rushQueenReady.queenRushActive = true ∧
      rushQueenReady.shieldMode = false ∧
      rushQueenReady.currentPlayer = Color.black ∧
      rushQueenReady.selectedSquare = some (0, 3) ∧
      rushQueenReady.gameState = GamePhase.playing ∧
      isLegalMove rushQueenReady 0 3 4 7 false = true ∧
      rushMated.board 4 7 = some ⟨Color.black, Kind.q⟩ ∧
      rushMated.currentPlayer = Color.white ∧
      isInCheck rushMated Color.white = true ∧
      isCheckmate rushMated Color.white = true ∧
      rushMated.gameState = GamePhase.playing ∧
      rushMated.winner = none) ∧
    (rushPawnReady.queenRushActive = true ∧
      rushPawnReady.currentPlayer = Color.black ∧
      rushPawnReady.selectedSquare = some (1, 3) ∧
      rushPawnReady.board 1 3 = some ⟨Color.black, Kind.p⟩ ∧
      rushPawnReady.board 1 2 = some ⟨Color.black, Kind.p⟩ ∧
      rushPawnReady.board 2 2 = none ∧
      countPieces rushPawnReady.board ⟨Color.black, Kind.p⟩ = 8 ∧
      rushPawnReady.energy.get Color.black = 0 ∧
      isLegalMove rushPawnReady 1 3 2 2 false = true ∧
      (movePiece rushPawnReady 1 3 2 2).map Prod.fst = some MoveResult.success ∧
      rushPawnMoved.board 2 2 = some ⟨Color.black, Kind.p⟩ ∧
      rushPawnMoved.board 1 3 = none ∧
      rushPawnMoved.board 1 2 = none ∧
      countPieces rushPawnMoved.board ⟨Color.black, Kind.p⟩ = 7 ∧
      (rushPawnMoved.capturedPieces.get Color.black).getLast? = some ⟨Color.black, Kind.p⟩ ∧
      rushPawnMoved.energy.get Color.black = 1) := by
  decide!

/-- C26 (fails in the code): the queen-rush branch of `handleSquareClick` moves
the piece and passes the turn without any checkmate or stalemate test.  In the
reachable state `rushQueenReady` black has bought queen-rush and selected its
queen on (0, 3); the click on (4, 7) is a legal move, it is made, white is to
move, in check and checkmated, and yet the phase is still `"playing"` and no
winner is recorded. -/
theorem queenRush_mate_not_detected :
    Reachable rushQueenReady ∧ Reachable rushMated ∧
    rushQueenReady.queenRushActive = true ∧
    rushQueenReady.shieldMode = false ∧
    rushQueenReady.currentPlayer = Color.black ∧
    rushQueenReady.selectedSquare = some (0, 3) ∧
    rushQueenReady.gameState = GamePhase.playing ∧
    isLegalMove rushQueenReady 0 3 4 7 false = true ∧
    rushMated.board 4 7 = some ⟨Color.black, Kind.q⟩ ∧
    rushMated.currentPlayer = Color.white ∧
    isInCheck rushMated Color.white = true ∧
    isCheckmate rushMated Color.white = true ∧
    rushMated.gameState = GamePhase.playing ∧
    rushMated.winner = none :=
  have hr : Reachable rushQueenReady :=
    reachable_run (rushGame ++ [Cmd.click 0 3]) initialState Reachable.init (by decide)
  ⟨hr, Reachable.step rushQueenReady (Cmd.click 4 7) hr (by decide), rushGame_eval.1⟩

/-- C29 (fails in the code): under queen-rush a pawn may move as a queen, and
the en-passant block of `movePiece` (lines 342-352) then fires on any diagonal
pawn move onto an empty square, removing whatever stands on (source row,
destination column).  In the reachable state `rushPawnReady` black has bought
queen-rush and selected its pawn on (1, 3); the move to the empty square (2, 2)
is accepted by `isLegalMove` and applied by `movePiece`, which removes black's
own pawn from (1, 2): black has seven pawns left, the pawn is booked in
black's captured list and black gains one energy. -/
theorem queenRush_pawn_removes_own_pawn :
    Reachable rushPawnReady ∧ Reachable rushPawnMoved ∧
    rushPawnReady.queenRushActive = true ∧
    rushPawnReady.currentPlayer = Color.black ∧
    rushPawnReady.selectedSquare = some (1, 3) ∧
    rushPawnReady.board 1 3 = some ⟨Color.black, Kind.p⟩ ∧
    rushPawnReady.board 1 2 = some ⟨Color.black, Kind.p⟩ ∧
    rushPawnReady.board 2 2 = none ∧
    countPieces rushPawnReady.board ⟨Color.black, Kind.p⟩ = 8 ∧
    rushPawnReady.energy.get Color.black = 0 ∧
    isLegalMove rushPawnReady 1 3 2 2 false = true ∧
    (movePiece rushPawnReady 1 3 2 2).map Prod.fst = some MoveResult.success ∧
    rushPawnMoved.board 2 2 = some ⟨Color.black, Kind.p⟩ ∧
    rushPawnMoved.board 1 3 = none ∧
    rushPawnMoved.board 1 2 = none ∧
    countPieces rushPawnMoved.board ⟨Color.black, Kind.p⟩ = 7 ∧
    (rushPawnMoved.capturedPieces.get Color.black).getLast? = some ⟨Color.black, Kind.p⟩ ∧
    rushPawnMoved.energy.get Color.black = 1 :=
  have hr : Reachable rushPawnReady :=
    reachable_run (rushGame ++ [Cmd.click 1 3]) initialState Reachable.init (by decide)
  ⟨hr, Reachable.step rushPawnReady (Cmd.click 2 2) hr (by decide), rushGame_eval.2⟩

/-! ## C30: the combo power -/

/-- C30.  In every state reachable from the constructor's state the energy of
the colour to move is at most 5, below the combo cost 6, so `activateCombo`
takes its insufficient-energy branch and returns the state unchanged: energy,
`powersUsed`, `doubleMove` and `queenRushActive` are as before. -/
theorem activateCombo_never_activates (s : State) (h : Reachable s) :
    s.energy.get s.currentPlayer < comboEnergyCost ∧
    activateCombo s = s ∧
    (activateCombo s).energy = s.energy ∧
    (activateCombo s).stats = s.stats ∧
    (activateCombo s).doubleMove = s.doubleMove ∧
    (activateCombo s).queenRushActive = s.queenRushActive := by
  have hok : EnergyOk s := by
    induction h with
    | init => exact initialState_energyOk
    | step s c _ _ ih => exact step_energyOk s c ih
  have hlt : s.energy.get s.currentPlayer < comboEnergyCost := by
    have := (hok s.currentPlayer).2
    unfold maxEnergy at this
    unfold comboEnergyCost
    omega
  have heq : activateCombo s = s := by
    unfold activateCombo
    rw [if_neg (by omega)]
  refine ⟨hlt, heq, ?_, ?_, ?_, ?_⟩ <;> rw [heq]

/-- Witness for C30: after `teleportGame` the combo button changes nothing. -/
theorem activateCombo_never_activates_witness :
    Reachable teleportReady ∧ activateCombo teleportReady = teleportReady :=
  ⟨teleportReady_reachable, (activateCombo_never_activates teleportReady
    teleportReady_reachable).2.1⟩

/-! ## C31: totality of `isLegalMove` and its board reads -/

theorem returns_retE {α : Type} (a : α) (P : Square → Prop) : Returns (retE a) a P :=
  ⟨[], rfl, fun _ h => absurd h (List.not_mem_nil _)⟩

theorem returns_bindE {α β : Type} {x : Traced α} {f : α → Traced β} {a : α} {b : β}
    {P : Square → Prop} (hx : Returns x a P) (hf : Returns (f a) b P) :
    Returns (bindE x f) b P := by
  obtain ⟨l1, h1, hp1⟩ := hx
  obtain ⟨l2, h2, hp2⟩ := hf
  refine ⟨l1 ++ l2, ?_, ?_⟩
  · simp [bindE, h1, h2]
  · intro sq hsq
    rcases List.mem_append.mp hsq with h | h
    · exact hp1 sq h
    · exact hp2 sq h

theorem returns_mono {α : Type} {x : Traced α} {a : α} {P Q : Square → Prop}
    (hx : Returns x a P) (h : ∀ sq, P sq → Q sq) : Returns x a Q := by
  obtain ⟨l, h1, hp⟩ := hx
  exact ⟨l, h1, fun sq hsq => h sq (hp sq hsq)⟩

theorem returns_of_eq {α : Type} {x : Traced α} {a b : α} {P : Square → Prop}
    (hx : Returns x a P) (h : a = b) : Returns x b P := by
  rw [← h]
  exact hx

theorem returns_orElseE {x y : Traced Bool} {a b : Bool} {P : Square → Prop}
    (hx : Returns x a P) (hy : a = false → Returns y b P) :
    Returns (orElseE x y) (a || b) P := by
  unfold orElseE
  cases a with
  | true =>
    refine returns_bindE hx ?_
    simpa using returns_retE true P
  | false =>
    refine returns_bindE hx ?_
    simpa using hy rfl

theorem returns_andThenE {x y : Traced Bool} {a b : Bool} {P : Square → Prop}
    (hx : Returns x a P) (hy : a = true → Returns y b P) :
    Returns (andThenE x y) (a && b) P := by
  unfold andThenE
  cases a with
  | true =>
    refine returns_bindE hx ?_
    simpa using hy rfl
  | false =>
    refine returns_bindE hx ?_
    simpa using returns_retE false P

theorem returns_readBoard (b : Board) (row col : Int) (P : Square → Prop)
    (hr : InRange row) (hc : InRange col) (hp : P (row, col)) :
    Returns (readBoard b row col) (b row col) P := by
  refine ⟨[(row, col)], ?_, ?_⟩
  · simp [readBoard, hr.1, hr.2, hc.1, hc.2]
  · intro sq hsq
    rw [List.mem_singleton.mp hsq]
    exact hp

theorem returns_anyE {α : Type} (f : α → Traced Bool) (g : α → Bool) (P : Square → Prop)
    (l : List α) (h : ∀ a ∈ l, Returns (f a) (g a) P) :
    Returns (anyE f l) (l.any g) P := by
  induction l with
  | nil => exact returns_retE false P
  | cons a l ih =>
    rw [List.any_cons]
    unfold anyE
    exact returns_orElseE (h a (List.mem_cons_self a l))
      (fun _ => ih (fun x hx => h x (List.mem_cons_of_mem a hx)))

theorem returns_findKingT (s : State) (color : Color) (P : Square → Prop) (l : List Square)
    (h : ∀ sq ∈ l, OnBoard sq ∧ P sq) :
    Returns (findKingT s color l)
      (l.find? fun sq => decide (s.board sq.1 sq.2 = some ⟨color, Kind.k⟩)) P := by
  induction l with
  | nil => exact returns_retE none P
  | cons sq l ih =>
    unfold findKingT
    have hsq := h sq (List.mem_cons_self sq l)
    refine returns_bindE (returns_readBoard s.board sq.1 sq.2 P hsq.1.1 hsq.1.2 hsq.2) ?_
    by_cases hk : s.board sq.1 sq.2 = some ⟨color, Kind.k⟩
    · simp only [hk, if_true, List.find?_cons, decide_True]
      exact returns_retE (some sq) P
    · simp only [hk, if_false, List.find?_cons, decide_False]
      exact ih (fun x hx => h x (List.mem_cons_of_mem sq hx))

theorem isPathClearLoopT_spec (b : Board) (rowStep colStep toRow toCol : Int)
    (hstep : rowStep ≠ 0 ∨ colStep ≠ 0) (n : Nat) :
    ∀ (fuel : Nat) (row col : Int), n < fuel →
      toRow = row + n * rowStep → toCol = col + n * colStep →
      (∀ k : Nat, k < n → InRange (row + k * rowStep) ∧ InRange (col + k * colStep)) →
      ∃ v reads, isPathClearLoopT b rowStep colStep toRow toCol fuel row col = some (v, reads) ∧
        (v = true ↔ ∀ k : Nat, k < n → b (row + k * rowStep) (col + k * colStep) = none) ∧
        reads.length ≤ n ∧
        ∀ sq ∈ reads, ∃ k : Nat, k < n ∧ sq = (row + k * rowStep, col + k * colStep) := by
  induction n with
  | zero =>
    intro fuel row col hf hr hc _
    cases fuel with
    | zero => omega
    | succ f =>
      refine ⟨true, [], ?_, by simp, by simp, by simp⟩
      have h1 : row = toRow := by simp [hr]
      have h2 : col = toCol := by simp [hc]
      simp [isPathClearLoopT, h1, h2, retE]
  | succ n ih =>
    intro fuel row col hf hr hc hin
    cases fuel with
    | zero => omega
    | succ f =>
      have hne : row ≠ toRow ∨ col ≠ toCol := by
        rcases hstep with h | h
        · left
          intro he
          rw [hr] at he
          have : ((n + 1 : Nat) : Int) * rowStep = 0 := by omega
          rcases Int.mul_eq_zero.mp this with h0 | h0
          · omega
          · exact h h0
        · right
          intro he
          rw [hc] at he
          have : ((n + 1 : Nat) : Int) * colStep = 0 := by omega
          rcases Int.mul_eq_zero.mp this with h0 | h0
          · omega
          · exact h h0
      have h0 := hin 0 (Nat.succ_pos n)
      simp only [Nat.cast_zero, zero_mul, add_zero] at h0
      have hread : readBoard b row col = some (b row col, [(row, col)]) := by
        simp [readBoard, h0.1.1, h0.1.2, h0.2.1, h0.2.2]
      cases hcell : b row col with
      | some x =>
        refine ⟨false, [(row, col)], ?_, ?_, by simp, ?_⟩
        · simp [isPathClearLoopT, hne, hread, hcell, bindE, retE]
        · constructor
          · intro h
            exact Bool.noConfusion h
          · intro h
            have h1 := h 0 (Nat.succ_pos n)
            simp [hcell] at h1
        · intro sq hsq
          refine ⟨0, Nat.succ_pos n, ?_⟩
          simpa using hsq
      | none =>
        have hr2 : toRow = (row + rowStep) + n * rowStep := by
          rw [hr]; push_cast; ring
        have hc2 : toCol = (col + colStep) + n * colStep := by
          rw [hc]; push_cast; ring
        have e1 : ∀ j : Nat, row + ((j + 1 : Nat) : Int) * rowStep = row + rowStep + j * rowStep := by
          intro j; push_cast; ring
        have e2 : ∀ j : Nat, col + ((j + 1 : Nat) : Int) * colStep = col + colStep + j * colStep := by
          intro j; push_cast; ring
        have hin2 : ∀ k : Nat, k < n →
            InRange (row + rowStep + k * rowStep) ∧ InRange (col + colStep + k * colStep) := by
          intro k hk
          have := hin (k + 1) (by omega)
          rw [e1, e2] at this
          exact this
        obtain ⟨v, reads, hv, hiff, hlen, hmem⟩ :=
          ih f (row + rowStep) (col + colStep) (by omega) hr2 hc2 hin2
        refine ⟨v, (row, col) :: reads, ?_, ?_, ?_, ?_⟩
        · simp only [isPathClearLoopT]
          simp [hne, hread, hcell, hv, bindE]
        · rw [hiff]
          constructor
          · intro h k hk
            cases k with
            | zero => simpa using hcell
            | succ j =>
              have := h j (by omega)
              rw [e1, e2]
              exact this
          · intro h j hj
            have := h (j + 1) (by omega)
            rw [e1, e2] at this
            exact this
        · simp only [List.length_cons]
          omega
        · intro sq hsq
          rcases List.mem_cons.mp hsq with h | h
          · exact ⟨0, Nat.succ_pos n, by simpa using h⟩
          · obtain ⟨k, hk, hsqk⟩ := hmem sq h
            refine ⟨k + 1, by omega, ?_⟩
            rw [e1, e2]
            exact hsqk

theorem step_inRange (x y step : Int) (d k : Nat) (hx : InRange x) (hy : InRange y)
    (hs : step = -1 ∨ step = 0 ∨ step = 1) (hxy : y = x + step + ((d - 1 : Nat) : Int) * step)
    (hk : k < d - 1) : InRange (x + step + k * step) := by
  unfold InRange at *
  rcases hs with rfl | rfl | rfl <;> omega

theorem isPathClearT_aligned (s : State) (fromRow fromCol toRow toCol : Int) (fuel : Nat)
    (hfuel : 7 ≤ fuel) (hfr : InRange fromRow) (hfc : InRange fromCol)
    (htr : InRange toRow) (htc : InRange toCol)
    (hal : fromRow = toRow ∨ fromCol = toCol ∨
      (fromRow - toRow).natAbs = (fromCol - toCol).natAbs) :
    ∃ reads, isPathClearT fuel s fromRow fromCol toRow toCol =
        some (isPathClear s fromRow fromCol toRow toCol, reads) ∧
      reads.length < 7 ∧
      ∀ sq ∈ reads, StrictlyBetween fromRow fromCol toRow toCol sq ∧ OnBoard sq := by
  by_cases hsame : fromRow = toRow ∧ fromCol = toCol
  · obtain ⟨h1, h2⟩ := hsame
    subst h1
    subst h2
    refine ⟨[], ?_, by simp, by simp⟩
    rw [isPathClear_same_square]
    obtain ⟨f, rfl⟩ : ∃ f, fuel = f + 1 := ⟨fuel - 1, by omega⟩
    simp [isPathClearT, isPathClearLoopT, retE]
  · have hne : fromRow ≠ toRow ∨ fromCol ≠ toCol := by
      by_cases h : fromRow = toRow
      · exact Or.inr (fun h2 => hsame ⟨h, h2⟩)
      · exact Or.inl h
    unfold isPathClearT isPathClear StrictlyBetween OnBoard
    simp only
    generalize hsr : Int.sign (toRow - fromRow) = sr
    generalize hsc : Int.sign (toCol - fromCol) = sc
    generalize hdd : max (toRow - fromRow).natAbs (toCol - fromCol).natAbs = d
    have hsr3 := sign_cases (toRow - fromRow)
    have hsc3 := sign_cases (toCol - fromCol)
    rw [hsr] at hsr3
    rw [hsc] at hsc3
    obtain ⟨hfr0, hfr8⟩ := hfr
    obtain ⟨hfc0, hfc8⟩ := hfc
    obtain ⟨htr0, htr8⟩ := htr
    obtain ⟨htc0, htc8⟩ := htc
    have hdpos : 1 ≤ d := by omega
    have hd7 : d ≤ 7 := by omega
    have hstep : sr ≠ 0 ∨ sc ≠ 0 := by omega
    have hr : toRow = (fromRow + sr) + ((d - 1 : Nat) : Int) * sr := by
      rcases hsr3 with ⟨h1, h2⟩ | ⟨h1, h2⟩ | ⟨h1, h2⟩ <;> subst h2 <;> omega
    have hc : toCol = (fromCol + sc) + ((d - 1 : Nat) : Int) * sc := by
      rcases hsc3 with ⟨h1, h2⟩ | ⟨h1, h2⟩ | ⟨h1, h2⟩ <;> subst h2 <;> omega
    have hs1 : sr = -1 ∨ sr = 0 ∨ sr = 1 := by
      rcases hsr3 with ⟨-, h⟩ | ⟨-, h⟩ | ⟨-, h⟩
      · exact Or.inl h
      · exact Or.inr (Or.inl h)
      · exact Or.inr (Or.inr h)
    have hs2 : sc = -1 ∨ sc = 0 ∨ sc = 1 := by
      rcases hsc3 with ⟨-, h⟩ | ⟨-, h⟩ | ⟨-, h⟩
      · exact Or.inl h
      · exact Or.inr (Or.inl h)
      · exact Or.inr (Or.inr h)
    have hin : ∀ k : Nat, k < d - 1 →
        InRange (fromRow + sr + k * sr) ∧ InRange (fromCol + sc + k * sc) := fun k hk =>
      ⟨step_inRange fromRow toRow sr d k ⟨hfr0, hfr8⟩ ⟨htr0, htr8⟩ hs1 hr hk,
        step_inRange fromCol toCol sc d k ⟨hfc0, hfc8⟩ ⟨htc0, htc8⟩ hs2 hc hk⟩
    obtain ⟨v, hv, hiff⟩ := isPathClearLoop_spec s.board sr sc toRow toCol hstep (d - 1)
      pathFuel (fromRow + sr) (fromCol + sc) (by unfold pathFuel; omega) hr hc
    obtain ⟨w, reads, hw, hwiff, hlen, hmem⟩ := isPathClearLoopT_spec s.board sr sc toRow toCol
      hstep (d - 1) fuel (fromRow + sr) (fromCol + sc) (by omega) hr hc hin
    have hvw : w = v := by
      have hb : w = true ↔ v = true := hwiff.trans hiff.symm
      cases v <;> cases w <;> simp at hb ⊢
    refine ⟨reads, ?_, by omega, ?_⟩
    · rw [hw, hv, hvw]
      rfl
    · intro sq hsq
      obtain ⟨k, hk, hsqk⟩ := hmem sq hsq
      have e1 : fromRow + sr + (k : Int) * sr = fromRow + ((k : Int) + 1) * sr := by ring
      have e2 : fromCol + sc + (k : Int) * sc = fromCol + ((k : Int) + 1) * sc := by ring
      refine ⟨⟨(k : Int) + 1, by omega, by omega, ?_⟩, ?_⟩
      · rw [hsqk, e1, e2]
      · rw [hsqk]
        exact hin k hk

/-- Off the lines of the board the loop of `isPathClear` does not end by
itself: from (7, 0) towards (6, 2), over empty squares, it walks the diagonal
up to (0, 7) and then reads row `-1`, which throws. -/
theorem isPathClearT_unaligned_throws :
    isPathClearT 64 kingsApartState 7 0 6 2 = none := by
  decide

/-- Seven tests of the loop condition are needed between opposite corners. -/
theorem isPathClearT_six_steps_short :
    isPathClearT 6 kingsApartState 7 0 0 7 = none ∧
    isPathClearT 7 kingsApartState 7 0 0 7 =
      some (true, [(6, 1), (5, 2), (4, 3), (3, 4), (2, 5), (1, 6)]) := by
  decide

theorem returns_isPathClearT (s : State) (fromRow fromCol toRow toCol : Int) (fuel : Nat)
    (hfuel : 7 ≤ fuel) (hfr : InRange fromRow) (hfc : InRange fromCol)
    (htr : InRange toRow) (htc : InRange toCol)
    (hal : fromRow = toRow ∨ fromCol = toCol ∨
      (fromRow - toRow).natAbs = (fromCol - toCol).natAbs) :
    Returns (isPathClearT fuel s fromRow fromCol toRow toCol)
      (isPathClear s fromRow fromCol toRow toCol) OnBoard := by
  obtain ⟨reads, h, -, hmem⟩ :=
    isPathClearT_aligned s fromRow fromCol toRow toCol fuel hfuel hfr hfc htr htc hal
  exact ⟨reads, h, fun sq hsq => (hmem sq hsq).2⟩

theorem returns_isRookMoveT (s : State) (fromRow fromCol toRow toCol : Int) (fuel : Nat)
    (hfuel : 7 ≤ fuel) (hfr : InRange fromRow) (hfc : InRange fromCol)
    (htr : InRange toRow) (htc : InRange toCol) :
    Returns (isRookMoveT fuel s fromRow fromCol toRow toCol)
      (isRookMove s fromRow fromCol toRow toCol) OnBoard := by
  unfold isRookMoveT isRookMove
  by_cases h : fromRow ≠ toRow ∧ fromCol ≠ toCol
  · rw [if_pos h, if_pos h]
    exact returns_retE false OnBoard
  · rw [if_neg h, if_neg h]
    refine returns_isPathClearT s fromRow fromCol toRow toCol fuel hfuel hfr hfc htr htc ?_
    by_cases h1 : fromRow = toRow
    · exact Or.inl h1
    · by_cases h2 : fromCol = toCol
      · exact Or.inr (Or.inl h2)
      · exact absurd ⟨h1, h2⟩ h

theorem returns_isBishopMoveT (s : State) (fromRow fromCol toRow toCol : Int) (fuel : Nat)
    (hfuel : 7 ≤ fuel) (hfr : InRange fromRow) (hfc : InRange fromCol)
    (htr : InRange toRow) (htc : InRange toCol) :
    Returns (isBishopMoveT fuel s fromRow fromCol toRow toCol)
      (isBishopMove s fromRow fromCol toRow toCol) OnBoard := by
  unfold isBishopMoveT isBishopMove
  by_cases h : (fromRow - toRow).natAbs ≠ (fromCol - toCol).natAbs
  · rw [if_pos h, if_pos h]
    exact returns_retE false OnBoard
  · rw [if_neg h, if_neg h]
    exact returns_isPathClearT s fromRow fromCol toRow toCol fuel hfuel hfr hfc htr htc
      (Or.inr (Or.inr (not_not.mp h)))

theorem returns_isQueenMoveT (s : State) (fromRow fromCol toRow toCol : Int) (fuel : Nat)
    (hfuel : 7 ≤ fuel) (hfr : InRange fromRow) (hfc : InRange fromCol)
    (htr : InRange toRow) (htc : InRange toCol) :
    Returns (isQueenMoveT fuel s fromRow fromCol toRow toCol)
      (isQueenMove s fromRow fromCol toRow toCol) OnBoard := by
  unfold isQueenMoveT isQueenMove
  exact returns_orElseE
    (returns_isRookMoveT s fromRow fromCol toRow toCol fuel hfuel hfr hfc htr htc)
    (fun _ => returns_isBishopMoveT s fromRow fromCol toRow toCol fuel hfuel hfr hfc htr htc)

theorem returns_isKingMoveT (s : State) (fromRow fromCol toRow toCol : Int)
    (htr : InRange toRow) (htc : InRange toCol) :
    Returns (isKingMoveT s fromRow fromCol toRow toCol)
      (isKingMove s fromRow fromCol toRow toCol) OnBoard := by
  unfold isKingMoveT isKingMove
  refine returns_bindE (returns_readBoard s.board toRow toCol OnBoard htr htc ⟨htr, htc⟩) ?_
  by_cases h : getPieceType (s.board toRow toCol) = some Kind.k
  · rw [if_pos h, if_pos h]
    exact returns_retE false OnBoard
  · rw [if_neg h, if_neg h]
    exact returns_retE _ OnBoard

theorem returns_isPawnMoveT (s : State) (fromRow fromCol toRow toCol : Int) (color : Color)
    (hfr : InRange fromRow) (hfc : InRange fromCol)
    (htr : InRange toRow) (htc : InRange toCol) :
    Returns (isPawnMoveT s fromRow fromCol toRow toCol color)
      (isPawnMove s fromRow fromCol toRow toCol color)
      (fun sq => (sq = (toRow, toCol) ∨ sq = (fromRow, toCol) ∨
        (fromRow = pawnStartRow color ∧ sq = (fromRow + pawnDirection color, fromCol))) ∧
        OnBoard sq) := by
  generalize hP : (fun sq : Square => (sq = (toRow, toCol) ∨ sq = (fromRow, toCol) ∨
    (fromRow = pawnStartRow color ∧ sq = (fromRow + pawnDirection color, fromCol))) ∧
    OnBoard sq) = P
  have hto : Returns (readBoard s.board toRow toCol) (s.board toRow toCol) P := by
    refine returns_readBoard s.board toRow toCol P htr htc ?_
    rw [← hP]
    exact ⟨Or.inl rfl, htr, htc⟩
  have hside : Returns (readBoard s.board fromRow toCol) (s.board fromRow toCol) P := by
    refine returns_readBoard s.board fromRow toCol P hfr htc ?_
    rw [← hP]
    exact ⟨Or.inr (Or.inl rfl), hfr, htc⟩
  have hmid : fromRow = pawnStartRow color →
      Returns (readBoard s.board (fromRow + pawnDirection color) fromCol)
        (s.board (fromRow + pawnDirection color) fromCol) P := by
    intro hst
    have hin : InRange (fromRow + pawnDirection color) := by
      rw [hst]
      cases color <;> simp [pawnStartRow, pawnDirection, InRange]
    refine returns_readBoard s.board _ fromCol P hin hfc ?_
    rw [← hP]
    exact ⟨Or.inr (Or.inr ⟨hst, rfl⟩), hin, hfc⟩
  have h1 : Returns
      (if (toCol - fromCol).natAbs = 0 ∧ toRow - fromRow = pawnDirection color then
        bindE (readBoard s.board toRow toCol) fun x => retE x.isNone
      else retE false)
      (decide ((toCol - fromCol).natAbs = 0 ∧ toRow - fromRow = pawnDirection color) &&
        (s.board toRow toCol).isNone) P := by
    by_cases h : (toCol - fromCol).natAbs = 0 ∧ toRow - fromRow = pawnDirection color
    · rw [if_pos h]
      rw [decide_eq_true h, Bool.true_and]
      exact returns_bindE hto (returns_retE _ P)
    · rw [if_neg h]
      rw [decide_eq_false h, Bool.false_and]
      exact returns_retE false P
  have h2 : Returns
      (if (toCol - fromCol).natAbs = 0 ∧ fromRow = pawnStartRow color ∧
          toRow - fromRow = 2 * pawnDirection color then
        andThenE (bindE (readBoard s.board toRow toCol) fun x => retE x.isNone)
          (bindE (readBoard s.board (fromRow + pawnDirection color) fromCol) fun x =>
            retE x.isNone)
      else retE false)
      (decide ((toCol - fromCol).natAbs = 0 ∧ fromRow = pawnStartRow color ∧
          toRow - fromRow = 2 * pawnDirection color) &&
        ((s.board toRow toCol).isNone &&
          (s.board (fromRow + pawnDirection color) fromCol).isNone)) P := by
    by_cases h : (toCol - fromCol).natAbs = 0 ∧ fromRow = pawnStartRow color ∧
        toRow - fromRow = 2 * pawnDirection color
    · rw [if_pos h]
      rw [decide_eq_true h, Bool.true_and]
      exact returns_andThenE (returns_bindE hto (returns_retE _ P))
        (fun _ => returns_bindE (hmid h.2.1) (returns_retE _ P))
    · rw [if_neg h]
      rw [decide_eq_false h, Bool.false_and]
      exact returns_retE false P
  have h3 : Returns
      (if (toCol - fromCol).natAbs = 1 ∧ toRow - fromRow = pawnDirection color then
        bindE (readBoard s.board toRow toCol) fun x => retE x.isSome
      else retE false)
      (decide ((toCol - fromCol).natAbs = 1 ∧ toRow - fromRow = pawnDirection color) &&
        (s.board toRow toCol).isSome) P := by
    by_cases h : (toCol - fromCol).natAbs = 1 ∧ toRow - fromRow = pawnDirection color
    · rw [if_pos h]
      rw [decide_eq_true h, Bool.true_and]
      exact returns_bindE hto (returns_retE _ P)
    · rw [if_neg h]
      rw [decide_eq_false h, Bool.false_and]
      exact returns_retE false P
  have h4 : ∀ lastFrom lastTo : Square, Returns
      (if (toCol - fromCol).natAbs = 1 ∧ toRow - fromRow = pawnDirection color ∧
          lastTo.1 = fromRow ∧ lastTo.2 = toCol then
        andThenE
          (bindE (readBoard s.board fromRow toCol) fun x =>
            retE (decide (getPieceType x = some Kind.p)))
          (bindE (readBoard s.board fromRow toCol) fun x =>
            retE (decide (getPieceColor x ≠ some color ∧ (lastFrom.1 - lastTo.1).natAbs = 2)))
      else retE false)
      (decide ((toCol - fromCol).natAbs = 1 ∧ toRow - fromRow = pawnDirection color ∧
          lastTo.1 = fromRow ∧ lastTo.2 = toCol) &&
        (decide (getPieceType (s.board fromRow toCol) = some Kind.p) &&
          decide (getPieceColor (s.board fromRow toCol) ≠ some color ∧
            (lastFrom.1 - lastTo.1).natAbs = 2))) P := by
    intro lastFrom lastTo
    by_cases h : (toCol - fromCol).natAbs = 1 ∧ toRow - fromRow = pawnDirection color ∧
        lastTo.1 = fromRow ∧ lastTo.2 = toCol
    · rw [if_pos h]
      rw [decide_eq_true h, Bool.true_and]
      exact returns_andThenE (returns_bindE hside (returns_retE _ P))
        (fun _ => returns_bindE hside (returns_retE _ P))
    · rw [if_neg h]
      rw [decide_eq_false h, Bool.false_and]
      exact returns_retE false P
  have hbash : ∀ (A1 A2 A3 A4 A5 : Prop) [Decidable A1] [Decidable A2] [Decidable A3]
      [Decidable A4] [Decidable A5] (t m : Cell) (e : Bool),
      ((decide (A1 ∧ A2) && t.isNone) || ((decide (A1 ∧ A3 ∧ A4) && (t.isNone && m.isNone)) ||
        ((decide (A5 ∧ A2) && t.isSome) || e))) =
      (if A1 ∧ A2 ∧ t.isNone = true then true
        else if A1 ∧ A3 ∧ A4 ∧ t.isNone = true ∧ m.isNone = true then true
        else if A5 ∧ A2 ∧ t.isSome = true then true
        else e) := by
    intro A1 A2 A3 A4 A5 _ _ _ _ _ t m e
    by_cases c1 : A1 <;> by_cases c2 : A2 <;> by_cases c3 : A3 <;> by_cases c4 : A4 <;>
      by_cases c5 : A5 <;> cases t <;> cases m <;> simp [c1, c2, c3, c4, c5]
  rcases hlm : s.lastMove with _ | ⟨lastFrom, lastTo⟩
  · unfold isPawnMoveT
    simp only [hlm]
    refine returns_of_eq (returns_orElseE h1 (fun _ => returns_orElseE h2
      (fun _ => returns_orElseE h3 (fun _ => returns_retE false P)))) ?_
    unfold isPawnMove
    simp only [hlm]
    exact hbash _ _ _ _ _ _ _ _
  · unfold isPawnMoveT
    simp only [hlm]
    refine returns_of_eq (returns_orElseE h1 (fun _ => returns_orElseE h2
      (fun _ => returns_orElseE h3 (fun _ => h4 lastFrom lastTo)))) ?_
    have he : (decide ((toCol - fromCol).natAbs = 1 ∧ toRow - fromRow = pawnDirection color ∧
          lastTo.1 = fromRow ∧ lastTo.2 = toCol) &&
        (decide (getPieceType (s.board fromRow toCol) = some Kind.p) &&
          decide (getPieceColor (s.board fromRow toCol) ≠ some color ∧
            (lastFrom.1 - lastTo.1).natAbs = 2))) =
        (if (toCol - fromCol).natAbs = 1 ∧
            toRow - fromRow = (if color = Color.white then -1 else 1) then
          decide (lastTo.1 = fromRow ∧ lastTo.2 = toCol ∧
            getPieceType (s.board fromRow toCol) = some Kind.p ∧
            getPieceColor (s.board fromRow toCol) ≠ some color ∧
            (lastFrom.1 - lastTo.1).natAbs = 2)
        else false) := by
      unfold pawnDirection
      by_cases c1 : (toCol - fromCol).natAbs = 1 <;>
        by_cases c2 : toRow - fromRow = (if color = Color.white then -1 else 1) <;>
        simp [c1, c2, Bool.and_assoc]
    rw [he]
    unfold isPawnMove
    simp only [hlm]
    exact hbash _ _ _ _ _ _ _ _

theorem returns_movementRuleT (s : State) (piece : Piece) (fromRow fromCol toRow toCol : Int)
    (fuel : Nat) (hfuel : 7 ≤ fuel) (hfr : InRange fromRow) (hfc : InRange fromCol)
    (htr : InRange toRow) (htc : InRange toCol)
    (hp : s.board fromRow fromCol = some piece) :
    Returns (movementRuleT fuel s piece fromRow fromCol toRow toCol)
      (isLegalMoveRule s fromRow fromCol toRow toCol) OnBoard := by
  obtain ⟨c, kind⟩ := piece
  unfold movementRuleT isLegalMoveRule
  simp only [hp]
  refine returns_bindE (returns_readBoard s.board toRow toCol OnBoard htr htc ⟨htr, htc⟩) ?_
  by_cases h1 : getPieceColor (s.board toRow toCol) = some c
  · rw [if_pos h1, if_pos h1]
    exact returns_retE false OnBoard
  · rw [if_neg h1, if_neg h1]
    by_cases h2 : s.queenRushActive = true ∧ c = s.currentPlayer
    · rw [if_pos h2, if_pos h2]
      exact returns_isQueenMoveT s fromRow fromCol toRow toCol fuel hfuel hfr hfc htr htc
    · rw [if_neg h2, if_neg h2]
      cases kind
      · exact returns_mono (returns_isPawnMoveT s fromRow fromCol toRow toCol c hfr hfc htr htc)
          (fun _ h => h.2)
      · exact returns_isRookMoveT s fromRow fromCol toRow toCol fuel hfuel hfr hfc htr htc
      · exact returns_retE _ OnBoard
      · exact returns_isBishopMoveT s fromRow fromCol toRow toCol fuel hfuel hfr hfc htr htc
      · exact returns_isQueenMoveT s fromRow fromCol toRow toCol fuel hfuel hfr hfc htr htc
      · exact returns_isKingMoveT s fromRow fromCol toRow toCol htr htc

theorem returns_isLegalMoveRuleT (s : State) (fromRow fromCol toRow toCol : Int)
    (fuel : Nat) (hfuel : 7 ≤ fuel) (hfr : InRange fromRow) (hfc : InRange fromCol)
    (htr : InRange toRow) (htc : InRange toCol) :
    Returns (isLegalMoveRuleT fuel s fromRow fromCol toRow toCol)
      (isLegalMoveRule s fromRow fromCol toRow toCol) OnBoard := by
  unfold isLegalMoveRuleT
  refine returns_bindE (returns_readBoard s.board fromRow fromCol OnBoard hfr hfc ⟨hfr, hfc⟩) ?_
  cases hp : s.board fromRow fromCol with
  | none =>
    have hv : isLegalMoveRule s fromRow fromCol toRow toCol = false := by
      simp [isLegalMoveRule, hp]
    rw [hv]
    exact returns_retE false OnBoard
  | some piece =>
    exact returns_movementRuleT s piece fromRow fromCol toRow toCol fuel hfuel hfr hfc htr htc hp

theorem returns_isInCheckT (s : State) (color : Color) (fuel : Nat) (hfuel : 7 ≤ fuel) :
    Returns (isInCheckT fuel s color) (isInCheck s color) OnBoard := by
  unfold isInCheckT isInCheck
  have hall : ∀ sq ∈ allSquares, OnBoard sq ∧ OnBoard sq := by
    intro sq hsq
    exact ⟨(mem_allSquares sq.1 sq.2).mp hsq, (mem_allSquares sq.1 sq.2).mp hsq⟩
  have hfind := returns_findKingT s color OnBoard allSquares hall
  refine returns_bindE hfind ?_
  cases hk : findKing s color with
  | none =>
    unfold findKing at hk
    rw [hk]
    exact returns_retE false OnBoard
  | some kingPos =>
    obtain ⟨kingRow, kingCol⟩ := kingPos
    obtain ⟨hkr, hkc, -⟩ := findKing_some s color kingRow kingCol hk
    unfold findKing at hk
    rw [hk]
    refine returns_anyE _ _ OnBoard allSquares ?_
    intro sq hsq
    have hin := (mem_allSquares sq.1 sq.2).mp hsq
    refine returns_bindE (returns_readBoard s.board sq.1 sq.2 OnBoard hin.1 hin.2 hin) ?_
    by_cases hc : getPieceColor (s.board sq.1 sq.2) = some (opponentOf color)
    · rw [if_pos hc, decide_eq_true hc, Bool.true_and]
      exact returns_isLegalMoveRuleT s sq.1 sq.2 kingRow kingCol fuel hfuel hin.1 hin.2 hkr hkc
    · rw [if_neg hc, decide_eq_false hc, Bool.false_and]
      exact returns_retE false OnBoard

theorem returns_isLegalMoveT (s : State) (fromRow fromCol toRow toCol : Int)
    (testMode : Bool) (fuel : Nat) (hfuel : 7 ≤ fuel) (hfr : InRange fromRow)
    (hfc : InRange fromCol) (htr : InRange toRow) (htc : InRange toCol) :
    Returns (isLegalMoveT fuel s fromRow fromCol toRow toCol testMode)
      (isLegalMove s fromRow fromCol toRow toCol testMode) OnBoard := by
  unfold isLegalMoveT isLegalMove isLegalMoveSt
  refine returns_bindE (returns_readBoard s.board fromRow fromCol OnBoard hfr hfc ⟨hfr, hfc⟩) ?_
  cases hp : s.board fromRow fromCol with
  | none => exact returns_retE false OnBoard
  | some piece =>
    simp only
    refine returns_bindE
      (returns_movementRuleT s piece fromRow fromCol toRow toCol fuel hfuel hfr hfc htr htc hp) ?_
    by_cases hrule : isLegalMoveRule s fromRow fromCol toRow toCol = false
    · rw [if_pos hrule, if_pos hrule]
      exact returns_retE false OnBoard
    · rw [if_neg hrule, if_neg hrule]
      cases testMode with
      | true => exact returns_retE true OnBoard
      | false =>
        simp only [if_true]
        refine returns_bindE (returns_isInCheckT _ piece.color fuel hfuel) ?_
        split <;> rename_i hc
        · rw [hc]
          exact returns_retE false OnBoard
        · have hc2 := Bool.eq_false_iff.mpr hc
          rw [hc2]
          exact returns_retE true OnBoard

/-- C31.  On the 8x8 board, for source and destination coordinates in `0..7`,
every state, both values of `testMode` and every budget of at least seven
tests of the loop condition of `isPathClear`, the call of `isLegalMove` ends
without throwing, returns the value of `isLegalMove`, and reads only squares
of the board (the check simulation included).  `isRookMove` and `isBishopMove`
answer false without any read unless the two squares share a row, a column or
a diagonal, and otherwise hand the pair to `isPathClear`; for such a pair the
loop of `isPathClear` ends within the seven tests, makes fewer than seven
reads, and reads only squares strictly between the two.  `isPawnMove` ends for
either colour and reads only the destination, the square `(fromRow, toCol)`
of the en-passant test and, when the pawn stands on its start rank, the
square `(fromRow + direction, fromCol)`; all of them lie on the board. -/
theorem isLegalMove_total (s : State) (fromRow fromCol toRow toCol : Int) (testMode : Bool)
    (fuel : Nat) (hfuel : 7 ≤ fuel) (hfr : InRange fromRow) (hfc : InRange fromCol)
    (htr : InRange toRow) (htc : InRange toCol) :
    (∃ reads, isLegalMoveT fuel s fromRow fromCol toRow toCol testMode =
        some (isLegalMove s fromRow fromCol toRow toCol testMode, reads) ∧
      ∀ sq ∈ reads, InRange sq.1 ∧ InRange sq.2) ∧
    (¬ (fromRow = toRow ∨ fromCol = toCol) →
      isRookMoveT fuel s fromRow fromCol toRow toCol = some (false, [])) ∧
    (fromRow = toRow ∨ fromCol = toCol →
      isRookMoveT fuel s fromRow fromCol toRow toCol =
        isPathClearT fuel s fromRow fromCol toRow toCol) ∧
    (¬ (fromRow - toRow).natAbs = (fromCol - toCol).natAbs →
      isBishopMoveT fuel s fromRow fromCol toRow toCol = some (false, [])) ∧
    ((fromRow - toRow).natAbs = (fromCol - toCol).natAbs →
      isBishopMoveT fuel s fromRow fromCol toRow toCol =
        isPathClearT fuel s fromRow fromCol toRow toCol) ∧
    (fromRow = toRow ∨ fromCol = toCol ∨
        (fromRow - toRow).natAbs = (fromCol - toCol).natAbs →
      ∃ reads, isPathClearT fuel s fromRow fromCol toRow toCol =
          some (isPathClear s fromRow fromCol toRow toCol, reads) ∧
        reads.length < 7 ∧
        ∀ sq ∈ reads, StrictlyBetween fromRow fromCol toRow toCol sq ∧ OnBoard sq) ∧
    (∀ color : Color,
      ∃ reads, isPawnMoveT s fromRow fromCol toRow toCol color =
          some (isPawnMove s fromRow fromCol toRow toCol color, reads) ∧
        ∀ sq ∈ reads,
          (sq = (toRow, toCol) ∨ sq = (fromRow, toCol) ∨
            (fromRow = pawnStartRow color ∧ sq = (fromRow + pawnDirection color, fromCol))) ∧
          OnBoard sq) := by
  refine ⟨returns_isLegalMoveT s fromRow fromCol toRow toCol testMode fuel hfuel hfr hfc htr htc,
    ?_, ?_, ?_, ?_,
    isPathClearT_aligned s fromRow fromCol toRow toCol fuel hfuel hfr hfc htr htc,
    fun color => returns_isPawnMoveT s fromRow fromCol toRow toCol color hfr hfc htr htc⟩
  · intro h
    have h2 : fromRow ≠ toRow ∧ fromCol ≠ toCol :=
      ⟨fun e => h (Or.inl e), fun e => h (Or.inr e)⟩
    unfold isRookMoveT
    rw [if_pos h2]
    rfl
  · intro h
    have h2 : ¬ (fromRow ≠ toRow ∧ fromCol ≠ toCol) := by
      rintro ⟨h3, h4⟩
      rcases h with h | h
      · exact h3 h
      · exact h4 h
    unfold isRookMoveT
    rw [if_neg h2]
  · intro h
    unfold isBishopMoveT
    rw [if_pos h]
    rfl
  · intro h
    unfold isBishopMoveT
    rw [if_neg (not_not.mpr h)]

/-- Witness for C31: the rook's call `isLegalMove(7, 0, 3, 0)` in the initial
position, with a budget of seven. -/
theorem isLegalMove_total_witness :
    (7 ≤ 7 ∧ InRange 7 ∧ InRange 0 ∧ InRange 3) ∧
    (∃ reads, isLegalMoveT 7 initialState 7 0 3 0 false =
        some (isLegalMove initialState 7 0 3 0 false, reads) ∧
      ∀ sq ∈ reads, InRange sq.1 ∧ InRange sq.2) ∧
    (∃ reads, isPathClearT 7 initialState 7 0 3 0 =
        some (isPathClear initialState 7 0 3 0, reads) ∧
      reads.length < 7 ∧
      ∀ sq ∈ reads, StrictlyBetween 7 0 3 0 sq ∧ OnBoard sq) :=
  have h := isLegalMove_total initialState 7 0 3 0 false 7 (Nat.le_refl 7)
    (by decide) (by decide) (by decide) (by decide)
  ⟨⟨Nat.le_refl 7, by decide, by decide, by decide⟩, h.1,
    h.2.2.2.2.2.1 (Or.inr (Or.inl rfl))⟩

end Chess
